import Mathlib

/-!
# ECEN2370 firmware: energy-mode arbiter and event scheduler

A shallow embedding of `sleep_routines.c`, `scheduler.c` and the idle check of
`main.c` (project `WS_SPI_Project`), followed by the properties proved about
them.

Conventions of the embedding.

* The file-scope array `static int lowest_energy_mode[MAX_ENERGY_MODES]` is a
  `BlockTable`, a function from the five indices to `Int`; it is passed in and
  returned explicitly.
* `EFM_ASSERT` is fatal: a call whose assertion fails ends in
  `Outcome.assertFail`, carrying the table as it stands at the assertion.
* What C leaves undefined (an index outside the array, `++` on `INT_MAX`,
  `--` on `INT_MIN`) ends in `Outcome.undefined`; nothing is proved about the
  continuation of such a call.
* `unsigned int` and `uint32_t` are `Nat` reduced modulo `2 ^ 32`.
* The critical sections (`CORE_ENTER_CRITICAL` / `CORE_EXIT_CRITICAL`) only
  mask interrupts; in this sequential embedding every call is one step.
-/

namespace ECEN2370

/-! ## sleep_routines.h -/

abbrev EM0 : Nat := 0
abbrev EM1 : Nat := 1
abbrev EM2 : Nat := 2
abbrev EM3 : Nat := 3
abbrev EM4 : Nat := 4
abbrev MAX_ENERGY_MODES : Nat := 5

/-- Largest value of a C `int` on the target (32 bit). -/
def INT_MAX : Int := 2147483647

/-- Smallest value of a C `int` on the target (32 bit). -/
def INT_MIN : Int := -2147483648

/-- The array `lowest_energy_mode`: one signed count per energy mode. -/
abbrev BlockTable := Fin MAX_ENERGY_MODES → Int

/-- How a call that contains an `EFM_ASSERT` ends. -/
inductive Outcome (σ : Type) where
  /-- The call returned; `s` is the state it leaves. -/
  | ok (s : σ)
  /-- An `EFM_ASSERT` failed; `s` is the state at the assertion. -/
  | assertFail (s : σ)
  /-- The call ran into behaviour that C leaves undefined. -/
  | undefined
  deriving DecidableEq

/-- The call returned normally. -/
def Outcome.isOk {σ : Type} : Outcome σ → Bool
  | .ok _ => true
  | _ => false

/-- The call stopped at a failed `EFM_ASSERT`. -/
def Outcome.isAssertFail {σ : Type} : Outcome σ → Bool
  | .assertFail _ => true
  | _ => false

/-- The sleep instruction that `enter_sleep` issues, if any. -/
inductive SleepEntry where
  /-- An empty branch: no sleep instruction, the core stays in EM0. -/
  | noSleep
  | EMU_EnterEM1
  | EMU_EnterEM2 (restore : Bool)
  | EMU_EnterEM3 (restore : Bool)
  deriving DecidableEq, Repr

/-- The energy mode the core is in after the instruction. -/
def SleepEntry.mode : SleepEntry → Nat
  | .noSleep => EM0
  | .EMU_EnterEM1 => EM1
  | .EMU_EnterEM2 _ => EM2
  | .EMU_EnterEM3 _ => EM3

/-! ## sleep_routines.c -/

/-- The cascade of `enter_sleep`. -/
def enter_sleep (t : BlockTable) : SleepEntry :=
  if t ⟨EM0, by decide⟩ > 0 then .noSleep
  else if t ⟨EM1, by decide⟩ > 0 then .noSleep
  else if t ⟨EM2, by decide⟩ > 0 then .EMU_EnterEM1
  else if t ⟨EM3, by decide⟩ > 0 then .EMU_EnterEM2 true
  else .EMU_EnterEM3 true

/-- The loop of `current_block_energy_mode`, entered with loop variable `i`
and `remaining` iterations to go before `i` reaches `MAX_ENERGY_MODES`. -/
def current_block_energy_mode_loop (t : BlockTable) : (remaining : Nat) → (i : Nat) → Nat
  | 0, _ => MAX_ENERGY_MODES - 1
  | remaining + 1, i =>
    if h : i < MAX_ENERGY_MODES then
      if t ⟨i, h⟩ ≠ 0 then i
      else current_block_energy_mode_loop t remaining (i + 1)
    else MAX_ENERGY_MODES - 1

/-- The function `current_block_energy_mode`. -/
def current_block_energy_mode (t : BlockTable) : Nat :=
  current_block_energy_mode_loop t MAX_ENERGY_MODES 0

/-- The function `sleep_block_mode`: increment, then assert `< 5`. -/
def sleep_block_mode (t : BlockTable) (EM : Nat) : Outcome BlockTable :=
  if h : EM < MAX_ENERGY_MODES then
    if INT_MAX ≤ t ⟨EM, h⟩ then .undefined
    else
      let t1 := Function.update t ⟨EM, h⟩ (t ⟨EM, h⟩ + 1)
      if t1 ⟨EM, h⟩ < 5 then .ok t1 else .assertFail t1
  else .undefined

/-- The function `sleep_unblock_mode`: decrement, then assert `>= 0`. -/
def sleep_unblock_mode (t : BlockTable) (EM : Nat) : Outcome BlockTable :=
  if h : EM < MAX_ENERGY_MODES then
    if t ⟨EM, h⟩ ≤ INT_MIN then .undefined
    else
      let t1 := Function.update t ⟨EM, h⟩ (t ⟨EM, h⟩ - 1)
      if t1 ⟨EM, h⟩ ≥ 0 then .ok t1 else .assertFail t1
  else .undefined

/-- The loop of `sleep_open`, entered with loop variable `i`. -/
def sleep_open_loop (t : BlockTable) : (remaining : Nat) → (i : Nat) → BlockTable
  | 0, _ => t
  | remaining + 1, i =>
    if h : i < MAX_ENERGY_MODES then
      sleep_open_loop (Function.update t ⟨i, h⟩ 0) remaining (i + 1)
    else t

/-- The function `sleep_open`. -/
def sleep_open (t : BlockTable) : BlockTable :=
  sleep_open_loop t MAX_ENERGY_MODES 0

/-- One call into the arbiter by a peripheral driver. -/
inductive SleepCall where
  | block (EM : Nat)
  | unblock (EM : Nat)
  deriving DecidableEq, Repr

/-- The level a call names. -/
def SleepCall.level : SleepCall → Nat
  | .block EM => EM
  | .unblock EM => EM

/-- Perform one call on the table. -/
def SleepCall.run (t : BlockTable) : SleepCall → Outcome BlockTable
  | .block EM => sleep_block_mode t EM
  | .unblock EM => sleep_unblock_mode t EM

/-- Perform a sequence of calls, first to last; a failed assertion or undefined
behaviour ends the run, since `EFM_ASSERT` does not return. -/
def runCalls (t : BlockTable) : List SleepCall → Outcome BlockTable
  | [] => .ok t
  | c :: cs =>
    match c.run t with
    | .ok t1 => runCalls t1 cs
    | .assertFail t1 => .assertFail t1
    | .undefined => .undefined

/-- How many times the sequence calls `sleep_block_mode(L)`. -/
def blockCount (L : Nat) (calls : List SleepCall) : Nat :=
  calls.count (SleepCall.block L)

/-- How many times the sequence calls `sleep_unblock_mode(L)`. -/
def unblockCount (L : Nat) (calls : List SleepCall) : Nat :=
  calls.count (SleepCall.unblock L)

/-! ## scheduler.c -/

/-- The file-scope variable `static unsigned int event_scheduled`. -/
structure Scheduler where
  event_scheduled : Nat
  deriving DecidableEq, Repr

/-- The function `scheduler_open`. -/
def scheduler_open (_s : Scheduler) : Scheduler :=
  { event_scheduled := 0 }

/-- The function `add_scheduled_event`: `event_scheduled |= event`. -/
def add_scheduled_event (s : Scheduler) (event : Nat) : Scheduler :=
  { event_scheduled := (s.event_scheduled ||| (event % 2 ^ 32)) % 2 ^ 32 }

/-- The function `remove_scheduled_event`: `event_scheduled &= ~event`, where
`~event` is the 32-bit complement `2 ^ 32 - 1 - event`. -/
def remove_scheduled_event (s : Scheduler) (event : Nat) : Scheduler :=
  { event_scheduled := (s.event_scheduled &&& (2 ^ 32 - 1 - event % 2 ^ 32)) % 2 ^ 32 }

/-- The function `get_scheduled_events`. -/
def get_scheduled_events (s : Scheduler) : Nat :=
  s.event_scheduled % 2 ^ 32

/-! ## main.c: the idle check at the top of the dispatch loop -/

/-- The statement `if(!get_scheduled_events()) enter_sleep();` of `main`:
the sleep instruction issued by the idle check, `none` when `enter_sleep` is
not called. -/
def idle_check (s : Scheduler) (t : BlockTable) : Option SleepEntry :=
  if get_scheduled_events s = 0 then some (enter_sleep t) else none

/-! ## i2c.h -/

abbrev I2C_EM_BLOCK : Nat := EM2

/-- The read direction bit `R`. -/
abbrev R : Nat := 1

/-- The write direction bit `W`. -/
abbrev W : Nat := 0

/-- The enumeration `DEFINED_STATES`. -/
inductive DEFINED_STATES where
  | START_WRITE
  | SEND_REG
  | START_READ
  | READ_DATA
  | DONE_STATE
  | WRITE_DATA
  | SEND_STOP
  deriving DecidableEq, Repr

/-- The two I2C peripherals of the device, the values an `I2C_TypeDef *` takes
in this driver. -/
inductive I2C_TypeDef where
  | I2C0
  | I2C1
  deriving DecidableEq, Repr

/-- The structure `I2C_STATE_MACHINE`. The `int` fields are `Int`, the
`uint32_t` fields are `Nat`, and `data` is the position of the pointer in the
word-addressed data memory of `I2CWorld`. -/
structure I2C_STATE_MACHINE where
  i2c : I2C_TypeDef
  state : DEFINED_STATES
  bytesRequested : Int
  bytesDone : Int
  slaveAddress : Nat
  regAddress : Nat
  data : Nat
  RW : Int
  busy : Bool
  cb : Nat
  deriving DecidableEq, Repr

/-- The commands the driver writes to the `CMD` register of an I2C peripheral;
`START_STOP` is the value `I2C_CMD_START | I2C_CMD_STOP`. -/
inductive I2C_CMD where
  | START
  | STOP
  | ACK
  | NACK
  | ABORT
  | CLEARTX
  | START_STOP
  deriving DecidableEq, Repr

/-- A store to a register of an I2C peripheral. -/
inductive I2C_WRITE where
  | CMD (i2c : I2C_TypeDef) (c : I2C_CMD)
  | TXDATA (i2c : I2C_TypeDef) (v : Nat)
  deriving DecidableEq, Repr

/-- Everything the I2C driver reads or writes: its two state machines, the data
memory the `data` pointers point into, the stores made to the peripherals'
registers in the order they were made, the block table and the scheduler. -/
structure I2CWorld where
  state_machine0 : I2C_STATE_MACHINE
  state_machine1 : I2C_STATE_MACHINE
  mem : Nat → Nat
  regWrites : List I2C_WRITE
  table : BlockTable
  sched : Scheduler

/-- The state machine of a bus: `state_machine0` for `I2C0`, `state_machine1`
for `I2C1`. The interrupt handler of a bus passes the address of this machine
to `i2c_ack`, `i2c_rxdata` and `i2c_mstop`. -/
def I2CWorld.sm (w : I2CWorld) : I2C_TypeDef → I2C_STATE_MACHINE
  | .I2C0 => w.state_machine0
  | .I2C1 => w.state_machine1

/-- Store through the pointer to the state machine of a bus. -/
def I2CWorld.setSm (w : I2CWorld) (b : I2C_TypeDef) (sm : I2C_STATE_MACHINE) : I2CWorld :=
  match b with
  | .I2C0 => { w with state_machine0 := sm }
  | .I2C1 => { w with state_machine1 := sm }

/-- Record a store to a peripheral register. -/
def I2CWorld.write (w : I2CWorld) (x : I2C_WRITE) : I2CWorld :=
  { w with regWrites := w.regWrites ++ [x] }

/-- Store a word in the data memory. -/
def I2CWorld.store (w : I2CWorld) (p : Nat) (v : Nat) : I2CWorld :=
  { w with mem := Function.update w.mem p (v % 2 ^ 32) }

/-! ## i2c.c -/

/-- The last three statements of `i2c_start`: block the energy mode, issue
START, transmit the address with the write bit. -/
def i2c_start_tail (w : I2CWorld) (i2c : I2C_TypeDef) (address : Nat) : Outcome I2CWorld :=
  match sleep_block_mode w.table I2C_EM_BLOCK with
  | .ok t =>
    .ok ((({ w with table := t } : I2CWorld).write (.CMD i2c .START)).write
      (.TXDATA i2c (((address % 2 ^ 32) <<< 1) % 2 ^ 32 ||| W)))
  | .assertFail t => .assertFail { w with table := t }
  | .undefined => .undefined

/-- The function `i2c_start`. `busIdle` is the value of the comparison
`(I2Cx->STATE & _I2C_STATE_STATE_MASK) == I2C_STATE_STATE_IDLE` read from the
peripheral. The result is `none` when the call stays in the loop
`while(state_machineX.busy);`, which only an interrupt can end. -/
def i2c_start (w : I2CWorld) (i2c : I2C_TypeDef) (busIdle : Bool) (bytesRequested : Int)
    (address regAddress data : Nat) (RW : Int) (cb : Int) : Option (Outcome I2CWorld) :=
  match i2c with
  | .I2C0 =>
    if w.state_machine0.busy then none
    else if !busIdle then some (.assertFail w)
    else
      some (i2c_start_tail
        { w with state_machine0 :=
          { i2c := i2c
            bytesRequested := bytesRequested
            bytesDone := 0
            slaveAddress := address % 2 ^ 32
            regAddress := regAddress % 2 ^ 32
            data := data
            state := .START_WRITE
            busy := true
            RW := RW
            cb := (cb % 2 ^ 32).toNat } } i2c address)
  | .I2C1 =>
    if w.state_machine1.busy then none
    else if !busIdle then some (.assertFail w)
    else
      some (i2c_start_tail
        { w with state_machine1 :=
          { i2c := i2c
            bytesRequested := bytesRequested
            bytesDone := 0
            slaveAddress := address % 2 ^ 32
            regAddress := regAddress % 2 ^ 32
            data := data
            state := .START_WRITE
            busy := true
            RW := RW
            cb := (cb % 2 ^ 32).toNat } } i2c address)

/-- The function `i2c_sm1_busy`. -/
def i2c_sm1_busy (w : I2CWorld) : Bool :=
  w.state_machine1.busy

/-- The statements `sm->i2c->TXDATA = *(sm->data++); sm->bytesDone++;` shared
by the `SEND_REG` and `WRITE_DATA` cases of `i2c_ack`, after the state has been
set to `next`. -/
def i2c_send_data (w : I2CWorld) (b : I2C_TypeDef) (next : DEFINED_STATES) : Outcome I2CWorld :=
  let sm := w.sm b
  if INT_MAX ≤ sm.bytesDone then .undefined
  else
    .ok ((w.setSm b { sm with state := next, data := sm.data + 1, bytesDone := sm.bytesDone + 1 }).write
      (.TXDATA sm.i2c (w.mem sm.data)))

/-- The function `i2c_ack`, called with the state machine of bus `b`. -/
def i2c_ack (w : I2CWorld) (b : I2C_TypeDef) : Outcome I2CWorld :=
  let sm := w.sm b
  match sm.state with
  | .START_WRITE =>
    .ok ((w.setSm b { sm with state := .SEND_REG }).write (.TXDATA sm.i2c sm.regAddress))
  | .SEND_REG =>
    if sm.RW = (R : Int) then
      .ok (((w.setSm b { sm with state := .START_READ }).write (.CMD sm.i2c .START)).write
        (.TXDATA sm.i2c ((sm.slaveAddress <<< 1) % 2 ^ 32 ||| R)))
    else if sm.RW = (W : Int) then i2c_send_data w b .WRITE_DATA
    else .ok w
  | .START_READ =>
    if sm.RW = (W : Int) then .assertFail w
    else .ok (w.setSm b { sm with state := .READ_DATA })
  | .WRITE_DATA =>
    if sm.RW = (R : Int) then .assertFail w
    else if sm.bytesDone = sm.bytesRequested then
      .ok ((w.setSm b { sm with state := .SEND_STOP }).write (.CMD sm.i2c .STOP))
    else i2c_send_data w b .WRITE_DATA
  | .READ_DATA => .ok w
  | _ => .assertFail w

/-- The function `i2c_rxdata`, called with the state machine of bus `b`;
`rxdata` is the value read from the `RXDATA` register. -/
def i2c_rxdata (w : I2CWorld) (b : I2C_TypeDef) (rxdata : Nat) : Outcome I2CWorld :=
  let sm := w.sm b
  match sm.state with
  | .READ_DATA =>
    if sm.RW = (W : Int) then .assertFail w
    else if INT_MAX ≤ sm.bytesDone then .undefined
    else
      let sm1 := { sm with data := sm.data + 1, bytesDone := sm.bytesDone + 1 }
      let w1 := w.store sm.data rxdata
      if sm1.bytesDone = sm1.bytesRequested then
        .ok (((w1.setSm b { sm1 with state := .SEND_STOP }).write (.CMD sm.i2c .NACK)).write
          (.CMD sm.i2c .STOP))
      else
        .ok ((w1.setSm b sm1).write (.CMD sm.i2c .ACK))
  | _ => .assertFail w

/-- The function `i2c_mstop`, called with the state machine of bus `b`. -/
def i2c_mstop (w : I2CWorld) (b : I2C_TypeDef) : Outcome I2CWorld :=
  let sm := w.sm b
  match sm.state with
  | .SEND_STOP =>
    let w1 := w.setSm b { sm with busy := false, state := .DONE_STATE }
    match sleep_unblock_mode w1.table I2C_EM_BLOCK with
    | .ok t => .ok { w1 with table := t, sched := add_scheduled_event w1.sched sm.cb }
    | .assertFail t => .assertFail { w1 with table := t }
    | .undefined => .undefined
  | _ => .assertFail w

/-- One interrupt of an I2C bus, by the flag that raised it. -/
inductive I2C_IRQ where
  | ACK
  | RXDATAV (rxdata : Nat)
  | MSTOP
  deriving DecidableEq, Repr

/-- The helper the interrupt handler of bus `b` calls for one interrupt. -/
def I2C_IRQ.run (w : I2CWorld) (b : I2C_TypeDef) : I2C_IRQ → Outcome I2CWorld
  | .ACK => i2c_ack w b
  | .RXDATAV rxdata => i2c_rxdata w b rxdata
  | .MSTOP => i2c_mstop w b

/-- Serve a sequence of interrupts of bus `b`, first to last; a failed assertion
or undefined behaviour ends the run. -/
def runIrqs (w : I2CWorld) (b : I2C_TypeDef) : List I2C_IRQ → Outcome I2CWorld
  | [] => .ok w
  | q :: qs =>
    match q.run w b with
    | .ok w1 => runIrqs w1 b qs
    | .assertFail w1 => .assertFail w1
    | .undefined => .undefined

/-- A state machine as static storage holds it before its first transfer: every
field zero (`START_WRITE` is the enumerator 0), serving peripheral `i2c`. -/
def I2C_STATE_MACHINE.zero (i2c : I2C_TypeDef) : I2C_STATE_MACHINE :=
  { i2c := i2c, state := .START_WRITE, bytesRequested := 0, bytesDone := 0, slaveAddress := 0,
    regAddress := 0, data := 0, RW := 0, busy := false, cb := 0 }

/-- The world after start-up: both machines idle, data memory zero, no register
store made yet, the table as `sleep_open` leaves it and the scheduler as
`scheduler_open` leaves it. -/
def I2CWorld.reset : I2CWorld :=
  { state_machine0 := I2C_STATE_MACHINE.zero .I2C0
    state_machine1 := I2C_STATE_MACHINE.zero .I2C1
    mem := fun _ => 0
    regWrites := []
    table := sleep_open (fun _ => 0)
    sched := scheduler_open ⟨0⟩ }

/-- The state a call leaves when it returns, and nothing when it does not. -/
def Outcome.result? {σ : Type} : Outcome σ → Option σ
  | .ok s => some s
  | _ => none

/-- Apply a step to the world a call returned, if it returned. -/
def Outcome.next {σ : Type} (o : Outcome σ) (f : σ → Outcome σ) : Outcome σ :=
  match o with
  | .ok s => f s
  | .assertFail s => .assertFail s
  | .undefined => .undefined

/-- Run `i2c_start` and then serve a sequence of interrupts of the same bus.
The result is `none` when `i2c_start` stays in its busy-wait loop. -/
def i2c_transfer (w : I2CWorld) (i2c : I2C_TypeDef) (busIdle : Bool) (bytesRequested : Int)
    (address regAddress data : Nat) (RW : Int) (cb : Int) (irqs : List I2C_IRQ) :
    Option (Outcome I2CWorld) :=
  (i2c_start w i2c busIdle bytesRequested address regAddress data RW cb).map
    (fun o => o.next (fun w1 => runIrqs w1 i2c irqs))

/-- An example world in the middle of a read on bus `I2C1`: the machine is in
`READ_DATA`, one byte requested, none received yet, the EM2 block of the
transfer outstanding. -/
def I2CWorld.reading : I2CWorld :=
  { I2CWorld.reset with
    state_machine1 :=
      { I2C_STATE_MACHINE.zero .I2C1 with
        state := .READ_DATA, bytesRequested := 1, slaveAddress := 0x55, RW := 1, busy := true,
        cb := 8 }
    table := ![0, 0, 1, 0, 0] }

/-- An example world at the end of a transfer on bus `I2C1`: the machine is in
`SEND_STOP`, the EM2 block of the transfer outstanding. -/
def I2CWorld.stopping : I2CWorld :=
  { I2CWorld.reset with
    state_machine1 :=
      { I2C_STATE_MACHINE.zero .I2C1 with
        state := .SEND_STOP, bytesRequested := 1, bytesDone := 1, slaveAddress := 0x55, data := 1,
        RW := 1, busy := true, cb := 8 }
    table := ![0, 0, 1, 0, 0] }

/-! ## spi.h -/

abbrev DUMMY_DATA : Nat := 0x00
abbrev USART_EM_BLOCK : Nat := EM2

/-- The enumeration `USART_DEFINED_STATES`. -/
inductive USART_DEFINED_STATES where
  | SEND_REG_SPI
  | WRITE_DATA_SPI
  | READ_DATA_SPI
  | DONE_STATE_SPI
  deriving DecidableEq, Repr

/-- The structure `USART_STATE_MACHINE` (the `usart` field always holds
`USART3` and is left out). `rdata` and `tdata` are positions in the automatic
arrays `rdata` and `tdata` of the `usart_start` call that set them. `RW` holds
the bit pattern of the `uint32_t` argument. -/
structure USART_STATE_MACHINE where
  state : USART_DEFINED_STATES
  bytesRequested : Int
  bytesSent : Int
  bytesReceived : Int
  regAddress : Nat
  rdata : Nat
  tdata : Nat
  RW : Nat
  busy : Bool
  cb : Nat
  deriving DecidableEq, Repr

/-- The interrupt sources of the USART the driver enables and disables in the
`IEN` register. -/
structure USART_IEN where
  TXC : Bool
  TXBL : Bool
  RXDATAV : Bool
  deriving DecidableEq, Repr

/-- A store to the `CMD` or `TXDATA` register of the USART. -/
inductive USART_WRITE where
  | CMD_CLEARRX
  | CMD_CLEARRX_CLEARTX
  | TXDATA (v : Nat)
  deriving DecidableEq, Repr

/-- The automatic storage of one `usart_start` call: its variable-length arrays
`tdata` and `rdata`. -/
structure UsartFrame where
  tdata : List Nat
  rdata : List Nat
  deriving DecidableEq, Repr

/-- Everything the SPI driver reads or writes. `frame` is the automatic storage
of the `usart_start` call in progress and `none` when no call is in progress:
the arrays `tdata` and `rdata` end their lifetime when `usart_start` returns.
`cs` is the level of the chip-select pin. -/
structure SpiWorld where
  sm3 : USART_STATE_MACHINE
  sm3_read_res : Nat
  frame : Option UsartFrame
  mem : Nat → Nat
  IEN : USART_IEN
  cs : Bool
  regWrites : List USART_WRITE
  table : BlockTable
  sched : Scheduler

/-- The call ran into behaviour that C leaves undefined. -/
def Outcome.isUndefined {σ : Type} : Outcome σ → Bool
  | .undefined => true
  | _ => false

/-! ## spi.c -/

/-- The function `isSm3Busy`. -/
def isSm3Busy (w : SpiWorld) : Bool :=
  w.sm3.busy

/-- The function `ret_sm3_read`: the pointer `sm3_read_res`, a position in the
array `rdata` of the last `usart_start` call. -/
def ret_sm3_read (w : SpiWorld) : Nat :=
  w.sm3_read_res

/-- Read through the pointer returned by `ret_sm3_read`, as the callers do with
`*ret_sm3_read()`: the array must still be alive. -/
def read_sm3_result (w : SpiWorld) (i : Nat) : Option Nat :=
  match w.frame with
  | some f => f.rdata[ret_sm3_read w + i]?
  | none => none

/-- The statements of `usart_start` from `sleep_block_mode` to the end of the
body, followed by the return, which ends the lifetime of the arrays. -/
def usart_start_tail (w : SpiWorld) (RW : Nat) : Outcome SpiWorld :=
  match sleep_block_mode w.table USART_EM_BLOCK with
  | .ok t =>
    .ok { w with
      table := t
      regWrites := w.regWrites ++ [.CMD_CLEARRX_CLEARTX]
      cs := false
      IEN := { w.IEN with RXDATAV := decide (RW % 2 ^ 32 ≠ 0), TXBL := true }
      frame := none }
  | .assertFail t => .assertFail { w with table := t }
  | .undefined => .undefined

/-- The function `usart_start` (for `USART3`, the only peripheral the driver
serves). The arrays `tdata` and `rdata` are created with `bytesRequested`
elements, `rdata` and, for a read, `tdata` uninitialised (shown as zeros); with
`bytesRequested == 0` they are the empty arrays GCC creates, and a negative
size is undefined. The result is `none` when the call stays in the loop
`while(sm->busy);`. -/
def usart_start (w : SpiWorld) (RW regAddress data : Nat) (cb : Int) (bytesRequested : Int) :
    Option (Outcome SpiWorld) :=
  if bytesRequested < 0 then some .undefined
  else
    let n := bytesRequested.toNat
    let tdata := if RW % 2 ^ 32 = 0 then (List.range n).map (fun i => w.mem (data + i))
      else List.replicate n 0
    let w1 : SpiWorld :=
      { w with frame := some { tdata := tdata, rdata := List.replicate n 0 }, sm3_read_res := 0 }
    if w1.sm3.busy then none
    else if INT_MAX ≤ bytesRequested then some .undefined
    else
      some (usart_start_tail
        { w1 with sm3 :=
          { busy := true
            cb := (cb % 2 ^ 32).toNat
            rdata := w1.sm3_read_res
            tdata := 0
            regAddress := regAddress % 2 ^ 32
            state := .SEND_REG_SPI
            RW := RW % 2 ^ 32
            bytesSent := 0
            bytesReceived := 0
            bytesRequested := bytesRequested + 1 } } RW)

/-- The function `usart_txbl`. -/
def usart_txbl (w : SpiWorld) : Outcome SpiWorld :=
  let sm := w.sm3
  match sm.state with
  | .SEND_REG_SPI =>
    if INT_MAX ≤ sm.bytesSent then .undefined
    else
      .ok { w with
        sm3 := { sm with
          state := if sm.RW ≠ 0 then .READ_DATA_SPI else .WRITE_DATA_SPI
          bytesSent := sm.bytesSent + 1 }
        regWrites := w.regWrites ++ [.TXDATA (sm.regAddress ||| sm.RW)] }
  | .WRITE_DATA_SPI =>
    if sm.bytesSent ≠ sm.bytesRequested then
      match w.frame with
      | none => .undefined
      | some f =>
        match f.tdata[sm.tdata]? with
        | none => .undefined
        | some v =>
          if INT_MAX ≤ sm.bytesSent then .undefined
          else
            .ok { w with
              sm3 := { sm with tdata := sm.tdata + 1, bytesSent := sm.bytesSent + 1 }
              regWrites := w.regWrites ++ [.TXDATA v] }
    else .ok w
  | .READ_DATA_SPI =>
    if sm.bytesSent = sm.bytesRequested then .ok { w with IEN := { w.IEN with TXBL := false } }
    else if INT_MAX ≤ sm.bytesSent then .undefined
    else
      .ok { w with
        sm3 := { sm with bytesSent := sm.bytesSent + 1 }
        regWrites := w.regWrites ++ [.TXDATA DUMMY_DATA] }
  | _ => .assertFail w

/-- The function `usart_txc`. -/
def usart_txc (w : SpiWorld) : Outcome SpiWorld :=
  let sm := w.sm3
  match sm.state with
  | .WRITE_DATA_SPI =>
    let w1 : SpiWorld :=
      { w with
        sm3 := { sm with state := .DONE_STATE_SPI }
        regWrites := w.regWrites ++ [.CMD_CLEARRX] }
    match sleep_unblock_mode w1.table USART_EM_BLOCK with
    | .ok t =>
      .ok { w1 with
        table := t
        sched := add_scheduled_event w1.sched sm.cb
        cs := true
        sm3 := { w1.sm3 with busy := false } }
    | .assertFail t => .assertFail { w1 with table := t }
    | .undefined => .undefined
  | _ => .assertFail w

/-- Store `v` through a pointer into the array `rdata`: undefined once the
array has ended its lifetime, or outside its bounds. -/
def SpiWorld.storeRdata (w : SpiWorld) (p : Nat) (v : Nat) : Option SpiWorld :=
  match w.frame with
  | none => none
  | some f =>
    if p < f.rdata.length then
      some { w with frame := some { f with rdata := f.rdata.set p (v % 2 ^ 32) } }
    else none

/-- The function `usart_rxdatav`; `rxdata` is the value read from the `RXDATA`
register. -/
def usart_rxdatav (w : SpiWorld) (rxdata : Nat) : Outcome SpiWorld :=
  let sm := w.sm3
  match sm.state with
  | .READ_DATA_SPI =>
    if sm.bytesReceived = 0 then
      match w.storeRdata sm.rdata rxdata with
      | none => .undefined
      | some w1 => .ok { w1 with sm3 := { sm with bytesReceived := sm.bytesReceived + 1 } }
    else
      match w.storeRdata sm.rdata rxdata with
      | none => .undefined
      | some w1 =>
        if INT_MAX ≤ sm.bytesReceived then .undefined
        else
          let sm1 := { sm with rdata := sm.rdata + 1, bytesReceived := sm.bytesReceived + 1 }
          if sm1.bytesReceived = sm1.bytesRequested then
            let w2 : SpiWorld :=
              { w1 with
                sm3 := { sm1 with state := .DONE_STATE_SPI }
                sched := add_scheduled_event w1.sched sm1.cb }
            match sleep_unblock_mode w2.table USART_EM_BLOCK with
            | .ok t =>
              if w2.sm3.bytesSent = w2.sm3.bytesRequested then
                .ok { w2 with table := t, cs := true, sm3 := { w2.sm3 with busy := false } }
              else .assertFail { w2 with table := t }
            | .assertFail t => .assertFail { w2 with table := t }
            | .undefined => .undefined
          else .ok { w1 with sm3 := sm1 }
  | _ => .assertFail w

/-- The function `USART3_TX_IRQHandler`; `IF_TXBL` and `IF_TXC` are the flags
read from the `IF` register. -/
def USART3_TX_IRQHandler (w : SpiWorld) (IF_TXBL IF_TXC : Bool) : Outcome SpiWorld :=
  let flagTXBL := IF_TXBL && w.IEN.TXBL
  let flagTXC := IF_TXC && w.IEN.TXC
  let saved := w.IEN
  let w0 : SpiWorld := { w with IEN := { TXC := false, TXBL := false, RXDATAV := false } }
  let afterTxbl : Outcome (SpiWorld × USART_IEN) :=
    if flagTXBL then
      match usart_txbl w0 with
      | .ok w1 =>
        if w1.sm3.bytesSent = w1.sm3.bytesRequested then
          .ok (w1, { saved with TXC := if w1.sm3.RW = 0 then true else saved.TXC, TXBL := false })
        else .ok (w1, saved)
      | .assertFail w1 => .assertFail (w1, saved)
      | .undefined => .undefined
    else .ok (w0, saved)
  match afterTxbl with
  | .ok (w1, saved1) =>
    if flagTXC then
      match usart_txc w1 with
      | .ok w2 => .ok { w2 with IEN := { saved1 with TXC := false } }
      | .assertFail w2 => .assertFail w2
      | .undefined => .undefined
    else .ok { w1 with IEN := saved1 }
  | .assertFail (w1, _) => .assertFail w1
  | .undefined => .undefined

/-- The function `USART3_RX_IRQHandler`; `IF_RXDATAV` is the flag read from the
`IF` register and `rxdata` the value of `RXDATA`. -/
def USART3_RX_IRQHandler (w : SpiWorld) (IF_RXDATAV : Bool) (rxdata : Nat) : Outcome SpiWorld :=
  let flag := IF_RXDATAV && w.IEN.RXDATAV
  let saved := w.IEN
  let w0 : SpiWorld := { w with IEN := { TXC := false, TXBL := false, RXDATAV := false } }
  if flag then
    match usart_rxdatav w0 rxdata with
    | .ok w1 =>
      if w1.sm3.bytesRequested = w1.sm3.bytesReceived then
        .ok { w1 with IEN := { saved with RXDATAV := false } }
      else .ok { w1 with IEN := saved }
    | .assertFail w1 => .assertFail w1
    | .undefined => .undefined
  else .ok { w0 with IEN := saved }

/-- One interrupt of `USART3`: transmit buffer level, transmit complete, or
receive data valid with the value of `RXDATA`. -/
inductive USART_IRQ where
  | TXBL
  | TXC
  | RXDATAV (rxdata : Nat)
  deriving DecidableEq, Repr

/-- Enter the interrupt handler that serves the interrupt. -/
def USART_IRQ.run (w : SpiWorld) : USART_IRQ → Outcome SpiWorld
  | .TXBL => USART3_TX_IRQHandler w true false
  | .TXC => USART3_TX_IRQHandler w false true
  | .RXDATAV rxdata => USART3_RX_IRQHandler w true rxdata

/-- Serve a sequence of `USART3` interrupts, first to last; a failed assertion
or undefined behaviour ends the run. -/
def runUsartIrqs (w : SpiWorld) : List USART_IRQ → Outcome SpiWorld
  | [] => .ok w
  | q :: qs =>
    match q.run w with
    | .ok w1 => runUsartIrqs w1 qs
    | .assertFail w1 => .assertFail w1
    | .undefined => .undefined

/-- The SPI world after start-up: the machine idle (static storage, all zero),
no call of `usart_start` in progress, `RXDATAV` enabled as `usart_open` leaves
it, chip select high, the table as `sleep_open` leaves it and the scheduler as
`scheduler_open` leaves it. -/
def SpiWorld.reset : SpiWorld :=
  { sm3 :=
      { state := .SEND_REG_SPI, bytesRequested := 0, bytesSent := 0, bytesReceived := 0,
        regAddress := 0, rdata := 0, tdata := 0, RW := 0, busy := false, cb := 0 }
    sm3_read_res := 0
    frame := none
    mem := fun _ => 0
    IEN := { TXC := false, TXBL := false, RXDATAV := true }
    cs := true
    regWrites := []
    table := sleep_open (fun _ => 0)
    sched := scheduler_open ⟨0⟩ }

/-- Run `usart_start` and then serve a sequence of `USART3` interrupts. The
result is `none` when `usart_start` stays in its busy-wait loop. -/
def usart_transfer (w : SpiWorld) (RW regAddress data : Nat) (cb : Int) (bytesRequested : Int)
    (irqs : List USART_IRQ) : Option (Outcome SpiWorld) :=
  (usart_start w RW regAddress data cb bytesRequested).map
    (fun o => o.next (fun w1 => runUsartIrqs w1 irqs))

/-- An example SPI world: the world after start-up with the word `0x28` at
address 100 of the data memory (a command word to be written). -/
def SpiWorld.withCommand : SpiWorld :=
  { SpiWorld.reset with mem := fun a => if a = 100 then 0x28 else 0 }

/-! ## leuart.h -/

abbrev LEUART_TX_EM : Nat := EM2
abbrev LEUART_RX_EM : Nat := EM2

/-- Modelled from the spec: the state enumeration of the LEUART driver is
declared in a header that is not among the sources; `leuart.c` names the two
states of the flat write, `WRITE_LEUART` and `DONE_LEUART` (write phase, then
done). -/
inductive LEUART_STATES where
  | WRITE_LEUART
  | DONE_LEUART
  deriving DecidableEq, Repr

/-- Modelled from the spec: the structure `LEUART_STATE_MACHINE` is declared in
a header that is not among the sources; these are the fields `leuart.c` uses
(the `leuart` field always holds `LEUART0` and is left out). The counters are
taken to be `uint32_t`, the type of the `string_len` argument they are compared
with, and `data` is the character array `strcpy` fills, indexed from 0; its
capacity is not known and not modelled. -/
structure LEUART_STATE_MACHINE where
  state : LEUART_STATES
  bytesRequested : Nat
  bytesDone : Nat
  data : Nat → Nat
  busy : Bool

/-- The interrupt sources of the LEUART the driver enables and disables in the
`IEN` register. -/
structure LEUART_IEN where
  TXBL : Bool
  TXC : Bool
  deriving DecidableEq, Repr

/-- Everything the LEUART driver reads or writes: its state machine, the event
masks `leuart_open` stored, the `IEN` register, the values stored to `TXDATA`
in the order they were stored, the block table and the scheduler. -/
structure LeuartWorld where
  leuartSM : LEUART_STATE_MACHINE
  rx_done_evt : Nat
  tx_done_evt : Nat
  IEN : LEUART_IEN
  txdata : List Nat
  table : BlockTable
  sched : Scheduler

/-! ## leuart.c -/

/-- The characters of the C string that starts with the bytes `string`: the
bytes before the first zero byte (the list stands for memory that is followed
by a terminating zero). -/
def cstring (string : List Nat) : List Nat :=
  string.takeWhile (fun c => c ≠ 0)

/-- The library function `strcpy` on the destination array `dst`: the
characters of the source string, then the terminating zero. -/
def strcpy (dst : Nat → Nat) (string : List Nat) : Nat → Nat :=
  fun i =>
    if i < (cstring string).length then (cstring string).getD i 0
    else if i = (cstring string).length then 0
    else dst i

/-- The function `leuart_txbl`. -/
def leuart_txbl (w : LeuartWorld) : Outcome LeuartWorld :=
  let SM := w.leuartSM
  match SM.state with
  | .WRITE_LEUART =>
    if SM.bytesRequested ≠ SM.bytesDone then
      .ok { w with
        leuartSM := { SM with bytesDone := (SM.bytesDone + 1) % 2 ^ 32 }
        txdata := w.txdata ++ [SM.data SM.bytesDone] }
    else .ok { w with IEN := { w.IEN with TXC := true } }
  | _ => .assertFail w

/-- The function `leuart_txc`. -/
def leuart_txc (w : LeuartWorld) : Outcome LeuartWorld :=
  let SM := w.leuartSM
  match SM.state with
  | .WRITE_LEUART =>
    let w1 : LeuartWorld :=
      { w with
        leuartSM := { SM with state := .DONE_LEUART, busy := false }
        IEN := { w.IEN with TXC := false } }
    match sleep_unblock_mode w1.table LEUART_TX_EM with
    | .ok t => .ok { w1 with table := t, sched := add_scheduled_event w1.sched w1.tx_done_evt }
    | .assertFail t => .assertFail { w1 with table := t }
    | .undefined => .undefined
  | _ => .assertFail w

/-- The statement `LEUART0->IEN |= savedInterrupts;` that ends the interrupt
handler. -/
def LeuartWorld.restoreIEN (w : LeuartWorld) (saved : LEUART_IEN) : LeuartWorld :=
  { w with IEN := { TXBL := w.IEN.TXBL || saved.TXBL, TXC := w.IEN.TXC || saved.TXC } }

/-- The function `LEUART0_IRQHandler`; `IF_TXBL` and `IF_TXC` are the flags read
from the `IF` register. -/
def LEUART0_IRQHandler (w : LeuartWorld) (IF_TXBL IF_TXC : Bool) : Outcome LeuartWorld :=
  let flagTXBL := IF_TXBL && w.IEN.TXBL
  let flagTXC := IF_TXC && w.IEN.TXC
  let saved := w.IEN
  let w0 : LeuartWorld := { w with IEN := { TXBL := false, TXC := false } }
  let afterTxbl : Outcome LeuartWorld := if flagTXBL then leuart_txbl w0 else .ok w0
  match afterTxbl with
  | .ok w1 =>
    if flagTXC then
      match leuart_txc w1 with
      | .ok w2 => .ok (w2.restoreIEN { saved with TXC := false, TXBL := false })
      | .assertFail w2 => .assertFail w2
      | .undefined => .undefined
    else .ok (w1.restoreIEN saved)
  | .assertFail w1 => .assertFail w1
  | .undefined => .undefined

/-- The function `leuart_start` (for `LEUART0`). `string` holds the bytes at the
pointer `string`. The result is `none` when the call stays in the loop
`while(leuartSM.busy);`. -/
def leuart_start (w : LeuartWorld) (string : List Nat) (string_len : Nat) :
    Option (Outcome LeuartWorld) :=
  if w.leuartSM.busy then none
  else
    match sleep_block_mode w.table LEUART_TX_EM with
    | .ok t =>
      some (.ok { w with
        table := t
        leuartSM :=
          { busy := true
            bytesDone := 0
            bytesRequested := string_len % 2 ^ 32
            data := strcpy w.leuartSM.data string
            state := .WRITE_LEUART }
        IEN := { w.IEN with TXBL := true } })
    | .assertFail t => some (.assertFail { w with table := t })
    | .undefined => some .undefined

/-- One interrupt of `LEUART0`: transmit buffer level or transmit complete. -/
inductive LEUART_IRQ where
  | TXBL
  | TXC
  deriving DecidableEq, Repr

/-- Enter `LEUART0_IRQHandler` with the flag of the interrupt set. -/
def LEUART_IRQ.run (w : LeuartWorld) : LEUART_IRQ → Outcome LeuartWorld
  | .TXBL => LEUART0_IRQHandler w true false
  | .TXC => LEUART0_IRQHandler w false true

/-- Serve a sequence of `LEUART0` interrupts, first to last; a failed assertion
or undefined behaviour ends the run. -/
def runLeuartIrqs (w : LeuartWorld) : List LEUART_IRQ → Outcome LeuartWorld
  | [] => .ok w
  | q :: qs =>
    match q.run w with
    | .ok w1 => runLeuartIrqs w1 qs
    | .assertFail w1 => .assertFail w1
    | .undefined => .undefined

/-- Run `leuart_start` and then serve a sequence of `LEUART0` interrupts. The
result is `none` when `leuart_start` stays in its busy-wait loop. -/
def leuart_transfer (w : LeuartWorld) (string : List Nat) (string_len : Nat)
    (irqs : List LEUART_IRQ) : Option (Outcome LeuartWorld) :=
  (leuart_start w string string_len).map (fun o => o.next (fun w1 => runLeuartIrqs w1 irqs))

/-- The LEUART world after start-up: the machine idle, the event masks as
`leuart_open` stored them, no interrupt enabled, nothing transmitted, the table
as `sleep_open` leaves it and the scheduler as `scheduler_open` leaves it. -/
def LeuartWorld.reset (rx_done_evt tx_done_evt : Nat) : LeuartWorld :=
  { leuartSM :=
      { state := .WRITE_LEUART, bytesRequested := 0, bytesDone := 0, data := fun _ => 0,
        busy := false }
    rx_done_evt := rx_done_evt
    tx_done_evt := tx_done_evt
    IEN := { TXBL := false, TXC := false }
    txdata := []
    table := sleep_open (fun _ => 0)
    sched := scheduler_open ⟨0⟩ }

/-! ## i2c.c: the bus reset, and the driver as the firmware drives it -/

/-- The function `i2c_bus_reset`. Of its stores, `regWrites` keeps those to the
`CMD` register (`ABORT`, `CLEARTX`, `START | STOP`, `ABORT`); between them the
function saves and clears `IEN`, clears the flags through `IFC`, and restores
`IEN` at the end. `mstop` tells whether the peripheral raises the `MSTOP` flag
the loop `while(!(i2c->IF & I2C_IF_MSTOP));` waits for; the result is `none`
when it never does. -/
def i2c_bus_reset (w : I2CWorld) (i2c : I2C_TypeDef) (mstop : Bool) : Option I2CWorld :=
  let w1 := ((w.write (.CMD i2c .ABORT)).write (.CMD i2c .CLEARTX)).write (.CMD i2c .START_STOP)
  if mstop then some (w1.write (.CMD i2c .ABORT)) else none

/-- The function `i2c_open`: the flag test at its start, whose two assertions
hold exactly when the `IF` register follows the stores to `IFS` and `IFC`
(`flagTest`), the initialisation of the peripheral, which makes no store to
`CMD` or `TXDATA`, and the call of `i2c_bus_reset` that ends it. -/
def i2c_open (w : I2CWorld) (i2c : I2C_TypeDef) (flagTest mstop : Bool) :
    Option (Outcome I2CWorld) :=
  if !flagTest then some (.assertFail w)
  else (i2c_bus_reset w i2c mstop).map .ok

/-- One step of the I2C driver as the rest of the firmware drives it: a call of
`i2c_start`, or one interrupt of a bus. -/
inductive I2C_STEP where
  | start (i2c : I2C_TypeDef) (busIdle : Bool) (bytesRequested : Int)
      (address regAddress data : Nat) (RW : Int) (cb : Int)
  | irq (b : I2C_TypeDef) (q : I2C_IRQ)
  deriving DecidableEq, Repr

/-- Perform one step; `none` when a call of `i2c_start` stays in its busy-wait
loop. -/
def I2C_STEP.run (w : I2CWorld) : I2C_STEP → Option (Outcome I2CWorld)
  | .start i2c busIdle bytesRequested address regAddress data RW cb =>
    i2c_start w i2c busIdle bytesRequested address regAddress data RW cb
  | .irq b q => some (q.run w b)

/-- Perform a sequence of steps, first to last; the run ends at the first step
that does not return. -/
def runI2CSteps (w : I2CWorld) : List I2C_STEP → Option (Outcome I2CWorld)
  | [] => some (.ok w)
  | s :: ss =>
    match s.run w with
    | some (.ok w1) => runI2CSteps w1 ss
    | some (.assertFail w1) => some (.assertFail w1)
    | some .undefined => some .undefined
    | none => none

/-! ## Si1133.c -/

/-- The file-scope variables `si1133_read_result` and `si1133_write_data` of
`Si1133.c`, both `uint32_t`. -/
structure Si1133Vars where
  si1133_read_result : Nat
  si1133_write_data : Nat
  deriving DecidableEq, Repr

/-- The function `Si1133_read_result` (project `WS_2370_TS2_LEUART_Lab6`): the
value returned and the variables it leaves. -/
def Si1133_read_result (v : Si1133Vars) : Nat × Si1133Vars :=
  let ret := v.si1133_read_result % 2 ^ 32
  (ret, { v with si1133_read_result := 0 })

/-- The function `si1133_pass_read` (project `WS_2370_TS2_I2C_Lab4`), the same
accessor under its earlier name. -/
def si1133_pass_read (v : Si1133Vars) : Nat × Si1133Vars :=
  let result := v.si1133_read_result % 2 ^ 32
  (result, { v with si1133_read_result := 0 })

/-! ## app.h and app.c of project WS_2370_TS2_LEUART_Lab6 -/

abbrev SYSTEM_BLOCK_EM : Nat := EM3

/-- The calls `app_peripheral_setup` of project `WS_2370_TS2_LEUART_Lab6`
makes into the arbiter up to its call of `sleep_open`:
`sleep_block_mode(SYSTEM_BLOCK_EM)` first, then whatever `cmu_open`,
`gpio_open` and `app_letimer_pwm_open` call (`opens`; their sources for this
project are not all at hand, `letimer_pwm_open` blocks a level when the timer
is running), then `sleep_open()`. The statements after `sleep_open` call
neither `sleep_block_mode(SYSTEM_BLOCK_EM)` nor `sleep_open`. -/
def LEUART_Lab6.app_peripheral_setup (t : BlockTable) (opens : List SleepCall) :
    Outcome BlockTable :=
  match sleep_block_mode t SYSTEM_BLOCK_EM with
  | .ok t1 =>
    match runCalls t1 opens with
    | .ok t2 => .ok (sleep_open t2)
    | .assertFail t2 => .assertFail t2
    | .undefined => .undefined
  | .assertFail t1 => .assertFail t1
  | .undefined => .undefined

/-! ## spi.c: full-duplex traffic -/

/-- How many of the recorded stores went to `TXDATA`. -/
def txdataCount (ws : List USART_WRITE) : Nat :=
  ws.countP (fun x => match x with
    | .TXDATA _ => true
    | _ => false)

/-- Whether the interrupt is a receive interrupt. -/
def USART_IRQ.isRx : USART_IRQ → Bool
  | .RXDATAV _ => true
  | _ => false

/-- Full-duplex traffic: a byte is received only when one was sent. The run of
the interrupts `irqs` from the world `w` is followed; `base` is the number of
stores to `TXDATA` made before the transfer and `handled` the number of receive
interrupts handled so far in it. At every interrupt the number of receive
interrupts, this one included, is compared with the number of bytes written to
`TXDATA` since the transfer began. -/
def fullDuplex (base : Nat) : (handled : Nat) → SpiWorld → List USART_IRQ → Bool
  | _, _, [] => true
  | handled, w, q :: qs =>
    let handled1 := if q.isRx then handled + 1 else handled
    decide (handled1 ≤ txdataCount w.regWrites - base) &&
      match q.run w with
      | .ok w1 => fullDuplex base handled1 w1 qs
      | _ => true

/-! ## spi.c: the counters during a transfer -/

/-- How one interrupt may move the counters of the SPI machine, from machine
`sm`, `tx` stores to `TXDATA` and table `t` to `sm1`, `tx1` and `t1`:
`bytesRequested` stays; `bytesSent` stays, or grows by one together with a
store to `TXDATA`, and then the machine was in `SEND_REG_SPI` and has left it,
or `bytesSent` differed from `bytesRequested`; `bytesReceived` stays, or grows
by one at a receive interrupt (`isRx`); `SEND_REG_SPI` is never entered; and
while the machine is in `SEND_REG_SPI` or `READ_DATA_SPI` the table is as it
was. -/
def spiCounterStep (isRx : Bool) (sm : USART_STATE_MACHINE) (tx : Nat) (t : BlockTable)
    (sm1 : USART_STATE_MACHINE) (tx1 : Nat) (t1 : BlockTable) : Prop :=
  sm1.bytesRequested = sm.bytesRequested ∧
  ((sm1.bytesSent = sm.bytesSent ∧ tx1 = tx ∧
      (sm1.state = .SEND_REG_SPI → sm.state = .SEND_REG_SPI)) ∨
    (sm1.bytesSent = sm.bytesSent + 1 ∧ tx1 = tx + 1 ∧
      (sm.state = .SEND_REG_SPI ∨ sm.bytesSent ≠ sm.bytesRequested) ∧
      sm1.state ≠ .SEND_REG_SPI)) ∧
  (sm1.bytesReceived = sm.bytesReceived ∨
    (isRx = true ∧ sm1.bytesReceived = sm.bytesReceived + 1)) ∧
  ((sm1.state = .SEND_REG_SPI ∨ sm1.state = .READ_DATA_SPI) →
    t1 = t ∧ (sm.state = .SEND_REG_SPI ∨ sm.state = .READ_DATA_SPI))

/-- The counters of the SPI machine during a transfer, against the traffic:
`bytesSent` is between 0 and `bytesRequested` and below it in `SEND_REG_SPI`;
the number of stores to `TXDATA` is `base`, the number before the transfer,
plus `bytesSent`; `bytesReceived` is at most `handled`, the number of receive
interrupts handled; and the EM2 block of the transfer is outstanding while the
machine is in `SEND_REG_SPI` or `READ_DATA_SPI`. -/
def SpiWorld.counters (base handled : Nat) (w : SpiWorld) : Prop :=
  0 ≤ w.sm3.bytesSent ∧ w.sm3.bytesSent ≤ w.sm3.bytesRequested ∧
  (w.sm3.state = .SEND_REG_SPI → w.sm3.bytesSent < w.sm3.bytesRequested) ∧
  (txdataCount w.regWrites : Int) = base + w.sm3.bytesSent ∧
  w.sm3.bytesReceived ≤ handled ∧
  ((w.sm3.state = .SEND_REG_SPI ∨ w.sm3.state = .READ_DATA_SPI) →
    0 < w.table ⟨USART_EM_BLOCK, by decide⟩)

/-! ## i2c.c: what holds between transfers -/

/-- How many of the two state machines are busy. -/
def I2CWorld.busyCount (w : I2CWorld) : Int :=
  (if w.state_machine0.busy then 1 else 0) + (if w.state_machine1.busy then 1 else 0)

/-- A machine that is not busy is at rest: it is in `DONE_STATE` after a
transfer, or it has never been started, in which case `RW` and `bytesRequested`
are 0 as in static storage and acknowledge interrupts can take it from
`START_WRITE` to `SEND_REG` and `WRITE_DATA` only, never to `SEND_STOP`. -/
def I2C_STATE_MACHINE.atRest (sm : I2C_STATE_MACHINE) : Prop :=
  sm.busy = false →
    sm.state = .DONE_STATE ∨
      (sm.RW = 0 ∧ sm.bytesRequested = 0 ∧ 0 ≤ sm.bytesDone ∧
        (sm.state = .START_WRITE ∨ sm.state = .SEND_REG ∨
          (sm.state = .WRITE_DATA ∧ 1 ≤ sm.bytesDone)))

/-- The EM2 count is the number of busy machines, and the machines that are not
busy are at rest. -/
def I2CWorld.blocksWhileBusy (w : I2CWorld) : Prop :=
  w.table ⟨I2C_EM_BLOCK, by decide⟩ = w.busyCount ∧
    w.state_machine0.atRest ∧ w.state_machine1.atRest

/-! ## app.h, app.c and main.c of project WS_SPI_Project: the dispatch loop -/

/-- The event masks `main` and the handlers of `app.c` name. The header `app.h`
of project `WS_SPI_Project`, which defines them, is not among the sources, so
the eight masks are parameters of the embedding. -/
structure APP_EVENTS where
  LETIMER0_UF_CB : Nat
  LETIMER0_COMP0_CB : Nat
  LETIMER0_COMP1_CB : Nat
  Si1133_LIGHT_READ_CB : Nat
  BOOT_UP_CB : Nat
  BLE_TX_DONE_CB : Nat
  ICM_RX_1 : Nat
  ICM_RX_DONE : Nat
  deriving DecidableEq, Repr

/-- An example of the masks: the six values `app.h` of project
`WS_2370_TS2_LEUART_Lab6` gives, and the next two bits for the two ICM events. -/
def APP_EVENTS.oneBitEach : APP_EVENTS :=
  { LETIMER0_UF_CB := 0x00000004
    LETIMER0_COMP0_CB := 0x00000001
    LETIMER0_COMP1_CB := 0x00000002
    Si1133_LIGHT_READ_CB := 0x00000008
    BOOT_UP_CB := 0x00000010
    BLE_TX_DONE_CB := 0x00000020
    ICM_RX_1 := 0x00000040
    ICM_RX_DONE := 0x00000080 }

/-- The eight handlers of `app.c` that `main` calls, in the order of its `if`
statements. -/
inductive APP_HANDLER where
  | scheduled_letimer0_uf_cb
  | scheduled_letimer0_comp0_cb
  | scheduled_letimer0_comp1_cb
  | scheduled_Si1133_light_read_cb
  | scheduled_boot_up_cb
  | scheduled_ble_tx_done_cb
  | scheduled_icm1_read_cb
  | scheduled_icm_done_read_cb
  deriving DecidableEq, Repr

/-- The mask `main` tests and removes before it calls the handler. -/
def APP_HANDLER.event (ev : APP_EVENTS) : APP_HANDLER → Nat
  | .scheduled_letimer0_uf_cb => ev.LETIMER0_UF_CB
  | .scheduled_letimer0_comp0_cb => ev.LETIMER0_COMP0_CB
  | .scheduled_letimer0_comp1_cb => ev.LETIMER0_COMP1_CB
  | .scheduled_Si1133_light_read_cb => ev.Si1133_LIGHT_READ_CB
  | .scheduled_boot_up_cb => ev.BOOT_UP_CB
  | .scheduled_ble_tx_done_cb => ev.BLE_TX_DONE_CB
  | .scheduled_icm1_read_cb => ev.ICM_RX_1
  | .scheduled_icm_done_read_cb => ev.ICM_RX_DONE

/-- What the loop of `main` acts on and what it does: the scheduler, the sleep
instructions `enter_sleep` has issued, oldest first, and the handlers called,
oldest first, each with the pending set it found at its first statement. -/
structure MainWorld where
  sched : Scheduler
  entered : List SleepEntry
  invoked : List (APP_HANDLER × Nat)

/-- How a run of code that `main` and the handlers of `app.c` call ends: it
returns, it stops at a failed `EFM_ASSERT`, it runs into undefined behaviour,
or it never returns (a busy-wait such as `while(sm->busy);` or
`while (isSm3Busy());` that no interrupt ends). -/
inductive CALL_END where
  | returns
  | assertFail
  | undefined
  | never
  deriving DecidableEq, Repr

/-- What a run of calls into the drivers (`ble_write`, `ICM_read`,
`Si1133_force`, `ICM_TDD_CONFIG`, ...) does as far as the loop of `main` can
tell: the masks posted with `add_scheduled_event` while it lasts, by interrupt
handlers and by the callees themselves, and how it ends. The drivers are
embedded above, each on its own world; the loop is proved correct for every
such run. -/
structure CalleeRun where
  posted : List Nat
  ends : CALL_END

/-- What the rest of the firmware does during one pass of the loop: the block
table at the idle check, and the masks posted with `add_scheduled_event` by
interrupt handlers before the idle check (`atCheck`), before the `if` test of a
handler (`beforeTest`) and between `remove_scheduled_event` and the first
statement of the handler (`beforeHandler`); the run of the driver calls in the
body of each handler (`body`; in `scheduled_boot_up_cb` those after the
assertion on `icm_success`), the run of `ICM_TDD_CONFIG` in
`scheduled_boot_up_cb` and the value it returns (`icm_success`). -/
structure PassPosts where
  table : BlockTable
  atCheck : List Nat
  beforeTest : APP_HANDLER → List Nat
  beforeHandler : APP_HANDLER → List Nat
  body : APP_HANDLER → CalleeRun
  ICM_TDD_CONFIG : CalleeRun
  icm_success : Bool

/-- A pass during which nothing is posted: `ends` says how the driver calls of
each handler end, `config` how `ICM_TDD_CONFIG` ends and `icm_success` what it
returns. -/
def PassPosts.silent (t : BlockTable) (ends : APP_HANDLER → CALL_END) (config : CALL_END)
    (icm_success : Bool) : PassPosts :=
  { table := t, atCheck := [], beforeTest := fun _ => [], beforeHandler := fun _ => [],
    body := fun h => { posted := [], ends := ends h },
    ICM_TDD_CONFIG := { posted := [], ends := config },
    icm_success := icm_success }

/-- A pass during which nothing is posted and every driver call returns,
`ICM_TDD_CONFIG` with `true`. -/
def PassPosts.quiet (t : BlockTable) : PassPosts :=
  PassPosts.silent t (fun _ => .returns) .returns true

/-- Post the masks, first to last. -/
def post_all (s : Scheduler) (masks : List Nat) : Scheduler :=
  masks.foldl add_scheduled_event s

/-- Continue with the next statement from the world a run left, if it
returned; a run that stopped at an assertion, ran into undefined behaviour or
never ends (`none`) stays as it is. -/
def seqRun {σ : Type} (r : Option (Outcome σ)) (f : σ → Option (Outcome σ)) :
    Option (Outcome σ) :=
  match r with
  | some (.ok s) => f s
  | some (.assertFail s) => some (.assertFail s)
  | some .undefined => some .undefined
  | none => none

/-- A run of driver calls inside a handler: the masks of the run are posted,
and the run ends as the environment has it. -/
def run_callees (r : CalleeRun) (w : MainWorld) : Option (Outcome MainWorld) :=
  match r.ends with
  | .returns => some (.ok { w with sched := post_all w.sched r.posted })
  | .assertFail => some (.assertFail { w with sched := post_all w.sched r.posted })
  | .undefined => some .undefined
  | .never => none

/-- The assertion `EFM_ASSERT(!(get_scheduled_events() & X_CB));` a handler
starts with. -/
def own_bit_assert (X_CB : Nat) (w : MainWorld) : Outcome MainWorld :=
  if get_scheduled_events w.sched &&& (X_CB % 2 ^ 32) ≠ 0 then .assertFail w
  else .ok w

/-- The handler `scheduled_letimer0_uf_cb`: the assertion on its own event,
then the arithmetic on `x`, `y`, `z` and the calls `sprintf`, `ble_write`,
`Si1133_force_return` and `ICM_read`. -/
def scheduled_letimer0_uf_cb (ev : APP_EVENTS) (env : PassPosts) (w : MainWorld) :
    Option (Outcome MainWorld) :=
  seqRun (some (own_bit_assert ev.LETIMER0_UF_CB w))
    (run_callees (env.body .scheduled_letimer0_uf_cb))

/-- The handler `scheduled_letimer0_comp0_cb`, whose body is
`EFM_ASSERT(false);`. -/
def scheduled_letimer0_comp0_cb (w : MainWorld) : Option (Outcome MainWorld) :=
  some (.assertFail w)

/-- The handler `scheduled_letimer0_comp1_cb`: the assertion on its own event,
then the call `Si1133_force`. -/
def scheduled_letimer0_comp1_cb (ev : APP_EVENTS) (env : PassPosts) (w : MainWorld) :
    Option (Outcome MainWorld) :=
  seqRun (some (own_bit_assert ev.LETIMER0_COMP1_CB w))
    (run_callees (env.body .scheduled_letimer0_comp1_cb))

/-- The handler `scheduled_Si1133_light_read_cb`: the assertion on its own
event, then the calls `Si1133_read_result`, `leds_enabled`, `sprintf` and
`ble_write`. -/
def scheduled_Si1133_light_read_cb (ev : APP_EVENTS) (env : PassPosts) (w : MainWorld) :
    Option (Outcome MainWorld) :=
  seqRun (some (own_bit_assert ev.Si1133_LIGHT_READ_CB w))
    (run_callees (env.body .scheduled_Si1133_light_read_cb))

/-- The handler `scheduled_boot_up_cb` (with `BLE_TEST_ENABLED` not defined, as
in `app.c`): the assertion on its own event,
`bool icm_success = ICM_TDD_CONFIG();`, `EFM_ASSERT(icm_success);`, then the
calls `letimer_start` and `ble_write`. -/
def scheduled_boot_up_cb (ev : APP_EVENTS) (env : PassPosts) (w : MainWorld) :
    Option (Outcome MainWorld) :=
  seqRun (some (own_bit_assert ev.BOOT_UP_CB w)) (fun w1 =>
    seqRun (run_callees env.ICM_TDD_CONFIG w1) (fun w2 =>
      if env.icm_success then run_callees (env.body .scheduled_boot_up_cb) w2
      else some (.assertFail w2)))

/-- The handler `scheduled_ble_tx_done_cb`, whose body is the assertion on its
own event. -/
def scheduled_ble_tx_done_cb (ev : APP_EVENTS) (w : MainWorld) : Option (Outcome MainWorld) :=
  some (own_bit_assert ev.BLE_TX_DONE_CB w)

/-- The handler `scheduled_icm1_read_cb`: the assertion on its own event, then
`ret_sm3_read`, the read of `zlsb[0]` and the call `ICM_read`. -/
def scheduled_icm1_read_cb (ev : APP_EVENTS) (env : PassPosts) (w : MainWorld) :
    Option (Outcome MainWorld) :=
  seqRun (some (own_bit_assert ev.ICM_RX_1 w))
    (run_callees (env.body .scheduled_icm1_read_cb))

/-- The handler `scheduled_icm_done_read_cb`: the assertion on its own event,
then `ret_sm3_read`, the read of `zmsb[0]` and, on a change of direction, the
calls `leds_enabled`, `sprintf` and `ble_write`. -/
def scheduled_icm_done_read_cb (ev : APP_EVENTS) (env : PassPosts) (w : MainWorld) :
    Option (Outcome MainWorld) :=
  seqRun (some (own_bit_assert ev.ICM_RX_DONE w))
    (run_callees (env.body .scheduled_icm_done_read_cb))

/-- Call a handler. -/
def APP_HANDLER.call (ev : APP_EVENTS) (env : PassPosts) (w : MainWorld) :
    APP_HANDLER → Option (Outcome MainWorld)
  | .scheduled_letimer0_uf_cb => ECEN2370.scheduled_letimer0_uf_cb ev env w
  | .scheduled_letimer0_comp0_cb => ECEN2370.scheduled_letimer0_comp0_cb w
  | .scheduled_letimer0_comp1_cb => ECEN2370.scheduled_letimer0_comp1_cb ev env w
  | .scheduled_Si1133_light_read_cb => ECEN2370.scheduled_Si1133_light_read_cb ev env w
  | .scheduled_boot_up_cb => ECEN2370.scheduled_boot_up_cb ev env w
  | .scheduled_ble_tx_done_cb => ECEN2370.scheduled_ble_tx_done_cb ev w
  | .scheduled_icm1_read_cb => ECEN2370.scheduled_icm1_read_cb ev env w
  | .scheduled_icm_done_read_cb => ECEN2370.scheduled_icm_done_read_cb ev env w

/-- One `if` statement of the loop of `main`:
`if(get_scheduled_events() & X) { remove_scheduled_event(X); handler(); }`. -/
def dispatch (ev : APP_EVENTS) (env : PassPosts) (h : APP_HANDLER) (w : MainWorld) :
    Option (Outcome MainWorld) :=
  let s1 := post_all w.sched (env.beforeTest h)
  if get_scheduled_events s1 &&& (h.event ev % 2 ^ 32) ≠ 0 then
    let s2 := remove_scheduled_event s1 (h.event ev)
    let s3 := post_all s2 (env.beforeHandler h)
    h.call ev env
      { w with sched := s3, invoked := w.invoked ++ [(h, get_scheduled_events s3)] }
  else some (.ok { w with sched := s1 })

/-- The idle check that opens a pass: `if(!get_scheduled_events()) enter_sleep();`. -/
def main_idle (env : PassPosts) (w : MainWorld) : MainWorld :=
  let s0 := post_all w.sched env.atCheck
  match idle_check s0 env.table with
  | some e => { w with sched := s0, entered := w.entered ++ [e] }
  | none => { w with sched := s0 }

/-- One pass of the loop `while (1)` of `main`; `none` when a handler never
returns. -/
def main_pass (ev : APP_EVENTS) (env : PassPosts) (w : MainWorld) :
    Option (Outcome MainWorld) :=
  seqRun (seqRun (seqRun (seqRun (seqRun (seqRun (seqRun
    (dispatch ev env .scheduled_letimer0_uf_cb (main_idle env w))
    (dispatch ev env .scheduled_letimer0_comp0_cb))
    (dispatch ev env .scheduled_letimer0_comp1_cb))
    (dispatch ev env .scheduled_Si1133_light_read_cb))
    (dispatch ev env .scheduled_boot_up_cb))
    (dispatch ev env .scheduled_ble_tx_done_cb))
    (dispatch ev env .scheduled_icm1_read_cb))
    (dispatch ev env .scheduled_icm_done_read_cb)

/-- The first passes of the loop of `main`, one for each entry of `envs`; a
failed assertion ends the run, and so does a handler that never returns. -/
def main_loop (ev : APP_EVENTS) (w : MainWorld) :
    List PassPosts → Option (Outcome MainWorld)
  | [] => some (.ok w)
  | env :: envs => seqRun (main_pass ev env w) (fun w1 => main_loop ev w1 envs)

/-- Continue a pass with the `if` statement of the next handler, unless the
pass has stopped. -/
def dispatch_next (ev : APP_EVENTS) (env : PassPosts) (o : Option (Outcome MainWorld))
    (h : APP_HANDLER) : Option (Outcome MainWorld) :=
  seqRun o (dispatch ev env h)

/-- The handlers in the order `main` tests their events. -/
def dispatch_order : List APP_HANDLER :=
  [.scheduled_letimer0_uf_cb, .scheduled_letimer0_comp0_cb, .scheduled_letimer0_comp1_cb,
    .scheduled_Si1133_light_read_cb, .scheduled_boot_up_cb, .scheduled_ble_tx_done_cb,
    .scheduled_icm1_read_cb, .scheduled_icm_done_read_cb]

/-- The handlers whose event is pending in `s`, in the order of `main`. -/
def pending_handlers (ev : APP_EVENTS) (s : Scheduler) : List APP_HANDLER :=
  dispatch_order.filter (fun h => get_scheduled_events s &&& (h.event ev % 2 ^ 32) ≠ 0)

/-! ## Properties of the energy-mode arbiter -/

/-- The scan from index `i` with exactly the iterations left that bring `i`
to `MAX_ENERGY_MODES`: it returns the first index at or after `i` whose count
is nonzero, or `MAX_ENERGY_MODES - 1` when there is none. -/
theorem current_block_energy_mode_loop_scan (t : BlockTable) :
    ∀ (remaining i : Nat), i + remaining = MAX_ENERGY_MODES →
      (∃ k : Fin MAX_ENERGY_MODES, i ≤ k.val ∧ t k ≠ 0 ∧
          (∀ j : Fin MAX_ENERGY_MODES, i ≤ j.val → j < k → t j = 0) ∧
          current_block_energy_mode_loop t remaining i = k.val) ∨
      ((∀ j : Fin MAX_ENERGY_MODES, i ≤ j.val → t j = 0) ∧
          current_block_energy_mode_loop t remaining i = MAX_ENERGY_MODES - 1) := by
  intro remaining
  induction remaining with
  | zero =>
    intro i hi
    right
    refine ⟨?_, rfl⟩
    intro j hj
    have := j.isLt
    omega
  | succ n ih =>
    intro i hi
    have hlt : i < MAX_ENERGY_MODES := by omega
    by_cases hz : t ⟨i, hlt⟩ = 0
    · have hstep : current_block_energy_mode_loop t (n + 1) i =
          current_block_energy_mode_loop t n (i + 1) := by
        simp [current_block_energy_mode_loop, hlt, hz]
      have hprev : ∀ j : Fin MAX_ENERGY_MODES, i ≤ j.val → ¬ (i + 1 ≤ j.val) → t j = 0 := by
        intro j h1 h2
        have hji : j = ⟨i, hlt⟩ := Fin.ext (by simp; omega)
        rw [hji]
        exact hz
      rcases ih (i + 1) (by omega) with ⟨k, hk, hne, hbelow, hres⟩ | ⟨hall, hres⟩
      · left
        refine ⟨k, by omega, hne, ?_, by rw [hstep, hres]⟩
        intro j hj hjk
        by_cases hj1 : i + 1 ≤ j.val
        · exact hbelow j hj1 hjk
        · exact hprev j hj hj1
      · right
        refine ⟨?_, by rw [hstep, hres]⟩
        intro j hj
        by_cases hj1 : i + 1 ≤ j.val
        · exact hall j hj1
        · exact hprev j hj hj1
    · left
      refine ⟨⟨i, hlt⟩, le_refl _, hz, ?_, ?_⟩
      · intro j hj hjk
        exact absurd hjk (by simp [Fin.lt_def]; omega)
      · simp [current_block_energy_mode_loop, hlt, hz]

/-- Whatever the table held, `sleep_open` leaves every count zero. -/
theorem sleep_open_all_zero (t : BlockTable) (i : Fin MAX_ENERGY_MODES) :
    sleep_open t i = 0 := by
  fin_cases i <;> rfl

/-- On a table with every count zero the scan finds nothing and returns
`MAX_ENERGY_MODES - 1`. -/
theorem current_block_energy_mode_of_all_zero (t : BlockTable)
    (hz : ∀ i : Fin MAX_ENERGY_MODES, t i = 0) :
    current_block_energy_mode t = MAX_ENERGY_MODES - 1 := by
  rcases current_block_energy_mode_loop_scan t MAX_ENERGY_MODES 0 (by decide) with
    ⟨k, _, hne, _, _⟩ | ⟨_, hres⟩
  · exact absurd (hz k) hne
  · exact hres

/-- C1. For every block table, `current_block_energy_mode` returns the
lowest-numbered level whose count is nonzero, and returns
`MAX_ENERGY_MODES - 1` (EM4) when every count is zero. -/
theorem current_block_energy_mode_first_nonzero (t : BlockTable) :
    (∃ k : Fin MAX_ENERGY_MODES, t k ≠ 0 ∧ (∀ j : Fin MAX_ENERGY_MODES, j < k → t j = 0) ∧
        current_block_energy_mode t = k.val) ∨
    ((∀ i : Fin MAX_ENERGY_MODES, t i = 0) ∧
        current_block_energy_mode t = MAX_ENERGY_MODES - 1 ∧
        current_block_energy_mode t = EM4) := by
  rcases current_block_energy_mode_loop_scan t MAX_ENERGY_MODES 0 (by decide) with
    ⟨k, _, hne, hbelow, hres⟩ | ⟨hall, hres⟩
  · left
    exact ⟨k, hne, fun j hjk => hbelow j (Nat.zero_le _) hjk, hres⟩
  · right
    exact ⟨fun i => hall i (Nat.zero_le _), hres, hres⟩

/-- The cascade of `enter_sleep` tests `> 0`: the mode it selects is strictly
shallower than every level among EM1..EM4 whose count is positive. -/
theorem enter_sleep_shallower_than_positive_count (t : BlockTable)
    (L : Fin MAX_ENERGY_MODES) (hL : EM1 ≤ L.val) (hpos : 0 < t L) :
    (enter_sleep t).mode < L.val := by
  have h5 : L.val < 5 := L.isLt
  have h6 : 1 ≤ L.val := hL
  have hidx : ∀ (k : Nat) (hk : k < MAX_ENERGY_MODES), L.val = k → 0 < t ⟨k, hk⟩ := by
    intro k hk hLk
    have hLe : L = ⟨k, hk⟩ := Fin.ext hLk
    rw [← hLe]
    exact hpos
  unfold enter_sleep
  split_ifs with h0 h1 h2 h3
  · exact h6
  · exact h6
  · show 1 < L.val
    by_contra hc
    exact h1 (hidx 1 (by decide) (by omega))
  · show 2 < L.val
    by_contra hc
    have hl12 : L.val = 1 ∨ L.val = 2 := by omega
    rcases hl12 with h | h
    · exact h1 (hidx 1 (by decide) h)
    · exact h2 (hidx 2 (by decide) h)
  · show 3 < L.val
    by_contra hc
    have hl123 : L.val = 1 ∨ L.val = 2 ∨ L.val = 3 := by omega
    rcases hl123 with h | h | h
    · exact h1 (hidx 1 (by decide) h)
    · exact h2 (hidx 2 (by decide) h)
    · exact h3 (hidx 3 (by decide) h)

/-- C3, as stated, fails: on the all-zero table `enter_sleep` issues the EM3
entry while `current_block_energy_mode` returns 4; with only EM2 blocked it
issues the EM1 entry while `current_block_energy_mode` returns 2. -/
theorem enter_sleep_differs_from_current_block :
    (enter_sleep ![0, 0, 0, 0, 0]).mode = EM3 ∧
    current_block_energy_mode ![0, 0, 0, 0, 0] = EM4 ∧
    (enter_sleep ![0, 0, 1, 0, 0]).mode = EM1 ∧
    current_block_energy_mode ![0, 0, 1, 0, 0] = EM2 ∧
    ¬ (∀ t : BlockTable, (enter_sleep t).mode = current_block_energy_mode t) := by
  refine ⟨by decide, by decide, by decide, by decide, ?_⟩
  intro h
  have h1 := h ![0, 0, 0, 0, 0]
  revert h1
  decide

/-- C3, amended. For every block table with non-negative counts, the energy
mode that `enter_sleep` enters is one level shallower than the level that
`current_block_energy_mode` returns for the same table, and is EM0 (no sleep
instruction) when that level is EM0. -/
theorem enter_sleep_one_above_current_block (t : BlockTable)
    (hnn : ∀ i : Fin MAX_ENERGY_MODES, 0 ≤ t i) :
    (enter_sleep t).mode = current_block_energy_mode t - 1 := by
  have neg : ∀ (k : Nat) (hk : k < MAX_ENERGY_MODES), t ⟨k, hk⟩ = 0 → ¬ (t ⟨k, hk⟩ > 0) :=
    fun _ _ h => not_lt_of_le (le_of_eq h)
  rcases current_block_energy_mode_loop_scan t MAX_ENERGY_MODES 0 (by decide) with
    ⟨k, _, hne, hbelow, hres⟩ | ⟨hall, hres⟩
  · have hk : 0 < t k := lt_of_le_of_ne (hnn k) (Ne.symm hne)
    have b0 := hbelow ⟨0, by decide⟩ (Nat.zero_le _)
    have b1 := hbelow ⟨1, by decide⟩ (Nat.zero_le _)
    have b2 := hbelow ⟨2, by decide⟩ (Nat.zero_le _)
    have b3 := hbelow ⟨3, by decide⟩ (Nat.zero_le _)
    show (enter_sleep t).mode = current_block_energy_mode_loop t MAX_ENERGY_MODES 0 - 1
    rw [hres]
    obtain ⟨kv, hkv⟩ := k
    simp only [Fin.mk_lt_mk] at b0 b1 b2 b3
    unfold enter_sleep
    have hkv5 : kv < 5 := hkv
    interval_cases kv
    · rw [if_pos hk]
      rfl
    · have z0 := b0 (by decide)
      rw [if_neg (neg _ _ z0), if_pos hk]
      rfl
    · have z0 := b0 (by decide)
      have z1 := b1 (by decide)
      rw [if_neg (neg _ _ z0), if_neg (neg _ _ z1), if_pos hk]
      rfl
    · have z0 := b0 (by decide)
      have z1 := b1 (by decide)
      have z2 := b2 (by decide)
      rw [if_neg (neg _ _ z0), if_neg (neg _ _ z1), if_neg (neg _ _ z2), if_pos hk]
      rfl
    · have z0 := b0 (by decide)
      have z1 := b1 (by decide)
      have z2 := b2 (by decide)
      have z3 := b3 (by decide)
      rw [if_neg (neg _ _ z0), if_neg (neg _ _ z1), if_neg (neg _ _ z2), if_neg (neg _ _ z3)]
      rfl
  · have z0 := hall ⟨0, by decide⟩ (Nat.zero_le _)
    have z1 := hall ⟨1, by decide⟩ (Nat.zero_le _)
    have z2 := hall ⟨2, by decide⟩ (Nat.zero_le _)
    have z3 := hall ⟨3, by decide⟩ (Nat.zero_le _)
    show (enter_sleep t).mode = current_block_energy_mode_loop t MAX_ENERGY_MODES 0 - 1
    rw [hres]
    unfold enter_sleep
    rw [if_neg (neg _ _ z0), if_neg (neg _ _ z1), if_neg (neg _ _ z2), if_neg (neg _ _ z3)]
    rfl

/-- Witness for C3 amended: with EM3 blocked twice the cascade issues the EM2
entry, one level above the 3 that `current_block_energy_mode` returns. -/
theorem enter_sleep_one_above_current_block_witness :
    (enter_sleep ![0, 0, 0, 2, 0]).mode = current_block_energy_mode ![0, 0, 0, 2, 0] - 1 ∧
    current_block_energy_mode ![0, 0, 0, 2, 0] = 3 :=
  ⟨enter_sleep_one_above_current_block ![0, 0, 0, 2, 0] (by decide), by decide⟩

/-- An accepted `sleep_block_mode` leaves the table with the named count raised
by one; the increment did not overflow and the new count is below 5. -/
theorem sleep_block_mode_ok {t t1 : BlockTable} (EM : Fin MAX_ENERGY_MODES)
    (h : sleep_block_mode t EM.val = .ok t1) :
    t1 = Function.update t EM (t EM + 1) ∧ t EM + 1 < 5 := by
  unfold sleep_block_mode at h
  rw [dif_pos EM.isLt] at h
  dsimp only at h
  split_ifs at h with h1 h2
  · simp only [Function.update_same] at h2
    exact ⟨(Outcome.ok.inj h).symm, h2⟩

/-- An accepted `sleep_unblock_mode` leaves the table with the named count
lowered by one; the new count is not negative. -/
theorem sleep_unblock_mode_ok {t t1 : BlockTable} (EM : Fin MAX_ENERGY_MODES)
    (h : sleep_unblock_mode t EM.val = .ok t1) :
    t1 = Function.update t EM (t EM - 1) ∧ 0 ≤ t EM - 1 := by
  unfold sleep_unblock_mode at h
  rw [dif_pos EM.isLt] at h
  dsimp only at h
  split_ifs at h with h1 h2
  · simp only [Function.update_same] at h2
    exact ⟨(Outcome.ok.inj h).symm, h2⟩

/-- C4. For every level EM in 0..4 and every block table on which the call
does not fault, `sleep_block_mode(EM)` raises `count[EM]` by exactly one and
`sleep_unblock_mode(EM)` lowers it by exactly one, and both leave the count of
every other level unchanged. -/
theorem sleep_block_unblock_frame (t t1 : BlockTable) (EM : Fin MAX_ENERGY_MODES) :
    (sleep_block_mode t EM.val = .ok t1 →
        t1 EM = t EM + 1 ∧ ∀ j : Fin MAX_ENERGY_MODES, j ≠ EM → t1 j = t j) ∧
    (sleep_unblock_mode t EM.val = .ok t1 →
        t1 EM = t EM - 1 ∧ ∀ j : Fin MAX_ENERGY_MODES, j ≠ EM → t1 j = t j) := by
  constructor
  · intro h
    obtain ⟨ht, _⟩ := sleep_block_mode_ok EM h
    subst ht
    exact ⟨Function.update_same _ _ _, fun j hj => Function.update_noteq hj _ _⟩
  · intro h
    obtain ⟨ht, _⟩ := sleep_unblock_mode_ok EM h
    subst ht
    exact ⟨Function.update_same _ _ _, fun j hj => Function.update_noteq hj _ _⟩

/-- Witness for C4: blocking EM2 on a table that holds one EM2 block is
accepted and gives count 2, the other counts staying as they were. -/
theorem sleep_block_unblock_frame_witness :
    sleep_block_mode ![0, 7, 1, 0, 0] 2 = .ok (Function.update ![0, 7, 1, 0, 0] 2 2) ∧
    ((Function.update ![0, 7, 1, 0, 0] 2 2 : BlockTable) 2 = (![0, 7, 1, 0, 0] : BlockTable) 2 + 1 ∧
      ∀ j : Fin MAX_ENERGY_MODES, j ≠ 2 →
        (Function.update ![0, 7, 1, 0, 0] 2 2 : BlockTable) j = (![0, 7, 1, 0, 0] : BlockTable) j) :=
  ⟨rfl, (sleep_block_unblock_frame ![0, 7, 1, 0, 0] (Function.update ![0, 7, 1, 0, 0] 2 2) 2).1 rfl⟩

/-- C5. For every level EM and every block table with non-negative counts,
`sleep_unblock_mode(EM)` fails its assertion if and only if `count[EM]` was
zero before the call; an unblock with an outstanding block is accepted. -/
theorem sleep_unblock_mode_assert_iff (t : BlockTable) (EM : Fin MAX_ENERGY_MODES)
    (hnn : ∀ i : Fin MAX_ENERGY_MODES, 0 ≤ t i) :
    ((sleep_unblock_mode t EM.val).isAssertFail = true ↔ t EM = 0) ∧
    ((sleep_unblock_mode t EM.val).isOk = true ↔ 0 < t EM) := by
  have h0 := hnn EM
  have hmin : ¬ (t EM ≤ INT_MIN) := by
    unfold INT_MIN
    omega
  unfold sleep_unblock_mode
  rw [dif_pos EM.isLt]
  dsimp only
  rw [if_neg hmin]
  simp only [Function.update_same]
  by_cases hz : t EM - 1 ≥ 0
  · rw [if_pos hz]
    simp only [Outcome.isAssertFail, Outcome.isOk]
    constructor
    · constructor
      · intro h
        exact absurd h (by decide)
      · intro h
        omega
    · constructor
      · intro _
        omega
      · intro _
        trivial
  · rw [if_neg hz]
    simp only [Outcome.isAssertFail, Outcome.isOk]
    constructor
    · constructor
      · intro _
        omega
      · intro _
        trivial
    · constructor
      · intro h
        exact absurd h (by decide)
      · intro h
        omega

/-- Witness for C5: on the all-zero table an unblock of EM2 fails the
assertion. -/
theorem sleep_unblock_mode_assert_iff_witness :
    (sleep_unblock_mode ![0, 0, 0, 0, 0] 2).isAssertFail = true ∧
    ((sleep_unblock_mode ![0, 0, 0, 0, 0] 2).isAssertFail = true ↔
      (![0, 0, 0, 0, 0] : BlockTable) 2 = 0) :=
  ⟨by decide, (sleep_unblock_mode_assert_iff ![0, 0, 0, 0, 0] 2 (by decide)).1⟩

/-- C6. For every level EM and every table on which the increment is defined,
`sleep_block_mode(EM)` fails its assertion if and only if the count after the
increment is 5 or more; starting from the table `sleep_open` leaves, four
blocks of one level in a row are accepted and the fifth fails the assertion. -/
theorem sleep_block_mode_assert_iff (t : BlockTable) (EM : Fin MAX_ENERGY_MODES)
    (hdef : t EM < INT_MAX) :
    ((sleep_block_mode t EM.val).isAssertFail = true ↔ 5 ≤ t EM + 1) ∧
    ((sleep_block_mode t EM.val).isOk = true ↔ t EM + 1 < 5) ∧
    (runCalls (sleep_open t) (List.replicate 4 (SleepCall.block EM.val))).isOk = true ∧
    (runCalls (sleep_open t) (List.replicate 5 (SleepCall.block EM.val))).isAssertFail = true := by
  have hopen : sleep_open t = fun _ => 0 := funext (sleep_open_all_zero t)
  rw [hopen]
  refine ⟨?_, ?_, ?_, ?_⟩
  · unfold sleep_block_mode
    rw [dif_pos EM.isLt]
    dsimp only
    rw [if_neg (not_le.mpr hdef)]
    simp only [Function.update_same]
    by_cases hz : t EM + 1 < 5
    · rw [if_pos hz]
      simp only [Outcome.isAssertFail]
      constructor
      · intro h
        exact absurd h (by decide)
      · intro h
        omega
    · rw [if_neg hz]
      simp only [Outcome.isAssertFail]
      constructor
      · intro _
        omega
      · intro _
        trivial
  · unfold sleep_block_mode
    rw [dif_pos EM.isLt]
    dsimp only
    rw [if_neg (not_le.mpr hdef)]
    simp only [Function.update_same]
    by_cases hz : t EM + 1 < 5
    · rw [if_pos hz]
      simp only [Outcome.isOk]
      constructor
      · intro _
        exact hz
      · intro _
        trivial
    · rw [if_neg hz]
      simp only [Outcome.isOk]
      constructor
      · intro h
        exact absurd h (by decide)
      · intro h
        exact absurd h hz
  · have key : ∀ L : Fin MAX_ENERGY_MODES,
        (runCalls (fun _ => 0) (List.replicate 4 (SleepCall.block L.val))).isOk = true := by
      decide
    exact key EM
  · have key : ∀ L : Fin MAX_ENERGY_MODES,
        (runCalls (fun _ => 0) (List.replicate 5 (SleepCall.block L.val))).isAssertFail = true := by
      decide
    exact key EM

/-- Witness for C6: with four EM2 blocks outstanding, one more block fails the
assertion. -/
theorem sleep_block_mode_assert_iff_witness :
    (sleep_block_mode ![0, 0, 4, 0, 0] 2).isAssertFail = true ∧
    ((sleep_block_mode ![0, 0, 4, 0, 0] 2).isAssertFail = true ↔
      5 ≤ (![0, 0, 4, 0, 0] : BlockTable) 2 + 1) :=
  ⟨by decide, (sleep_block_mode_assert_iff ![0, 0, 4, 0, 0] 2 (by decide)).1⟩

/-- One accepted call at a valid level changes the count of level `i` by the
number of blocks of `i` it makes minus the number of unblocks of `i`. -/
theorem SleepCall.run_ok_count {t t1 : BlockTable} {c : SleepCall}
    (hlev : c.level < MAX_ENERGY_MODES) (h : c.run t = .ok t1) (i : Fin MAX_ENERGY_MODES) :
    t1 i = t i + (blockCount i.val [c] : Int) - (unblockCount i.val [c] : Int) := by
  cases c with
  | block EM =>
    have hEM : EM < MAX_ENERGY_MODES := hlev
    obtain ⟨ht, _⟩ := sleep_block_mode_ok ⟨EM, hEM⟩ h
    subst ht
    have hu : unblockCount i.val [SleepCall.block EM] = 0 := by
      simp [unblockCount, List.count_cons]
    by_cases hi : i = ⟨EM, hEM⟩
    · subst hi
      have hb : blockCount EM [SleepCall.block EM] = 1 := by
        simp [blockCount, List.count_cons]
      simp [hb, hu]
    · have hne : ¬ (EM = i.val) := fun he => hi (Fin.ext he.symm)
      have hb : blockCount i.val [SleepCall.block EM] = 0 := by
        simp [blockCount, List.count_cons, hne]
      simp [hb, hu, Function.update_noteq hi]
  | unblock EM =>
    have hEM : EM < MAX_ENERGY_MODES := hlev
    obtain ⟨ht, _⟩ := sleep_unblock_mode_ok ⟨EM, hEM⟩ h
    subst ht
    have hb : blockCount i.val [SleepCall.unblock EM] = 0 := by
      simp [blockCount, List.count_cons]
    by_cases hi : i = ⟨EM, hEM⟩
    · subst hi
      have hu : unblockCount EM [SleepCall.unblock EM] = 1 := by
        simp [unblockCount, List.count_cons]
      simp only [hb, hu, Function.update_same]
      push_cast
      ring
    · have hne : ¬ (EM = i.val) := fun he => hi (Fin.ext he.symm)
      have hu : unblockCount i.val [SleepCall.unblock EM] = 0 := by
        simp [unblockCount, List.count_cons, hne]
      simp [hb, hu, Function.update_noteq hi]

/-- One accepted call at a valid level keeps every count between 0 and 4 when
it starts from such a table, and such a call never runs into undefined
behaviour. -/
theorem SleepCall.run_bounded {t : BlockTable} {c : SleepCall}
    (hlev : c.level < MAX_ENERGY_MODES) (hb : ∀ i : Fin MAX_ENERGY_MODES, 0 ≤ t i ∧ t i ≤ 4) :
    c.run t ≠ .undefined ∧
    ∀ t1, c.run t = .ok t1 → ∀ i : Fin MAX_ENERGY_MODES, 0 ≤ t1 i ∧ t1 i ≤ 4 := by
  cases c with
  | block EM =>
    have hEM : EM < MAX_ENERGY_MODES := hlev
    have hbE := hb ⟨EM, hEM⟩
    constructor
    · show sleep_block_mode t EM ≠ .undefined
      unfold sleep_block_mode
      rw [dif_pos hEM, if_neg (by unfold INT_MAX; omega)]
      dsimp only
      split_ifs <;> simp
    · intro t1 h i
      obtain ⟨ht, hlt⟩ := sleep_block_mode_ok ⟨EM, hEM⟩ h
      subst ht
      by_cases hi : i = ⟨EM, hEM⟩
      · subst hi
        rw [Function.update_same]
        omega
      · rw [Function.update_noteq hi]
        exact hb i
  | unblock EM =>
    have hEM : EM < MAX_ENERGY_MODES := hlev
    have hbE := hb ⟨EM, hEM⟩
    constructor
    · show sleep_unblock_mode t EM ≠ .undefined
      unfold sleep_unblock_mode
      rw [dif_pos hEM, if_neg (by unfold INT_MIN; omega)]
      dsimp only
      split_ifs <;> simp
    · intro t1 h i
      obtain ⟨ht, hlt⟩ := sleep_unblock_mode_ok ⟨EM, hEM⟩ h
      subst ht
      by_cases hi : i = ⟨EM, hEM⟩
      · subst hi
        rw [Function.update_same]
        omega
      · rw [Function.update_noteq hi]
        exact hb i

/-- A run of calls at valid levels, started from a table with every count
between 0 and 4, ends normally or at a failed assertion, and when it ends
normally each count has changed by the number of blocks minus the number of
unblocks of its level. -/
theorem runCalls_bounded (calls : List SleepCall) :
    ∀ t : BlockTable, (∀ i : Fin MAX_ENERGY_MODES, 0 ≤ t i ∧ t i ≤ 4) →
      (∀ c ∈ calls, c.level < MAX_ENERGY_MODES) →
      runCalls t calls ≠ .undefined ∧
      ∀ t1, runCalls t calls = .ok t1 → ∀ i : Fin MAX_ENERGY_MODES,
        t1 i = t i + (blockCount i.val calls : Int) - (unblockCount i.val calls : Int) := by
  induction calls with
  | nil =>
    intro t _ _
    refine ⟨by simp [runCalls], ?_⟩
    intro t1 h i
    simp only [runCalls] at h
    rw [← Outcome.ok.inj h]
    simp [blockCount, unblockCount]
  | cons c cs ih =>
    intro t hb hlev
    have hc : c.level < MAX_ENERGY_MODES := hlev c (List.mem_cons_self _ _)
    have hcs : ∀ d ∈ cs, d.level < MAX_ENERGY_MODES :=
      fun d hd => hlev d (List.mem_cons_of_mem _ hd)
    obtain ⟨hdef, hstep⟩ := SleepCall.run_bounded hc hb
    cases hrun : c.run t with
    | ok t2 =>
      obtain ⟨hdef2, hcnt2⟩ := ih t2 (hstep t2 hrun) hcs
      have hunf : runCalls t (c :: cs) = runCalls t2 cs := by
        simp only [runCalls, hrun]
      rw [hunf]
      refine ⟨hdef2, ?_⟩
      intro t1 h i
      rw [hcnt2 t1 h i, SleepCall.run_ok_count hc hrun i]
      simp only [blockCount, unblockCount, List.count_cons, List.count_nil]
      push_cast
      ring
    | assertFail t2 =>
      have hunf : runCalls t (c :: cs) = .assertFail t2 := by
        simp only [runCalls, hrun]
      rw [hunf]
      refine ⟨by simp, ?_⟩
      intro t1 h
      exact absurd h (by simp)
    | undefined => exact absurd hrun hdef

/-- One call that returns, from a table with every count between 0 and 4,
leaves such a table: a call at a level outside the table does not return. -/
theorem SleepCall.run_ok_bounded {t t1 : BlockTable} {c : SleepCall}
    (hb : ∀ i : Fin MAX_ENERGY_MODES, 0 ≤ t i ∧ t i ≤ 4) (h : c.run t = .ok t1) :
    ∀ i : Fin MAX_ENERGY_MODES, 0 ≤ t1 i ∧ t1 i ≤ 4 := by
  by_cases hlev : c.level < MAX_ENERGY_MODES
  · exact (SleepCall.run_bounded hlev hb).2 t1 h
  · exfalso
    cases c with
    | block EM =>
      have hEM : ¬ EM < MAX_ENERGY_MODES := hlev
      simp only [SleepCall.run, sleep_block_mode, dif_neg hEM] at h
      exact absurd h (by simp)
    | unblock EM =>
      have hEM : ¬ EM < MAX_ENERGY_MODES := hlev
      simp only [SleepCall.run, sleep_unblock_mode, dif_neg hEM] at h
      exact absurd h (by simp)

/-- A run of calls that returns, from a table with every count between 0 and
4, leaves such a table. -/
theorem runCalls_ok_bounded (calls : List SleepCall) :
    ∀ t t1 : BlockTable, (∀ i : Fin MAX_ENERGY_MODES, 0 ≤ t i ∧ t i ≤ 4) →
      runCalls t calls = .ok t1 → ∀ i : Fin MAX_ENERGY_MODES, 0 ≤ t1 i ∧ t1 i ≤ 4 := by
  induction calls with
  | nil =>
    intro t t1 hb h
    simp only [runCalls] at h
    rw [← Outcome.ok.inj h]
    exact hb
  | cons c cs ih =>
    intro t t1 hb h
    cases hrun : c.run t with
    | ok t2 =>
      simp only [runCalls, hrun] at h
      exact ih t2 t1 (SleepCall.run_ok_bounded hb hrun) h
    | assertFail t2 =>
      simp only [runCalls, hrun] at h
      exact absurd h (by simp)
    | undefined =>
      simp only [runCalls, hrun] at h
      exact absurd h (by simp)

/-- C2. For every block table whose counts are not negative (they are
reference counts), the mode `enter_sleep` selects (EM0 = no sleep instruction
issued, otherwise EM1, EM2 or EM3) is strictly shallower than every level among
EM1..EM4 whose count is nonzero, so `enter_sleep` never enters an energy mode
that is blocked. Every table the arbiter reaches from `sleep_open` through
calls of `sleep_block_mode` and `sleep_unblock_mode` that return is such a
table, and the same holds of it. -/
theorem enter_sleep_shallower_than_blocked (t : BlockTable)
    (hnn : ∀ i : Fin MAX_ENERGY_MODES, 0 ≤ t i)
    (L : Fin MAX_ENERGY_MODES) (hL : EM1 ≤ L.val) (hne : t L ≠ 0) :
    (enter_sleep t).mode < L.val ∧ (enter_sleep t).mode ≠ L.val ∧
    (∀ (t0 : BlockTable) (calls : List SleepCall) (t1 : BlockTable),
      runCalls (sleep_open t0) calls = .ok t1 →
      (∀ i : Fin MAX_ENERGY_MODES, 0 ≤ t1 i) ∧
      ∀ M : Fin MAX_ENERGY_MODES, EM1 ≤ M.val → t1 M ≠ 0 →
        (enter_sleep t1).mode < M.val) := by
  have hlt := enter_sleep_shallower_than_positive_count t L hL
    (lt_of_le_of_ne (hnn L) (Ne.symm hne))
  refine ⟨hlt, Nat.ne_of_lt hlt, ?_⟩
  intro t0 calls t1 hrun
  have hb : ∀ i : Fin MAX_ENERGY_MODES, 0 ≤ sleep_open t0 i ∧ sleep_open t0 i ≤ 4 := by
    intro i
    rw [sleep_open_all_zero]
    decide
  have hb1 := runCalls_ok_bounded calls (sleep_open t0) t1 hb hrun
  refine ⟨fun i => (hb1 i).1, ?_⟩
  intro M hM hM0
  exact enter_sleep_shallower_than_positive_count t1 M hM
    (lt_of_le_of_ne (hb1 M).1 (Ne.symm hM0))

/-- Witness for C2: EM2 and EM3 blocked, the cascade issues the EM1 entry, which
is shallower than both. -/
theorem enter_sleep_shallower_than_blocked_witness :
    (enter_sleep ![0, 0, 1, 2, 0]).mode < 2 ∧ (enter_sleep ![0, 0, 1, 2, 0]).mode ≠ 2 :=
  have h := enter_sleep_shallower_than_blocked ![0, 0, 1, 2, 0]
    (by decide) ⟨2, by decide⟩ (by decide) (by decide)
  ⟨h.1, h.2.1⟩

/-- C7. Starting from the all-zero table left by `sleep_open`, after every
sequence of `sleep_block_mode` / `sleep_unblock_mode` calls (at levels 0..4) in
which no assertion fires and every level is unblocked exactly as often as it
was blocked, the run has completed, every count is zero again and
`current_block_energy_mode` returns the deepest level, `MAX_ENERGY_MODES - 1`. -/
theorem matched_calls_restore_all_zero (t0 : BlockTable) (calls : List SleepCall)
    (hlev : ∀ c ∈ calls, c.level < MAX_ENERGY_MODES)
    (hno : (runCalls (sleep_open t0) calls).isAssertFail = false)
    (hbal : ∀ L : Nat, L < MAX_ENERGY_MODES → unblockCount L calls = blockCount L calls) :
    ∃ t1, runCalls (sleep_open t0) calls = .ok t1 ∧
      (∀ i : Fin MAX_ENERGY_MODES, t1 i = 0) ∧
      current_block_energy_mode t1 = MAX_ENERGY_MODES - 1 := by
  have hb : ∀ i : Fin MAX_ENERGY_MODES, 0 ≤ sleep_open t0 i ∧ sleep_open t0 i ≤ 4 := by
    intro i
    rw [sleep_open_all_zero]
    decide
  obtain ⟨hdef, hcnt⟩ := runCalls_bounded calls (sleep_open t0) hb hlev
  cases hrun : runCalls (sleep_open t0) calls with
  | ok t1 =>
    have hz : ∀ i : Fin MAX_ENERGY_MODES, t1 i = 0 := by
      intro i
      rw [hcnt t1 hrun i, sleep_open_all_zero, hbal i.val i.isLt]
      ring
    exact ⟨t1, rfl, hz, current_block_energy_mode_of_all_zero t1 hz⟩
  | assertFail t1 =>
    rw [hrun] at hno
    exact absurd hno (by simp [Outcome.isAssertFail])
  | undefined => exact absurd hrun hdef

/-- Witness for C7: two nested EM2 blocks and an EM3 block, all released. -/
theorem matched_calls_restore_all_zero_witness :
    ∃ t1, runCalls (sleep_open ![1, 2, 3, 4, 5])
        [.block 2, .block 3, .block 2, .unblock 2, .unblock 3, .unblock 2] = .ok t1 ∧
      (∀ i : Fin MAX_ENERGY_MODES, t1 i = 0) ∧
      current_block_energy_mode t1 = MAX_ENERGY_MODES - 1 :=
  matched_calls_restore_all_zero ![1, 2, 3, 4, 5]
    [.block 2, .block 3, .block 2, .unblock 2, .unblock 3, .unblock 2]
    (by decide) (by decide) (by decide)

/-- C8. With no event pending and every block count zero, the idle check calls
`enter_sleep`, which issues the EM3 entry, the deepest mode of its cascade;
there is no block table for which `enter_sleep` selects a deeper mode than it
does for the all-zero table. -/
theorem idle_all_zero_enters_EM3 (s : Scheduler) (t : BlockTable)
    (hs : get_scheduled_events s = 0) (hz : ∀ i : Fin MAX_ENERGY_MODES, t i = 0) :
    idle_check s t = some (SleepEntry.EMU_EnterEM3 true) ∧
    (enter_sleep t).mode = EM3 ∧
    ∀ t2 : BlockTable, (enter_sleep t2).mode ≤ (enter_sleep t).mode := by
  have he : enter_sleep t = SleepEntry.EMU_EnterEM3 true := by
    unfold enter_sleep
    rw [hz, hz, hz, hz]
    rfl
  refine ⟨?_, ?_, ?_⟩
  · unfold idle_check
    rw [if_pos hs, he]
  · rw [he]
    rfl
  · intro t2
    rw [he]
    unfold enter_sleep
    split_ifs <;> decide

/-- Witness for C8: the scheduler as `scheduler_open` leaves it and the table
as `sleep_open` leaves it. -/
theorem idle_all_zero_enters_EM3_witness :
    idle_check (scheduler_open ⟨7⟩) (sleep_open ![1, 0, 2, 0, 0]) =
      some (SleepEntry.EMU_EnterEM3 true) :=
  (idle_all_zero_enters_EM3 (scheduler_open ⟨7⟩) (sleep_open ![1, 0, 2, 0, 0])
    (by decide) (by decide)).1

/-! ## Properties of the event scheduler -/

/-- Bit `i` of the 32-bit complement of `event`. -/
theorem testBit_complement32 (event i : Nat) :
    (2 ^ 32 - 1 - event % 2 ^ 32).testBit i = (decide (i < 32) && !event.testBit i) := by
  have hlt : event % 2 ^ 32 < 2 ^ 32 := Nat.mod_lt _ (Nat.two_pow_pos 32)
  have hsub : 2 ^ 32 - 1 - event % 2 ^ 32 = 2 ^ 32 - (event % 2 ^ 32 + 1) := by omega
  rw [hsub, Nat.testBit_two_pow_sub_succ hlt, Nat.testBit_mod_two_pow]
  cases decide (i < 32) <;> simp

/-- Bit `i` of the pending set after one `add_scheduled_event`. -/
theorem testBit_add_scheduled_event (s : Scheduler) (event i : Nat) :
    (add_scheduled_event s event).event_scheduled.testBit i =
      (decide (i < 32) && (s.event_scheduled.testBit i || event.testBit i)) := by
  simp only [add_scheduled_event, Nat.testBit_mod_two_pow, Nat.testBit_or]
  cases decide (i < 32) <;> simp

/-- Bit `i` of the pending set after one `remove_scheduled_event`. -/
theorem testBit_remove_scheduled_event (s : Scheduler) (event i : Nat) :
    (remove_scheduled_event s event).event_scheduled.testBit i =
      (decide (i < 32) && (s.event_scheduled.testBit i && !event.testBit i)) := by
  simp only [remove_scheduled_event, Nat.testBit_mod_two_pow, Nat.testBit_and,
    testBit_complement32]
  cases decide (i < 32) <;> simp

/-- Bit `i` of what `get_scheduled_events` returns after a list of posts. -/
theorem testBit_get_after_posts (masks : List Nat) :
    ∀ (s : Scheduler) (i : Nat),
      (get_scheduled_events (masks.foldl add_scheduled_event s)).testBit i =
        (decide (i < 32) &&
          (s.event_scheduled.testBit i || masks.any (fun m => m.testBit i))) := by
  induction masks with
  | nil =>
    intro s i
    simp only [List.foldl_nil, get_scheduled_events, Nat.testBit_mod_two_pow, List.any_nil,
      Bool.or_false]
  | cons m ms ih =>
    intro s i
    rw [List.foldl_cons, ih, testBit_add_scheduled_event, List.any_cons]
    cases decide (i < 32) <;> simp [Bool.or_assoc]

/-- Bit `i` of the bitwise OR of a list of masks, accumulated from `a`. -/
theorem testBit_foldl_or (masks : List Nat) :
    ∀ (a i : Nat),
      (masks.foldl (fun x y => x ||| y) a).testBit i =
        (a.testBit i || masks.any (fun m => m.testBit i)) := by
  induction masks with
  | nil =>
    intro a i
    simp
  | cons m ms ih =>
    intro a i
    rw [List.foldl_cons, ih, Nat.testBit_or, List.any_cons, Bool.or_assoc]

/-- C9. After `scheduler_open`, for every finite list of event masks passed to
`add_scheduled_event`, `get_scheduled_events` returns exactly the bitwise OR of
the posted masks (as a 32-bit word): a bit is set if and only if it is a bit of
the word posted by some call, and any permutation of the list gives the same
result. -/
theorem posted_events_are_union (s0 : Scheduler) (masks : List Nat) :
    get_scheduled_events (masks.foldl add_scheduled_event (scheduler_open s0)) =
      (masks.foldl (fun x y => x ||| y) 0) % 2 ^ 32 ∧
    (∀ i : Nat,
      (get_scheduled_events (masks.foldl add_scheduled_event (scheduler_open s0))).testBit i = true ↔
        i < 32 ∧ ∃ m ∈ masks, m.testBit i = true) ∧
    (∀ masks2 : List Nat, masks.Perm masks2 →
      get_scheduled_events (masks2.foldl add_scheduled_event (scheduler_open s0)) =
        get_scheduled_events (masks.foldl add_scheduled_event (scheduler_open s0))) ∧
    ((∀ m ∈ masks, m < 2 ^ 32) →
      get_scheduled_events (masks.foldl add_scheduled_event (scheduler_open s0)) =
        masks.foldl (fun x y => x ||| y) 0) := by
  have hbits : ∀ i : Nat,
      (get_scheduled_events (masks.foldl add_scheduled_event (scheduler_open s0))).testBit i = true ↔
        i < 32 ∧ ∃ m ∈ masks, m.testBit i = true := by
    intro i
    rw [testBit_get_after_posts]
    simp [scheduler_open, List.any_eq_true]
  have hor : get_scheduled_events (masks.foldl add_scheduled_event (scheduler_open s0)) =
      (masks.foldl (fun x y => x ||| y) 0) % 2 ^ 32 := by
    apply Nat.eq_of_testBit_eq
    intro i
    rw [testBit_get_after_posts, Nat.testBit_mod_two_pow, testBit_foldl_or]
    simp [scheduler_open]
  refine ⟨hor, hbits, ?_, ?_⟩
  · intro masks2 hperm
    apply Nat.eq_of_testBit_eq
    intro i
    rw [testBit_get_after_posts, testBit_get_after_posts]
    have hany : masks2.any (fun m => m.testBit i) = masks.any (fun m => m.testBit i) := by
      rw [Bool.eq_iff_iff, List.any_eq_true, List.any_eq_true]
      constructor
      · rintro ⟨m, hm, hb⟩
        exact ⟨m, hperm.mem_iff.mpr hm, hb⟩
      · rintro ⟨m, hm, hb⟩
        exact ⟨m, hperm.mem_iff.mp hm, hb⟩
    rw [hany]
  · intro hsmall
    rw [hor]
    apply Nat.mod_eq_of_lt
    apply Nat.lt_pow_two_of_testBit
    intro i hi
    rw [testBit_foldl_or]
    simp only [Nat.zero_testBit, Bool.false_or]
    rw [Bool.eq_false_iff]
    intro hany
    rw [List.any_eq_true] at hany
    obtain ⟨m, hm, hb⟩ := hany
    have hlt : m < 2 ^ i := lt_of_lt_of_le (hsmall m hm) (Nat.pow_le_pow_right (by decide) hi)
    rw [Nat.testBit_lt_two_pow hlt] at hb
    exact absurd hb (by decide)

/-- Witness for C9: posting bits 0, 3 and 0 again after `scheduler_open` leaves
exactly `0x9` pending, in either order. -/
theorem posted_events_are_union_witness :
    get_scheduled_events ([1, 8, 1].foldl add_scheduled_event (scheduler_open ⟨5⟩)) = 9 ∧
    get_scheduled_events ([8, 1, 1].foldl add_scheduled_event (scheduler_open ⟨5⟩)) = 9 ∧
    get_scheduled_events ([1, 8, 1].foldl add_scheduled_event (scheduler_open ⟨5⟩)) =
      [1, 8, 1].foldl (fun x y => x ||| y) 0 :=
  ⟨by decide, by decide, (posted_events_are_union ⟨5⟩ [1, 8, 1]).2.2.2 (by decide)⟩

/-- C10. For every pending set and every event mask `e`, calling
`add_scheduled_event(e)` twice leaves the same pending set as calling it once,
and a single following `remove_scheduled_event(e)` then leaves no bit of `e`
pending. -/
theorem double_post_consumed_once (s : Scheduler) (e : Nat) :
    add_scheduled_event (add_scheduled_event s e) e = add_scheduled_event s e ∧
    get_scheduled_events
        (remove_scheduled_event (add_scheduled_event (add_scheduled_event s e) e) e) &&& e = 0 := by
  have hbit : ∀ i : Nat,
      (get_scheduled_events
        (remove_scheduled_event (add_scheduled_event (add_scheduled_event s e) e) e)).testBit i =
        (decide (i < 32) && (s.event_scheduled.testBit i && !e.testBit i)) := by
    intro i
    simp only [get_scheduled_events, Nat.testBit_mod_two_pow, testBit_remove_scheduled_event,
      testBit_add_scheduled_event]
    cases decide (i < 32) <;> cases e.testBit i <;> simp
  refine ⟨?_, ?_⟩
  · have hes : (add_scheduled_event (add_scheduled_event s e) e).event_scheduled =
        (add_scheduled_event s e).event_scheduled := by
      apply Nat.eq_of_testBit_eq
      intro i
      rw [testBit_add_scheduled_event, testBit_add_scheduled_event]
      cases decide (i < 32) <;> cases e.testBit i <;> simp
    cases hx : add_scheduled_event (add_scheduled_event s e) e
    cases hy : add_scheduled_event s e
    rw [hx, hy] at hes
    simp only at hes
    rw [hes]
  · apply Nat.eq_of_testBit_eq
    intro i
    rw [Nat.testBit_and, hbit]
    cases decide (i < 32) <;> cases e.testBit i <;> simp

/-- C11. For every pending set `p` and every event mask `e`, after
`remove_scheduled_event(e)` the word `get_scheduled_events` returns is `p` with
exactly the bits of `e` cleared: no bit of `e` is reported, and every bit
outside `e` has the value it had in `p`. -/
theorem remove_clears_exactly_event_bits (s : Scheduler) (e : Nat) :
    (∀ i : Nat,
      (get_scheduled_events (remove_scheduled_event s e)).testBit i =
        ((get_scheduled_events s).testBit i && !e.testBit i)) ∧
    get_scheduled_events (remove_scheduled_event s e) &&& e = 0 := by
  have hbit : ∀ i : Nat,
      (get_scheduled_events (remove_scheduled_event s e)).testBit i =
        ((get_scheduled_events s).testBit i && !e.testBit i) := by
    intro i
    simp only [get_scheduled_events, Nat.testBit_mod_two_pow, testBit_remove_scheduled_event]
    cases decide (i < 32) <;> simp
  refine ⟨hbit, ?_⟩
  apply Nat.eq_of_testBit_eq
  intro i
  rw [Nat.testBit_and, hbit]
  cases (get_scheduled_events s).testBit i <;> cases e.testBit i <;> simp

/-! ## Properties of the I2C driver -/

@[simp] theorem I2CWorld.sm_setSm (w : I2CWorld) (b : I2C_TypeDef) (sm : I2C_STATE_MACHINE) :
    (w.setSm b sm).sm b = sm := by
  cases b <;> rfl

@[simp] theorem I2CWorld.sm_write (w : I2CWorld) (b : I2C_TypeDef) (x : I2C_WRITE) :
    (w.write x).sm b = w.sm b := by
  cases b <;> rfl

@[simp] theorem I2CWorld.sm_store (w : I2CWorld) (b : I2C_TypeDef) (p v : Nat) :
    (w.store p v).sm b = w.sm b := by
  cases b <;> rfl

@[simp] theorem I2CWorld.setSm_setSm (w : I2CWorld) (b : I2C_TypeDef)
    (s1 s2 : I2C_STATE_MACHINE) : (w.setSm b s1).setSm b s2 = w.setSm b s2 := by
  cases b <;> rfl

@[simp] theorem I2CWorld.mem_setSm (w : I2CWorld) (b : I2C_TypeDef) (sm : I2C_STATE_MACHINE) :
    (w.setSm b sm).mem = w.mem := by
  cases b <;> rfl

@[simp] theorem I2CWorld.regWrites_setSm (w : I2CWorld) (b : I2C_TypeDef)
    (sm : I2C_STATE_MACHINE) : (w.setSm b sm).regWrites = w.regWrites := by
  cases b <;> rfl

@[simp] theorem I2CWorld.table_setSm (w : I2CWorld) (b : I2C_TypeDef) (sm : I2C_STATE_MACHINE) :
    (w.setSm b sm).table = w.table := by
  cases b <;> rfl

@[simp] theorem I2CWorld.sched_setSm (w : I2CWorld) (b : I2C_TypeDef) (sm : I2C_STATE_MACHINE) :
    (w.setSm b sm).sched = w.sched := by
  cases b <;> rfl

@[simp] theorem I2CWorld.mem_write (w : I2CWorld) (x : I2C_WRITE) : (w.write x).mem = w.mem :=
  rfl

@[simp] theorem I2CWorld.regWrites_write (w : I2CWorld) (x : I2C_WRITE) :
    (w.write x).regWrites = w.regWrites ++ [x] :=
  rfl

@[simp] theorem I2CWorld.table_write (w : I2CWorld) (x : I2C_WRITE) :
    (w.write x).table = w.table :=
  rfl

@[simp] theorem I2CWorld.sched_write (w : I2CWorld) (x : I2C_WRITE) :
    (w.write x).sched = w.sched :=
  rfl

@[simp] theorem I2CWorld.mem_store (w : I2CWorld) (p v : Nat) :
    (w.store p v).mem = Function.update w.mem p (v % 2 ^ 32) :=
  rfl

@[simp] theorem I2CWorld.regWrites_store (w : I2CWorld) (p v : Nat) :
    (w.store p v).regWrites = w.regWrites :=
  rfl

@[simp] theorem I2CWorld.table_store (w : I2CWorld) (p v : Nat) :
    (w.store p v).table = w.table :=
  rfl

@[simp] theorem I2CWorld.sched_store (w : I2CWorld) (p v : Nat) :
    (w.store p v).sched = w.sched :=
  rfl

/-- A block that keeps the count below 5 is accepted. -/
theorem sleep_block_mode_eq_ok (t : BlockTable) (EM : Fin MAX_ENERGY_MODES)
    (h : t EM + 1 < 5) :
    sleep_block_mode t EM.val = .ok (Function.update t EM (t EM + 1)) := by
  have hmax : ¬ (INT_MAX ≤ t EM) := by
    unfold INT_MAX
    omega
  unfold sleep_block_mode
  rw [dif_pos EM.isLt]
  dsimp only
  rw [if_neg hmax]
  simp only [Function.update_same]
  rw [if_pos h]

/-- An unblock of a positive count is accepted. -/
theorem sleep_unblock_mode_eq_ok (t : BlockTable) (EM : Fin MAX_ENERGY_MODES)
    (h : 0 < t EM) :
    sleep_unblock_mode t EM.val = .ok (Function.update t EM (t EM - 1)) := by
  have hmin : ¬ (t EM ≤ INT_MIN) := by
    unfold INT_MIN
    omega
  have h0 : t EM - 1 ≥ 0 := by omega
  unfold sleep_unblock_mode
  rw [dif_pos EM.isLt]
  dsimp only
  rw [if_neg hmin]
  simp only [Function.update_same]
  rw [if_pos h0]

/-- The world `i2c_start` leaves when it returns: the machine of the bus
latched and busy, the EM2 count raised, START and the address byte issued. -/
theorem i2c_start_eq_ok (w : I2CWorld) (i2c : I2C_TypeDef) (n : Int)
    (address regAddress data : Nat) (RW cb : Int)
    (hbusy : (w.sm i2c).busy = false)
    (hlt : w.table ⟨I2C_EM_BLOCK, by decide⟩ + 1 < 5) :
    i2c_start w i2c true n address regAddress data RW cb =
      some (.ok ((({ (w.setSm i2c
          { i2c := i2c
            bytesRequested := n
            bytesDone := 0
            slaveAddress := address % 2 ^ 32
            regAddress := regAddress % 2 ^ 32
            data := data
            state := .START_WRITE
            busy := true
            RW := RW
            cb := (cb % 2 ^ 32).toNat }) with
          table := Function.update w.table ⟨I2C_EM_BLOCK, by decide⟩
            (w.table ⟨I2C_EM_BLOCK, by decide⟩ + 1) } : I2CWorld).write
        (.CMD i2c .START)).write
        (.TXDATA i2c (((address % 2 ^ 32) <<< 1) % 2 ^ 32 ||| W)))) := by
  have hblock := sleep_block_mode_eq_ok w.table ⟨I2C_EM_BLOCK, by decide⟩ hlt
  cases i2c with
  | I2C0 =>
    have hb : w.state_machine0.busy = false := hbusy
    simp only [i2c_start, hb, i2c_start_tail, I2CWorld.setSm]
    simp only [Bool.not_true, Bool.false_eq_true, if_false]
    rw [hblock]
  | I2C1 =>
    have hb : w.state_machine1.busy = false := hbusy
    simp only [i2c_start, hb, i2c_start_tail, I2CWorld.setSm]
    simp only [Bool.not_true, Bool.false_eq_true, if_false]
    rw [hblock]

/-- C17. For every call of `i2c_start` on a state machine that is not busy
(whatever its other fields hold), with the bus idle and room for one more EM2
block, the call returns and the machine afterwards has `busy == true`,
`state == START_WRITE`, `bytesDone == 0`, and `bytesRequested`, `slaveAddress`,
`regAddress`, `data`, `RW` and `cb` equal to the arguments (converted to the
type of the field); the EM2 count is one higher; and the START command followed
by the byte `(address << 1) | W` has been issued. -/
theorem i2c_start_latches_transfer (w : I2CWorld) (i2c : I2C_TypeDef) (n : Int)
    (address regAddress data : Nat) (RW cb : Int)
    (hbusy : (w.sm i2c).busy = false)
    (hlt : w.table ⟨I2C_EM_BLOCK, by decide⟩ + 1 < 5) :
    ∃ w1, i2c_start w i2c true n address regAddress data RW cb = some (.ok w1) ∧
      (w1.sm i2c).busy = true ∧
      (w1.sm i2c).state = .START_WRITE ∧
      (w1.sm i2c).bytesDone = 0 ∧
      (w1.sm i2c).bytesRequested = n ∧
      (w1.sm i2c).slaveAddress = address % 2 ^ 32 ∧
      (w1.sm i2c).regAddress = regAddress % 2 ^ 32 ∧
      (w1.sm i2c).data = data ∧
      (w1.sm i2c).RW = RW ∧
      ((w1.sm i2c).cb : Int) = cb % 2 ^ 32 ∧
      w1.table ⟨I2C_EM_BLOCK, by decide⟩ = w.table ⟨I2C_EM_BLOCK, by decide⟩ + 1 ∧
      w1.regWrites = w.regWrites ++
        [.CMD i2c .START, .TXDATA i2c (((address % 2 ^ 32) <<< 1) % 2 ^ 32 ||| W)] := by
  refine ⟨_, i2c_start_eq_ok w i2c n address regAddress data RW cb hbusy hlt, ?_⟩
  have hcb : (((cb % 2 ^ 32).toNat : Nat) : Int) = cb % 2 ^ 32 :=
    Int.toNat_of_nonneg (Int.emod_nonneg _ (by norm_num))
  cases i2c <;>
    simp [I2CWorld.sm, I2CWorld.setSm, I2CWorld.write, hcb] <;>
    omega

/-- Witness for C17: a machine that has just completed a transfer (counters
left at 3, state `DONE_STATE`) is started again on bus `I2C1`. -/
theorem i2c_start_latches_transfer_witness :
    ∃ w1,
      i2c_start
        { I2CWorld.reset with
          state_machine1 :=
            { I2C_STATE_MACHINE.zero .I2C1 with
              state := .DONE_STATE, bytesDone := 3, bytesRequested := 3 } }
        .I2C1 true 2 0x55 0x10 40 1 8 = some (.ok w1) ∧
      (w1.sm .I2C1).busy = true ∧
      (w1.sm .I2C1).state = .START_WRITE ∧
      (w1.sm .I2C1).bytesDone = 0 ∧
      (w1.sm .I2C1).bytesRequested = 2 ∧
      (w1.sm .I2C1).slaveAddress = 0x55 % 2 ^ 32 ∧
      (w1.sm .I2C1).regAddress = 0x10 % 2 ^ 32 ∧
      (w1.sm .I2C1).data = 40 ∧
      (w1.sm .I2C1).RW = 1 ∧
      ((w1.sm .I2C1).cb : Int) = 8 % 2 ^ 32 ∧
      w1.table ⟨I2C_EM_BLOCK, by decide⟩ =
        (sleep_open (fun _ => 0)) ⟨I2C_EM_BLOCK, by decide⟩ + 1 ∧
      w1.regWrites = [] ++
        [.CMD .I2C1 .START, .TXDATA .I2C1 (((0x55 % 2 ^ 32) <<< 1) % 2 ^ 32 ||| W)] :=
  i2c_start_latches_transfer
    { I2CWorld.reset with
      state_machine1 :=
        { I2C_STATE_MACHINE.zero .I2C1 with
          state := .DONE_STATE, bytesDone := 3, bytesRequested := 3 } }
    .I2C1 2 0x55 0x10 40 1 8 (by decide) (by decide)

/-- An acknowledge interrupt that is served leaves the block table and the
scheduler as they were. -/
theorem i2c_ack_ok_frame {w w1 : I2CWorld} {b : I2C_TypeDef} (h : i2c_ack w b = .ok w1) :
    w1.table = w.table ∧ w1.sched = w.sched := by
  unfold i2c_ack i2c_send_data at h
  dsimp only at h
  split at h <;> (try split_ifs at h) <;>
    first
      | (cases h; simp)
      | (exact absurd h (by simp))

/-- A data-received interrupt that is served leaves the block table and the
scheduler as they were. -/
theorem i2c_rxdata_ok_frame {w w1 : I2CWorld} {b : I2C_TypeDef} {rx : Nat}
    (h : i2c_rxdata w b rx = .ok w1) :
    w1.table = w.table ∧ w1.sched = w.sched := by
  unfold i2c_rxdata at h
  dsimp only at h
  split at h <;> (try split_ifs at h) <;>
    first
      | (cases h; simp)
      | (exact absurd h (by simp))

/-- A run of acknowledge and data-received interrupts that is served to the end
leaves the block table and the scheduler as they were. -/
theorem runIrqs_ok_frame (b : I2C_TypeDef) (irqs : List I2C_IRQ) :
    ∀ (w w1 : I2CWorld), (∀ q ∈ irqs, q ≠ I2C_IRQ.MSTOP) → runIrqs w b irqs = .ok w1 →
      w1.table = w.table ∧ w1.sched = w.sched := by
  induction irqs with
  | nil =>
    intro w w1 _ h
    simp only [runIrqs] at h
    cases h
    exact ⟨rfl, rfl⟩
  | cons q qs ih =>
    intro w w1 hq h
    have hq0 : q ≠ I2C_IRQ.MSTOP := hq q (List.mem_cons_self _ _)
    have hqs : ∀ r ∈ qs, r ≠ I2C_IRQ.MSTOP := fun r hr => hq r (List.mem_cons_of_mem _ hr)
    cases hrun : q.run w b with
    | ok w2 =>
      have hunf : runIrqs w b (q :: qs) = runIrqs w2 b qs := by
        simp only [runIrqs, hrun]
      rw [hunf] at h
      obtain ⟨ht, hs⟩ := ih w2 w1 hqs h
      have hstep : w2.table = w.table ∧ w2.sched = w.sched := by
        cases q with
        | ACK => exact i2c_ack_ok_frame hrun
        | RXDATAV rx => exact i2c_rxdata_ok_frame hrun
        | MSTOP => exact absurd rfl hq0
      exact ⟨ht.trans hstep.1, hs.trans hstep.2⟩
    | assertFail w2 =>
      have hunf : runIrqs w b (q :: qs) = .assertFail w2 := by
        simp only [runIrqs, hrun]
      rw [hunf] at h
      exact absurd h (by simp)
    | undefined =>
      have hunf : runIrqs w b (q :: qs) = .undefined := by
        simp only [runIrqs, hrun]
      rw [hunf] at h
      exact absurd h (by simp)

/-- When the last statements of `i2c_start` complete, the EM2 count has been
raised by one, staying below 5, and nothing else in the table has changed. -/
theorem i2c_start_tail_ok_table {w ws : I2CWorld} {i2c : I2C_TypeDef} {address : Nat}
    (h : i2c_start_tail w i2c address = .ok ws) :
    ws.table = Function.update w.table ⟨I2C_EM_BLOCK, by decide⟩
        (w.table ⟨I2C_EM_BLOCK, by decide⟩ + 1) ∧
      w.table ⟨I2C_EM_BLOCK, by decide⟩ + 1 < 5 := by
  unfold i2c_start_tail at h
  split at h
  · rename_i t ht
    cases h
    obtain ⟨hteq, hlt⟩ := sleep_block_mode_ok ⟨I2C_EM_BLOCK, by decide⟩ ht
    exact ⟨by simp [hteq], hlt⟩
  · exact absurd h (by simp)
  · exact absurd h (by simp)

/-- When `i2c_start` returns, the EM2 count is one higher than before and below
5. -/
theorem i2c_start_ok_table {w0 ws : I2CWorld} {b : I2C_TypeDef} {busIdle : Bool} {n : Int}
    {address regAddress data : Nat} {RW cb : Int}
    (h : i2c_start w0 b busIdle n address regAddress data RW cb = some (.ok ws)) :
    ws.table ⟨I2C_EM_BLOCK, by decide⟩ = w0.table ⟨I2C_EM_BLOCK, by decide⟩ + 1 ∧
      w0.table ⟨I2C_EM_BLOCK, by decide⟩ + 1 < 5 := by
  cases b <;> simp only [i2c_start] at h <;> split_ifs at h <;>
    first
      | (obtain ⟨h1, h2⟩ := i2c_start_tail_ok_table (Option.some.inj h)
         exact ⟨by simp [h1], h2⟩)
      | (exact absurd h (by simp))

/-- The world `i2c_mstop` leaves in `SEND_STOP` when the unblock is accepted. -/
theorem i2c_mstop_eq_ok (w : I2CWorld) (b : I2C_TypeDef)
    (hstate : (w.sm b).state = .SEND_STOP)
    (hpos : 0 < w.table ⟨I2C_EM_BLOCK, by decide⟩) :
    i2c_mstop w b =
      .ok { (w.setSm b { w.sm b with busy := false, state := .DONE_STATE }) with
        table := Function.update w.table ⟨I2C_EM_BLOCK, by decide⟩
          (w.table ⟨I2C_EM_BLOCK, by decide⟩ - 1)
        sched := add_scheduled_event w.sched (w.sm b).cb } := by
  have hun := sleep_unblock_mode_eq_ok w.table ⟨I2C_EM_BLOCK, by decide⟩ hpos
  unfold i2c_mstop
  simp only [hstate, I2CWorld.table_setSm, I2CWorld.sched_setSm]
  rw [hun]

/-- C16. For every I2C state machine in `SEND_STOP` whose EM2 block is
outstanding, the stop-confirmed handler `i2c_mstop` returns, sets `busy` to
false, sets the state to `DONE_STATE`, lowers the EM2 (`I2C_EM_BLOCK`) count by
one, leaves the other counts alone and ORs the latched completion event `cb`
into the pending set; consequently, over a whole transfer begun by `i2c_start`
on a table whose EM2 count is not negative, the EM2 count after completion
equals the count before `i2c_start`. -/
theorem i2c_mstop_completes_transfer (w : I2CWorld) (b : I2C_TypeDef)
    (hstate : (w.sm b).state = .SEND_STOP)
    (hpos : 0 < w.table ⟨I2C_EM_BLOCK, by decide⟩) :
    (∃ w1, i2c_mstop w b = .ok w1 ∧
      (w1.sm b).busy = false ∧
      (w1.sm b).state = .DONE_STATE ∧
      w1.table ⟨I2C_EM_BLOCK, by decide⟩ = w.table ⟨I2C_EM_BLOCK, by decide⟩ - 1 ∧
      (∀ j : Fin MAX_ENERGY_MODES, j ≠ ⟨I2C_EM_BLOCK, by decide⟩ → w1.table j = w.table j) ∧
      w1.sched = add_scheduled_event w.sched (w.sm b).cb ∧
      (∀ i : Nat, (get_scheduled_events w1.sched).testBit i =
        (decide (i < 32) && (w.sched.event_scheduled.testBit i || (w.sm b).cb.testBit i)))) ∧
    (∀ (w0 ws : I2CWorld) (busIdle : Bool) (n : Int) (address regAddress data : Nat)
        (RW cb : Int) (irqs : List I2C_IRQ),
      0 ≤ w0.table ⟨I2C_EM_BLOCK, by decide⟩ →
      i2c_start w0 b busIdle n address regAddress data RW cb = some (.ok ws) →
      (∀ q ∈ irqs, q ≠ I2C_IRQ.MSTOP) →
      runIrqs ws b irqs = .ok w →
      ∃ w1, i2c_mstop w b = .ok w1 ∧
        w1.table ⟨I2C_EM_BLOCK, by decide⟩ = w0.table ⟨I2C_EM_BLOCK, by decide⟩) := by
  constructor
  · refine ⟨_, i2c_mstop_eq_ok w b hstate hpos, ?_, ?_, ?_, ?_, ?_, ?_⟩
    · cases b <;> rfl
    · cases b <;> rfl
    · simp
    · intro j hj
      simp [Function.update_noteq hj]
    · rfl
    · intro i
      simp only [get_scheduled_events, Nat.testBit_mod_two_pow, testBit_add_scheduled_event]
      cases decide (i < 32) <;> simp
  · intro w0 ws busIdle n address regAddress data RW cb irqs h0 hstart hirqs hrun
    refine ⟨_, i2c_mstop_eq_ok w b hstate hpos, ?_⟩
    obtain ⟨htab, _⟩ := runIrqs_ok_frame b irqs ws w hirqs hrun
    have hws := (i2c_start_ok_table hstart).1
    simp only [Function.update_same]
    rw [htab, hws]
    ring

/-- Witness for C16: the stop-confirmed interrupt at the end of a one-byte read
on bus `I2C1` with event mask 8. -/
theorem i2c_mstop_completes_transfer_witness :
    ∃ w1, i2c_mstop I2CWorld.stopping .I2C1 = .ok w1 ∧
      (w1.sm .I2C1).busy = false ∧
      (w1.sm .I2C1).state = .DONE_STATE ∧
      w1.table ⟨I2C_EM_BLOCK, by decide⟩ =
        I2CWorld.stopping.table ⟨I2C_EM_BLOCK, by decide⟩ - 1 ∧
      (∀ j : Fin MAX_ENERGY_MODES, j ≠ ⟨I2C_EM_BLOCK, by decide⟩ →
        w1.table j = I2CWorld.stopping.table j) ∧
      w1.sched = add_scheduled_event I2CWorld.stopping.sched (I2CWorld.stopping.sm .I2C1).cb ∧
      (∀ i : Nat, (get_scheduled_events w1.sched).testBit i =
        (decide (i < 32) && (I2CWorld.stopping.sched.event_scheduled.testBit i ||
          (I2CWorld.stopping.sm .I2C1).cb.testBit i))) :=
  (i2c_mstop_completes_transfer I2CWorld.stopping .I2C1 (by decide) (by decide)).1

/-- C15, as stated, fails: an acknowledge interrupt while the machine is in
`READ_DATA` is accepted and changes nothing at all. -/
theorem i2c_ack_ignored_in_READ_DATA :
    (I2CWorld.reading.sm .I2C1).state = .READ_DATA ∧
    i2c_ack I2CWorld.reading .I2C1 = .ok I2CWorld.reading :=
  ⟨rfl, rfl⟩

/-- C15, amended. In the I2C driver, for every state of the machine and each of
the three interrupt kinds, the handler fails the fatal assertion, or runs into
undefined behaviour (a counter overflow), or is served with an effect (the
state changes or a register is written), except for an acknowledge interrupt in
`READ_DATA`, or in `SEND_REG` with `RW` neither `R` nor `W`, which is served
with no effect at all. A data-received interrupt in `DONE_STATE` asserts. -/
theorem i2c_irq_effect_or_assert (w : I2CWorld) (b : I2C_TypeDef) (q : I2C_IRQ) :
    ((q.run w b).isAssertFail = true ∨
      q.run w b = .undefined ∨
      (∃ w1, q.run w b = .ok w1 ∧
        ((w1.sm b).state ≠ (w.sm b).state ∨ w1.regWrites ≠ w.regWrites)) ∨
      (q = .ACK ∧
        ((w.sm b).state = .READ_DATA ∨
          ((w.sm b).state = .SEND_REG ∧ (w.sm b).RW ≠ (R : Int) ∧ (w.sm b).RW ≠ (W : Int))) ∧
        q.run w b = .ok w)) ∧
    (∀ rx : Nat, (w.sm b).state = .DONE_STATE → (i2c_rxdata w b rx).isAssertFail = true) := by
  constructor
  · cases q with
    | ACK =>
      simp only [I2C_IRQ.run, i2c_ack, i2c_send_data]
      cases hs : (w.sm b).state <;> simp only [] <;> (try split_ifs) <;>
        simp_all [Outcome.isAssertFail]
    | RXDATAV rx =>
      simp only [I2C_IRQ.run, i2c_rxdata]
      cases hs : (w.sm b).state <;> simp only [] <;> (try split_ifs) <;>
        simp [Outcome.isAssertFail, hs]
    | MSTOP =>
      simp only [I2C_IRQ.run, i2c_mstop]
      cases hs : (w.sm b).state
      case SEND_STOP =>
        simp only [I2CWorld.table_setSm]
        cases hu : sleep_unblock_mode w.table I2C_EM_BLOCK with
        | ok t =>
          right
          right
          left
          refine ⟨_, rfl, Or.inl ?_⟩
          cases b <;> simp [I2CWorld.sm, I2CWorld.setSm]
        | assertFail t =>
          left
          rfl
        | undefined =>
          right
          left
          rfl
      all_goals simp [Outcome.isAssertFail]
  · intro rx hs
    simp [i2c_rxdata, hs, Outcome.isAssertFail]

/-- Bit `i` of what `get_scheduled_events` returns after one post. -/
theorem testBit_get_add_scheduled_event (s : Scheduler) (e i : Nat) :
    (get_scheduled_events (add_scheduled_event s e)).testBit i =
      (decide (i < 32) && (s.event_scheduled.testBit i || e.testBit i)) := by
  simp only [get_scheduled_events, Nat.testBit_mod_two_pow, testBit_add_scheduled_event]
  cases decide (i < 32) <;> simp

/-- The `int` argument `cb`, when it holds the event mask `E`, is stored in the
`uint32_t` field as `E` reduced to 32 bits. -/
theorem cb_toNat_of_mask (E : Nat) : ((E : Int) % 2 ^ 32).toNat = E % 2 ^ 32 := by
  omega

/-- C12, as stated, fails: after `i2c_start` for a one-byte read, the sequence
acknowledge, acknowledge, data-received, stop-confirmed fails the assertion of
`i2c_rxdata`, because after two acknowledges the machine is in `START_READ`, not
yet in `READ_DATA`; and with four EM2 blocks outstanding `i2c_start` itself
fails the assertion of `sleep_block_mode`. -/
theorem i2c_read_two_acks_asserts :
    (i2c_transfer I2CWorld.reset .I2C1 true 1 0x55 0x00 0 R 8
        [.ACK, .ACK, .RXDATAV 0x33, .MSTOP]).map Outcome.isAssertFail = some true ∧
    ((i2c_transfer I2CWorld.reset .I2C1 true 1 0x55 0x00 0 R 8 [.ACK, .ACK]).bind
        Outcome.result?).map (fun w => (w.sm .I2C1).state) = some .START_READ ∧
    (i2c_start { I2CWorld.reset with table := ![0, 0, 4, 0, 0] } .I2C1 true 1 0x55 0x00 0 R 8).map
        Outcome.isAssertFail = some true := by
  decide

/-- C12, amended. I2C 1-byte register read: after `i2c_start` on an idle bus
and a machine that is not busy, with the EM2 count between 0 and 3, `RW = R`,
address 0x55, register 0x00, `bytesRequested` 1 and completion event `E`, the
interrupt sequence acknowledge, acknowledge, acknowledge, data-received
carrying 0x33, stop-confirmed runs without any assertion failure and ends with
`buf[0] == 0x33`, `busy == false`, the bits of `E` set in
`get_scheduled_events`, and the EM2 block count back at its value before
`i2c_start`. -/
theorem i2c_one_byte_read (w : I2CWorld) (b : I2C_TypeDef) (d E : Nat)
    (hbusy : (w.sm b).busy = false)
    (hlo : 0 ≤ w.table ⟨I2C_EM_BLOCK, by decide⟩)
    (hhi : w.table ⟨I2C_EM_BLOCK, by decide⟩ < 4) :
    ∃ w1,
      i2c_transfer w b true 1 0x55 0x00 d R E
        [.ACK, .ACK, .ACK, .RXDATAV 0x33, .MSTOP] = some (.ok w1) ∧
      w1.mem d = 0x33 ∧
      (w1.sm b).busy = false ∧
      (w1.sm b).state = .DONE_STATE ∧
      (∀ i : Nat, i < 32 → E.testBit i = true →
        (get_scheduled_events w1.sched).testBit i = true) ∧
      w1.table ⟨I2C_EM_BLOCK, by decide⟩ = w.table ⟨I2C_EM_BLOCK, by decide⟩ := by
  have hstart := i2c_start_eq_ok w b 1 0x55 0x00 d R E hbusy (by omega)
  have hun := sleep_unblock_mode_eq_ok
    (Function.update w.table ⟨I2C_EM_BLOCK, by decide⟩ (w.table ⟨I2C_EM_BLOCK, by decide⟩ + 1))
    ⟨I2C_EM_BLOCK, by decide⟩ (by rw [Function.update_same]; omega)
  have hbits : ∀ i : Nat, i < 32 → E.testBit i = true →
      (get_scheduled_events
        (add_scheduled_event w.sched ((E : Int) % 2 ^ 32).toNat)).testBit i = true := by
    intro i hi hE
    rw [cb_toNat_of_mask, testBit_get_add_scheduled_event, Nat.testBit_mod_two_pow, hE]
    simp [hi]
  cases b with
  | I2C0 =>
    simp only [i2c_transfer, hstart, Option.map, Outcome.next, runIrqs, I2C_IRQ.run, i2c_ack,
      i2c_rxdata, i2c_mstop, I2CWorld.sm, I2CWorld.setSm, I2CWorld.write, I2CWorld.store]
    simp [hun, INT_MAX]
    simpa using hbits
  | I2C1 =>
    simp only [i2c_transfer, hstart, Option.map, Outcome.next, runIrqs, I2C_IRQ.run, i2c_ack,
      i2c_rxdata, i2c_mstop, I2CWorld.sm, I2CWorld.setSm, I2CWorld.write, I2CWorld.store]
    simp [hun, INT_MAX]
    simpa using hbits

/-- Witness for C12 amended: the scenario on bus `I2C1` from the world after
start-up, with the buffer at address 0 and the event mask 8. -/
theorem i2c_one_byte_read_witness :
    ∃ w1,
      i2c_transfer I2CWorld.reset .I2C1 true 1 0x55 0x00 0 R (8 : Nat)
        [.ACK, .ACK, .ACK, .RXDATAV 0x33, .MSTOP] = some (.ok w1) ∧
      w1.mem 0 = 0x33 ∧
      (w1.sm .I2C1).busy = false ∧
      (w1.sm .I2C1).state = .DONE_STATE ∧
      (∀ i : Nat, i < 32 → (8 : Nat).testBit i = true →
        (get_scheduled_events w1.sched).testBit i = true) ∧
      w1.table ⟨I2C_EM_BLOCK, by decide⟩ = I2CWorld.reset.table ⟨I2C_EM_BLOCK, by decide⟩ :=
  i2c_one_byte_read I2CWorld.reset .I2C1 0 8 (by decide) (by decide) (by decide)

/-- Serving two runs of interrupts one after the other is serving their
concatenation. -/
theorem runIrqs_append (b : I2C_TypeDef) (l1 l2 : List I2C_IRQ) :
    ∀ w : I2CWorld,
      runIrqs w b (l1 ++ l2) = (runIrqs w b l1).next (fun w1 => runIrqs w1 b l2) := by
  induction l1 with
  | nil =>
    intro w
    rfl
  | cons q qs ih =>
    intro w
    simp only [List.cons_append, runIrqs]
    cases q.run w b with
    | ok w2 => exact ih w2
    | assertFail w2 => rfl
    | undefined => rfl

/-- A data-received interrupt in `READ_DATA` that brings `bytesDone` to
`bytesRequested`: the byte is stored, NACK and STOP are issued, the machine
moves to `SEND_STOP`. -/
theorem i2c_rxdata_last (w : I2CWorld) (b : I2C_TypeDef) (rx : Nat)
    (hstate : (w.sm b).state = .READ_DATA) (hRW : (w.sm b).RW ≠ (W : Int))
    (hlast : (w.sm b).bytesDone + 1 = (w.sm b).bytesRequested)
    (hmax : (w.sm b).bytesDone < INT_MAX) :
    i2c_rxdata w b rx =
      .ok ((((w.store (w.sm b).data rx).setSm b
          { w.sm b with
            data := (w.sm b).data + 1, bytesDone := (w.sm b).bytesDone + 1,
            state := .SEND_STOP }).write
        (.CMD (w.sm b).i2c .NACK)).write (.CMD (w.sm b).i2c .STOP)) := by
  unfold i2c_rxdata
  simp only [hstate]
  rw [if_neg hRW, if_neg (not_le.mpr hmax), if_pos hlast]

/-- A data-received interrupt in `READ_DATA` that leaves `bytesDone` short of
`bytesRequested`: the byte is stored and ACK is issued. -/
theorem i2c_rxdata_more (w : I2CWorld) (b : I2C_TypeDef) (rx : Nat)
    (hstate : (w.sm b).state = .READ_DATA) (hRW : (w.sm b).RW ≠ (W : Int))
    (hmore : (w.sm b).bytesDone + 1 ≠ (w.sm b).bytesRequested)
    (hmax : (w.sm b).bytesDone < INT_MAX) :
    i2c_rxdata w b rx =
      .ok (((w.store (w.sm b).data rx).setSm b
          { w.sm b with
            data := (w.sm b).data + 1, bytesDone := (w.sm b).bytesDone + 1 }).write
        (.CMD (w.sm b).i2c .ACK)) := by
  unfold i2c_rxdata
  simp only [hstate]
  rw [if_neg hRW, if_neg (not_le.mpr hmax), if_neg hmore]

/-- The read phase: from `READ_DATA` with exactly `bs.length` bytes outstanding,
the data-received interrupts delivering `bs` store the bytes at consecutive
positions from `data` on, answer all but the last with ACK and the last with
NACK, STOP, and end in `SEND_STOP`. -/
theorem i2c_read_phase (b : I2C_TypeDef) (bs : List Nat) :
    ∀ w : I2CWorld, (w.sm b).state = .READ_DATA → (w.sm b).RW ≠ (W : Int) → bs ≠ [] →
      (w.sm b).bytesRequested = (w.sm b).bytesDone + bs.length →
      (w.sm b).bytesRequested ≤ INT_MAX →
      ∃ w1, runIrqs w b (bs.map I2C_IRQ.RXDATAV) = .ok w1 ∧
        w1.sm b = { w.sm b with
          state := .SEND_STOP, data := (w.sm b).data + bs.length,
          bytesDone := (w.sm b).bytesDone + bs.length } ∧
        (∀ i : Nat, i < bs.length → w1.mem ((w.sm b).data + i) = bs.getD i 0 % 2 ^ 32) ∧
        (∀ a : Nat, a < (w.sm b).data → w1.mem a = w.mem a) ∧
        w1.regWrites = w.regWrites ++
          List.replicate (bs.length - 1) (I2C_WRITE.CMD (w.sm b).i2c .ACK) ++
          [.CMD (w.sm b).i2c .NACK, .CMD (w.sm b).i2c .STOP] ∧
        w1.table = w.table ∧ w1.sched = w.sched := by
  induction bs with
  | nil =>
    intro w _ _ hne
    exact absurd rfl hne
  | cons x xs ih =>
    intro w hstate hRW _ hreq hmax
    by_cases hxs : xs = []
    · subst hxs
      have hlast : (w.sm b).bytesDone + 1 = (w.sm b).bytesRequested := by
        rw [hreq]
        simp
      have hlt : (w.sm b).bytesDone < INT_MAX := by omega
      refine ⟨(((w.store (w.sm b).data x).setSm b
          { w.sm b with
            data := (w.sm b).data + 1, bytesDone := (w.sm b).bytesDone + 1,
            state := .SEND_STOP }).write
        (.CMD (w.sm b).i2c .NACK)).write (.CMD (w.sm b).i2c .STOP), ?_, ?_, ?_, ?_, ?_, ?_, ?_⟩
      · simp only [List.map_cons, List.map_nil, runIrqs, I2C_IRQ.run,
          i2c_rxdata_last w b x hstate hRW hlast hlt]
      · simp
      · intro i hi
        have hi0 : i = 0 := by
          simp only [List.length_singleton] at hi
          omega
        subst hi0
        simp
      · intro a ha
        have hne : a ≠ (w.sm b).data := by omega
        simp [Function.update_noteq hne]
      · simp
      · simp
      · simp
    · have hlen : 0 < xs.length := List.length_pos.mpr hxs
      have hmore : (w.sm b).bytesDone + 1 ≠ (w.sm b).bytesRequested := by
        rw [hreq]
        simp only [List.length_cons]
        push_cast
        omega
      have hlt : (w.sm b).bytesDone < INT_MAX := by
        rw [hreq] at hmax
        simp only [List.length_cons] at hmax
        push_cast at hmax
        omega
      have hstep := i2c_rxdata_more w b x hstate hRW hmore hlt
      obtain ⟨w1, hrun, hsm, hmem, hbelow, hwr, htab, hsch⟩ :=
        ih (((w.store (w.sm b).data x).setSm b
            { w.sm b with
              data := (w.sm b).data + 1, bytesDone := (w.sm b).bytesDone + 1 }).write
          (.CMD (w.sm b).i2c .ACK))
          (by simpa using hstate) (by simpa using hRW) hxs
          (by
            simp only [I2CWorld.sm_write, I2CWorld.sm_setSm]
            rw [hreq]
            simp only [List.length_cons]
            push_cast
            ring)
          (by simpa using hmax)
      simp only [I2CWorld.sm_write, I2CWorld.sm_setSm, I2CWorld.regWrites_write,
        I2CWorld.regWrites_setSm, I2CWorld.regWrites_store, I2CWorld.mem_write,
        I2CWorld.mem_setSm, I2CWorld.mem_store, I2CWorld.table_write, I2CWorld.table_setSm,
        I2CWorld.table_store, I2CWorld.sched_write, I2CWorld.sched_setSm,
        I2CWorld.sched_store] at hsm hmem hbelow hwr htab hsch
      refine ⟨w1, ?_, ?_, ?_, ?_, ?_, htab, hsch⟩
      · simp only [List.map_cons, runIrqs, I2C_IRQ.run, hstep]
        exact hrun
      · rw [hsm]
        simp only [List.length_cons]
        congr 1
        · omega
        · ring
      · intro i hi
        cases i with
        | zero =>
          have h0 := hbelow (w.sm b).data (by omega)
          simp only [Function.update_same] at h0
          simpa using h0
        | succ k =>
          have hk : k < xs.length := by
            simp only [List.length_cons] at hi
            omega
          have h1 := hmem k hk
          have hidx : (w.sm b).data + (k + 1) = (w.sm b).data + 1 + k := by omega
          rw [hidx, h1]
          simp
      · intro a ha
        have h1 := hbelow a (by omega)
        have hne : a ≠ (w.sm b).data := by omega
        rw [h1, Function.update_noteq hne]
      · rw [hwr]
        simp only [List.length_cons, Nat.add_sub_cancel]
        obtain ⟨k, hk⟩ : ∃ k, xs.length = k + 1 := ⟨xs.length - 1, by omega⟩
        rw [hk]
        simp [List.replicate_succ]

/-- A transfer followed by two runs of interrupts is the transfer with the
first run, followed by the second run. -/
theorem i2c_transfer_append (w : I2CWorld) (i2c : I2C_TypeDef) (busIdle : Bool) (n : Int)
    (address regAddress data : Nat) (RW cb : Int) (l1 l2 : List I2C_IRQ) :
    i2c_transfer w i2c busIdle n address regAddress data RW cb (l1 ++ l2) =
      (i2c_transfer w i2c busIdle n address regAddress data RW cb l1).map
        (fun o => o.next (fun w3 => runIrqs w3 i2c l2)) := by
  unfold i2c_transfer
  cases i2c_start w i2c busIdle n address regAddress data RW cb with
  | none => rfl
  | some o =>
    cases o with
    | ok w1 =>
      simp only [Option.map, Outcome.next]
      rw [runIrqs_append]
      rfl
    | assertFail w1 => rfl
    | undefined => rfl

/-- A read up to `READ_DATA`: `i2c_start` with `RW = R` and three acknowledge
interrupts. The first acknowledge transmits the register byte, the second
re-issues START and transmits the address with the read bit, the third moves
the machine to `READ_DATA`. -/
theorem i2c_read_setup (w : I2CWorld) (b : I2C_TypeDef) (n : Int)
    (address regAddress d : Nat) (cb : Int)
    (hbusy : (w.sm b).busy = false)
    (hlt : w.table ⟨I2C_EM_BLOCK, by decide⟩ + 1 < 5) :
    ∃ w3, i2c_transfer w b true n address regAddress d R cb [.ACK, .ACK, .ACK] = some (.ok w3) ∧
      w3.sm b =
        { i2c := b
          bytesRequested := n
          bytesDone := 0
          slaveAddress := address % 2 ^ 32
          regAddress := regAddress % 2 ^ 32
          data := d
          state := .READ_DATA
          busy := true
          RW := R
          cb := (cb % 2 ^ 32).toNat } ∧
      w3.mem = w.mem ∧
      w3.regWrites = w.regWrites ++
        [.CMD b .START, .TXDATA b (((address % 2 ^ 32) <<< 1) % 2 ^ 32 ||| W),
          .TXDATA b (regAddress % 2 ^ 32), .CMD b .START,
          .TXDATA b (((address % 2 ^ 32) <<< 1) % 2 ^ 32 ||| R)] ∧
      w3.table ⟨I2C_EM_BLOCK, by decide⟩ = w.table ⟨I2C_EM_BLOCK, by decide⟩ + 1 ∧
      w3.sched = w.sched := by
  have hstart := i2c_start_eq_ok w b n address regAddress d R cb hbusy hlt
  cases b with
  | I2C0 =>
    simp only [i2c_transfer, hstart, Option.map, Outcome.next, runIrqs, I2C_IRQ.run, i2c_ack,
      I2CWorld.sm, I2CWorld.setSm, I2CWorld.write]
    simp
  | I2C1 =>
    simp only [i2c_transfer, hstart, Option.map, Outcome.next, runIrqs, I2C_IRQ.run, i2c_ack,
      I2CWorld.sm, I2CWorld.setSm, I2CWorld.write]
    simp

/-- C13. I2C burst read: for every N >= 1 (N bytes `bs`), after `i2c_start`
with `RW = R` and the three acknowledge interrupts that bring the machine to
`READ_DATA` (the second of which re-issues START and transmits
`(address << 1) | R`), the N data-received interrupts delivering `bs` store
byte i in `data[i]` in arrival order, answer each of the first N-1 with the ACK
command and the N-th with NACK followed by STOP, and leave the machine in
`SEND_STOP` with `bytesDone == N`. -/
theorem i2c_burst_read (w : I2CWorld) (b : I2C_TypeDef) (bs : List Nat)
    (address regAddress d : Nat) (cb : Int)
    (hbusy : (w.sm b).busy = false)
    (hlt : w.table ⟨I2C_EM_BLOCK, by decide⟩ + 1 < 5)
    (hN : 1 ≤ bs.length) (hmax : (bs.length : Int) ≤ INT_MAX) :
    ∃ w1,
      i2c_transfer w b true bs.length address regAddress d R cb
        ([.ACK, .ACK, .ACK] ++ bs.map I2C_IRQ.RXDATAV) = some (.ok w1) ∧
      (∀ i : Nat, i < bs.length → w1.mem (d + i) = bs.getD i 0 % 2 ^ 32) ∧
      w1.regWrites = w.regWrites ++
        [.CMD b .START, .TXDATA b (((address % 2 ^ 32) <<< 1) % 2 ^ 32 ||| W),
          .TXDATA b (regAddress % 2 ^ 32), .CMD b .START,
          .TXDATA b (((address % 2 ^ 32) <<< 1) % 2 ^ 32 ||| R)] ++
        List.replicate (bs.length - 1) (I2C_WRITE.CMD b .ACK) ++
        [.CMD b .NACK, .CMD b .STOP] ∧
      (w1.sm b).state = .SEND_STOP ∧
      (w1.sm b).bytesDone = bs.length ∧
      (w1.sm b).data = d + bs.length := by
  obtain ⟨w3, hsetup, hsm3, hmem3, hwr3, _, _⟩ :=
    i2c_read_setup w b bs.length address regAddress d cb hbusy hlt
  have hne : bs ≠ [] := by
    intro h
    rw [h] at hN
    exact absurd hN (by decide)
  obtain ⟨w1, hrun, hsm, hmem, _, hwr, _, _⟩ :=
    i2c_read_phase b bs w3 (by rw [hsm3]) (by rw [hsm3]; simp) hne
      (by rw [hsm3]; simp) (by rw [hsm3]; exact hmax)
  refine ⟨w1, ?_, ?_, ?_, ?_, ?_, ?_⟩
  · rw [i2c_transfer_append, hsetup]
    simp only [Option.map, Outcome.next]
    rw [hrun]
  · intro i hi
    have h1 := hmem i hi
    rw [hsm3] at h1
    exact h1
  · rw [hwr, hwr3, hsm3]
  · rw [hsm]
  · rw [hsm, hsm3]
    simp
  · rw [hsm, hsm3]

/-- Witness for C13: a three-byte read on bus `I2C1` from the world after
start-up. -/
theorem i2c_burst_read_witness :
    ∃ w1,
      i2c_transfer I2CWorld.reset .I2C1 true ([0x11, 0x22, 0x33] : List Nat).length 0x55 0x10 4 R 8
        ([.ACK, .ACK, .ACK] ++ ([0x11, 0x22, 0x33] : List Nat).map I2C_IRQ.RXDATAV)
          = some (.ok w1) ∧
      (∀ i : Nat, i < ([0x11, 0x22, 0x33] : List Nat).length →
        w1.mem (4 + i) = ([0x11, 0x22, 0x33] : List Nat).getD i 0 % 2 ^ 32) ∧
      w1.regWrites = I2CWorld.reset.regWrites ++
        [.CMD .I2C1 .START, .TXDATA .I2C1 (((0x55 % 2 ^ 32) <<< 1) % 2 ^ 32 ||| W),
          .TXDATA .I2C1 (0x10 % 2 ^ 32), .CMD .I2C1 .START,
          .TXDATA .I2C1 (((0x55 % 2 ^ 32) <<< 1) % 2 ^ 32 ||| R)] ++
        List.replicate (([0x11, 0x22, 0x33] : List Nat).length - 1) (I2C_WRITE.CMD .I2C1 .ACK) ++
        [.CMD .I2C1 .NACK, .CMD .I2C1 .STOP] ∧
      (w1.sm .I2C1).state = .SEND_STOP ∧
      (w1.sm .I2C1).bytesDone = ([0x11, 0x22, 0x33] : List Nat).length ∧
      (w1.sm .I2C1).data = 4 + ([0x11, 0x22, 0x33] : List Nat).length :=
  i2c_burst_read I2CWorld.reset .I2C1 [0x11, 0x22, 0x33] 0x55 0x10 4 8
    (by decide) (by decide) (by decide) (by decide)

/-- An acknowledge interrupt in `WRITE_DATA` with bytes still to send: the next
word of the buffer is transmitted. -/
theorem i2c_ack_write_more (w : I2CWorld) (b : I2C_TypeDef)
    (hstate : (w.sm b).state = .WRITE_DATA) (hRW : (w.sm b).RW ≠ (R : Int))
    (hmore : (w.sm b).bytesDone ≠ (w.sm b).bytesRequested)
    (hmax : (w.sm b).bytesDone < INT_MAX) :
    i2c_ack w b =
      .ok ((w.setSm b
          { w.sm b with
            state := .WRITE_DATA, data := (w.sm b).data + 1,
            bytesDone := (w.sm b).bytesDone + 1 }).write
        (.TXDATA (w.sm b).i2c (w.mem (w.sm b).data))) := by
  unfold i2c_ack i2c_send_data
  simp only [hstate]
  rw [if_neg hRW, if_neg hmore, if_neg (not_le.mpr hmax)]

/-- An acknowledge interrupt in `WRITE_DATA` once every byte has been sent:
STOP is issued and the machine moves to `SEND_STOP`. -/
theorem i2c_ack_write_stop (w : I2CWorld) (b : I2C_TypeDef)
    (hstate : (w.sm b).state = .WRITE_DATA) (hRW : (w.sm b).RW ≠ (R : Int))
    (hdone : (w.sm b).bytesDone = (w.sm b).bytesRequested) :
    i2c_ack w b =
      .ok ((w.setSm b { w.sm b with state := .SEND_STOP }).write
        (.CMD (w.sm b).i2c .STOP)) := by
  unfold i2c_ack
  simp only [hstate]
  rw [if_neg hRW, if_pos hdone]

/-- The write phase: from `WRITE_DATA` with `m` bytes still to send, `m`
acknowledge interrupts transmit the next `m` words of the buffer in order and
nothing else. -/
theorem i2c_write_phase (b : I2C_TypeDef) (m : Nat) :
    ∀ w : I2CWorld, (w.sm b).state = .WRITE_DATA → (w.sm b).RW ≠ (R : Int) →
      (w.sm b).bytesRequested = (w.sm b).bytesDone + m →
      (w.sm b).bytesRequested ≤ INT_MAX →
      ∃ w1, runIrqs w b (List.replicate m I2C_IRQ.ACK) = .ok w1 ∧
        w1.sm b = { w.sm b with
          data := (w.sm b).data + m, bytesDone := (w.sm b).bytesDone + m } ∧
        w1.mem = w.mem ∧
        w1.regWrites = w.regWrites ++
          (List.range m).map (fun i => I2C_WRITE.TXDATA (w.sm b).i2c (w.mem ((w.sm b).data + i))) ∧
        w1.table = w.table ∧ w1.sched = w.sched := by
  induction m with
  | zero =>
    intro w _ _ _ _
    exact ⟨w, rfl, by simp, rfl, by simp, rfl, rfl⟩
  | succ k ih =>
    intro w hstate hRW hreq hmax
    have hmore : (w.sm b).bytesDone ≠ (w.sm b).bytesRequested := by
      rw [hreq]
      push_cast
      omega
    have hlt : (w.sm b).bytesDone < INT_MAX := by
      rw [hreq] at hmax
      push_cast at hmax
      omega
    have hstep := i2c_ack_write_more w b hstate hRW hmore hlt
    obtain ⟨w1, hrun, hsm, hmem, hwr, htab, hsch⟩ :=
      ih ((w.setSm b
          { w.sm b with
            state := .WRITE_DATA, data := (w.sm b).data + 1,
            bytesDone := (w.sm b).bytesDone + 1 }).write
        (.TXDATA (w.sm b).i2c (w.mem (w.sm b).data)))
        (by simp) (by simpa using hRW)
        (by
          simp only [I2CWorld.sm_write, I2CWorld.sm_setSm]
          rw [hreq]
          push_cast
          ring)
        (by simpa using hmax)
    simp only [I2CWorld.sm_write, I2CWorld.sm_setSm, I2CWorld.regWrites_write,
      I2CWorld.regWrites_setSm, I2CWorld.mem_write, I2CWorld.mem_setSm, I2CWorld.table_write,
      I2CWorld.table_setSm, I2CWorld.sched_write, I2CWorld.sched_setSm]
      at hsm hmem hwr htab hsch
    refine ⟨w1, ?_, ?_, hmem, ?_, htab, hsch⟩
    · simp only [List.replicate_succ, runIrqs, I2C_IRQ.run, hstep]
      exact hrun
    · rw [hsm]
      have hst : (w.sm b).state = .WRITE_DATA := hstate
      cases hw : w.sm b
      rw [hw] at hst
      simp only at hst
      subst hst
      simp only [I2C_STATE_MACHINE.mk.injEq, true_and, and_true]
      constructor
      · push_cast
        ring
      · omega
    · rw [hwr, List.range_succ_eq_map, List.map_cons, List.map_map, List.append_assoc]
      simp only [List.singleton_append, Nat.add_zero, List.cons.injEq, true_and,
        List.append_cancel_left_eq]
      apply List.map_congr_left
      intro i _
      simp only [Function.comp_apply]
      congr 2
      omega

/-- A write up to `WRITE_DATA`: `i2c_start` with `RW = W` and two acknowledge
interrupts. The first acknowledge transmits the register byte, the second the
first word of the buffer. -/
theorem i2c_write_setup (w : I2CWorld) (b : I2C_TypeDef) (n : Int)
    (address regAddress d : Nat) (cb : Int)
    (hbusy : (w.sm b).busy = false)
    (hlt : w.table ⟨I2C_EM_BLOCK, by decide⟩ + 1 < 5) :
    ∃ w2, i2c_transfer w b true n address regAddress d W cb [.ACK, .ACK] = some (.ok w2) ∧
      w2.sm b =
        { i2c := b
          bytesRequested := n
          bytesDone := 1
          slaveAddress := address % 2 ^ 32
          regAddress := regAddress % 2 ^ 32
          data := d + 1
          state := .WRITE_DATA
          busy := true
          RW := W
          cb := (cb % 2 ^ 32).toNat } ∧
      w2.mem = w.mem ∧
      w2.regWrites = w.regWrites ++
        [.CMD b .START, .TXDATA b (((address % 2 ^ 32) <<< 1) % 2 ^ 32 ||| W),
          .TXDATA b (regAddress % 2 ^ 32), .TXDATA b (w.mem d)] := by
  have hstart := i2c_start_eq_ok w b n address regAddress d W cb hbusy hlt
  cases b with
  | I2C0 =>
    simp only [i2c_transfer, hstart, Option.map, Outcome.next, runIrqs, I2C_IRQ.run, i2c_ack,
      i2c_send_data, I2CWorld.sm, I2CWorld.setSm, I2CWorld.write]
    simp [INT_MAX]
  | I2C1 =>
    simp only [i2c_transfer, hstart, Option.map, Outcome.next, runIrqs, I2C_IRQ.run, i2c_ack,
      i2c_send_data, I2CWorld.sm, I2CWorld.setSm, I2CWorld.write]
    simp [INT_MAX]

/-- C14. I2C burst write: for every N >= 1, after `i2c_start` with `RW = W`
followed by acknowledge interrupts, the bytes written to TXDATA are
`(address << 1) | W`, the register byte, then `data[0..N-1]` in order and
nothing else (after N+1 acknowledges `bytesDone == N`); the acknowledge that
arrives once `bytesDone == N` issues STOP exactly once and moves to
`SEND_STOP`; and a further acknowledge interrupt after that fails the
assertion. -/
theorem i2c_burst_write (w : I2CWorld) (b : I2C_TypeDef) (N : Nat)
    (address regAddress d : Nat) (cb : Int)
    (hbusy : (w.sm b).busy = false)
    (hlt : w.table ⟨I2C_EM_BLOCK, by decide⟩ + 1 < 5)
    (hN : 1 ≤ N) (hmax : (N : Int) ≤ INT_MAX) :
    (∃ w1,
      i2c_transfer w b true N address regAddress d W cb (List.replicate (N + 1) .ACK)
        = some (.ok w1) ∧
      (w1.sm b).state = .WRITE_DATA ∧
      (w1.sm b).bytesDone = N ∧
      w1.regWrites = w.regWrites ++
        [.CMD b .START, .TXDATA b (((address % 2 ^ 32) <<< 1) % 2 ^ 32 ||| W),
          .TXDATA b (regAddress % 2 ^ 32)] ++
        (List.range N).map (fun i => I2C_WRITE.TXDATA b (w.mem (d + i)))) ∧
    (∃ w2,
      i2c_transfer w b true N address regAddress d W cb (List.replicate (N + 2) .ACK)
        = some (.ok w2) ∧
      (w2.sm b).state = .SEND_STOP ∧
      (w2.sm b).bytesDone = N ∧
      w2.regWrites = w.regWrites ++
        [.CMD b .START, .TXDATA b (((address % 2 ^ 32) <<< 1) % 2 ^ 32 ||| W),
          .TXDATA b (regAddress % 2 ^ 32)] ++
        (List.range N).map (fun i => I2C_WRITE.TXDATA b (w.mem (d + i))) ++
        [.CMD b .STOP] ∧
      (i2c_ack w2 b).isAssertFail = true) := by
  obtain ⟨k, rfl⟩ : ∃ k, N = k + 1 := ⟨N - 1, by omega⟩
  obtain ⟨w2, hsetup, hsm2, hmem2, hwr2⟩ :=
    i2c_write_setup w b ((k + 1 : Nat) : Int) address regAddress d cb hbusy hlt
  obtain ⟨w3, hrun3, hsm3, _, hwr3, _, _⟩ :=
    i2c_write_phase b k w2 (by rw [hsm2]) (by rw [hsm2]; simp)
      (by rw [hsm2]; push_cast; ring) (by rw [hsm2]; exact hmax)
  have hwrites : w3.regWrites = w.regWrites ++
      [.CMD b .START, .TXDATA b (((address % 2 ^ 32) <<< 1) % 2 ^ 32 ||| W),
        .TXDATA b (regAddress % 2 ^ 32)] ++
      (List.range (k + 1)).map (fun i => I2C_WRITE.TXDATA b (w.mem (d + i))) := by
    rw [hwr3, hwr2, hsm2, hmem2, List.range_succ_eq_map, List.map_cons, List.map_map]
    simp only [List.append_assoc, List.cons_append, List.nil_append, Nat.add_zero,
      List.append_cancel_left_eq, List.cons.injEq, true_and]
    apply List.map_congr_left
    intro i _
    simp only [Function.comp_apply]
    congr 2
    omega
  have hfirst : i2c_transfer w b true ((k + 1 : Nat) : Int) address regAddress d W cb
      (List.replicate (k + 1 + 1) .ACK) = some (.ok w3) := by
    have hsplit : List.replicate (k + 1 + 1) I2C_IRQ.ACK =
        [.ACK, .ACK] ++ List.replicate k .ACK := by
      simp [List.replicate_succ]
    rw [hsplit, i2c_transfer_append, hsetup]
    simp only [Option.map, Outcome.next]
    rw [hrun3]
  have hstate3 : (w3.sm b).state = .WRITE_DATA := by rw [hsm3, hsm2]
  have hRW3 : (w3.sm b).RW ≠ (R : Int) := by
    rw [hsm3, hsm2]
    simp
  have hdone3 : (w3.sm b).bytesDone = (w3.sm b).bytesRequested := by
    rw [hsm3, hsm2]
    push_cast
    ring
  have hstop := i2c_ack_write_stop w3 b hstate3 hRW3 hdone3
  have hi2c : (w3.sm b).i2c = b := by rw [hsm3, hsm2]
  constructor
  · refine ⟨w3, hfirst, hstate3, ?_, hwrites⟩
    rw [hsm3, hsm2]
    push_cast
    ring
  · refine ⟨(w3.setSm b { w3.sm b with state := .SEND_STOP }).write
      (.CMD (w3.sm b).i2c .STOP), ?_, ?_, ?_, ?_, ?_⟩
    · have hsplit : List.replicate (k + 1 + 2) I2C_IRQ.ACK =
          List.replicate (k + 1 + 1) .ACK ++ [.ACK] := by
        rw [← List.replicate_succ']
      rw [hsplit, i2c_transfer_append, hfirst]
      simp only [Option.map, Outcome.next, runIrqs, I2C_IRQ.run, hstop]
    · simp
    · simp only [I2CWorld.sm_write, I2CWorld.sm_setSm]
      rw [hsm3, hsm2]
      push_cast
      ring
    · simp only [I2CWorld.regWrites_write, I2CWorld.regWrites_setSm]
      rw [hwrites, hi2c]
    · simp [i2c_ack, Outcome.isAssertFail]

/-- Witness for C14: a two-byte write on bus `I2C1` from the world after
start-up; the fifth acknowledge interrupt fails the assertion. -/
theorem i2c_burst_write_witness :
    ∃ w2,
      i2c_transfer I2CWorld.reset .I2C1 true (2 : Nat) 0x55 0x10 4 W 8 (List.replicate (2 + 2) .ACK)
        = some (.ok w2) ∧
      (w2.sm .I2C1).state = .SEND_STOP ∧
      (w2.sm .I2C1).bytesDone = (2 : Nat) ∧
      w2.regWrites = I2CWorld.reset.regWrites ++
        [.CMD .I2C1 .START, .TXDATA .I2C1 (((0x55 % 2 ^ 32) <<< 1) % 2 ^ 32 ||| W),
          .TXDATA .I2C1 (0x10 % 2 ^ 32)] ++
        (List.range 2).map (fun i => I2C_WRITE.TXDATA .I2C1 (I2CWorld.reset.mem (4 + i))) ++
        [.CMD .I2C1 .STOP] ∧
      (i2c_ack w2 .I2C1).isAssertFail = true :=
  (i2c_burst_write I2CWorld.reset .I2C1 2 0x55 0x10 4 8
    (by decide) (by decide) (by decide) (by decide)).2

/-! ## Properties of the SPI driver -/

/-- When the last statements of `usart_start` complete and the call returns, no
call is in progress. -/
theorem usart_start_tail_ok_frame_dead {w w1 : SpiWorld} {RW : Nat}
    (h : usart_start_tail w RW = .ok w1) : w1.frame = none := by
  unfold usart_start_tail at h
  split at h
  · cases h
    rfl
  · exact absurd h (by simp)
  · exact absurd h (by simp)

/-- When `usart_start` returns, no call is in progress: the arrays `tdata` and
`rdata` that the state machine and `sm3_read_res` point into have ended their
lifetime. -/
theorem usart_start_ok_frame_dead {w w1 : SpiWorld} {RW regAddress data : Nat} {cb n : Int}
    (h : usart_start w RW regAddress data cb n = some (.ok w1)) : w1.frame = none := by
  unfold usart_start at h
  dsimp only at h
  split_ifs at h
  all_goals
    first
      | exact usart_start_tail_ok_frame_dead (Option.some.inj h)
      | exact absurd h (by simp)

/-- With no call of `usart_start` in progress, a TXBL interrupt that has a data
word to send reads it through the dangling pointer `sm->tdata`. -/
theorem usart_txbl_dead_array (w : SpiWorld) (hframe : w.frame = none)
    (hstate : w.sm3.state = .WRITE_DATA_SPI)
    (hmore : w.sm3.bytesSent ≠ w.sm3.bytesRequested) :
    usart_txbl w = .undefined := by
  unfold usart_txbl
  simp only [hstate]
  rw [if_pos hmore, hframe]

/-- With no call of `usart_start` in progress, a receive interrupt in
`READ_DATA_SPI` stores through the dangling pointer `sm->rdata`. -/
theorem usart_rxdatav_dead_array (w : SpiWorld) (rx : Nat) (hframe : w.frame = none)
    (hstate : w.sm3.state = .READ_DATA_SPI) :
    usart_rxdatav w rx = .undefined := by
  unfold usart_rxdatav
  simp only [hstate, SpiWorld.storeRdata, hframe]
  split_ifs <;> rfl

/-- C18, at the failing input `usart_start(USART3, 0, 0x06, &cmd, 4, 1)` (a
one-word write as `ICM_write` makes it): the call returns with the arrays dead,
the first TXBL interrupt transmits the register address, and the second TXBL
interrupt, which has `data[0]` to send, reads the dead array `tdata`: undefined
behaviour where the claim has `data[0]` transmitted. With no data word (n = 0)
the transfer completes as the claim says. -/
theorem spi_write_reads_dead_array :
    ((usart_transfer SpiWorld.withCommand 0 0x06 100 4 1 [.TXBL]).bind Outcome.result?).map
        (fun w => (w.regWrites, w.frame, w.sm3.state, w.sm3.bytesSent, w.sm3.bytesRequested)) =
      some ([.CMD_CLEARRX_CLEARTX, .TXDATA 0x06], none, .WRITE_DATA_SPI, 1, 2) ∧
    (usart_transfer SpiWorld.withCommand 0 0x06 100 4 1 [.TXBL, .TXBL]).map Outcome.isUndefined =
      some true ∧
    ((usart_transfer SpiWorld.withCommand 0 0x06 100 4 0 [.TXBL, .TXC]).bind Outcome.result?).map
        (fun w => (w.regWrites, w.sm3.state, w.sm3.busy, w.cs, w.table 2,
          get_scheduled_events w.sched)) =
      some ([.CMD_CLEARRX_CLEARTX, .TXDATA 0x06, .CMD_CLEARRX], .DONE_STATE_SPI, false, true, 0,
        4) := by
  refine ⟨by decide, by decide, by decide⟩

/-- C19, at the failing input `usart_start(USART3, 0x80, 0x06, 0, 4, 1)` (a
one-byte read as `ICM_read` makes it): the register address with the read bit
and one dummy byte are transmitted, and the first receive interrupt stores
through `sm->rdata` into the dead array `rdata`: undefined behaviour where the
claim has the bytes collected; the pointer `ret_sm3_read` returns cannot be
read either. -/
theorem spi_read_writes_dead_array :
    ((usart_transfer SpiWorld.withCommand 0x80 0x06 0 4 1 [.TXBL, .TXBL, .TXBL]).bind
        Outcome.result?).map
        (fun w => (w.regWrites, w.frame, w.sm3.state, w.IEN.TXBL)) =
      some ([.CMD_CLEARRX_CLEARTX, .TXDATA 0x86, .TXDATA DUMMY_DATA], none, .READ_DATA_SPI,
        false) ∧
    (usart_transfer SpiWorld.withCommand 0x80 0x06 0 4 1 [.TXBL, .TXBL, .RXDATAV 0x29]).map
        Outcome.isUndefined = some true ∧
    (usart_transfer SpiWorld.withCommand 0x80 0x06 0 4 1 [.TXBL, .RXDATAV 0x29]).map
        Outcome.isUndefined = some true ∧
    ((usart_transfer SpiWorld.withCommand 0x80 0x06 0 4 1 []).bind Outcome.result?).map
        (fun w => read_sm3_result w 0) = some none := by
  refine ⟨by decide, by decide, by decide, by decide⟩

/-! ## Properties of the LEUART driver -/

/-- Reading the first `n` positions of a list in order gives its first `n`
elements. -/
theorem map_getD_range_eq_take (l : List Nat) (n : Nat) (hn : n ≤ l.length) :
    (List.range n).map (fun i => l.getD i 0) = l.take n := by
  apply List.ext_getElem
  · simp [hn]
  · intro i h1 h2
    have hi : i < n := by simpa using h1
    have hil : i < l.length := by omega
    simp [List.getD_eq_getElem?_getD, List.getElem?_eq_getElem hil]

/-- Serving two runs of LEUART interrupts one after the other is serving their
concatenation. -/
theorem runLeuartIrqs_append (l1 l2 : List LEUART_IRQ) :
    ∀ w : LeuartWorld,
      runLeuartIrqs w (l1 ++ l2) = (runLeuartIrqs w l1).next (fun w1 => runLeuartIrqs w1 l2) := by
  induction l1 with
  | nil =>
    intro w
    rfl
  | cons q qs ih =>
    intro w
    simp only [List.cons_append, runLeuartIrqs]
    cases q.run w with
    | ok w2 => exact ih w2
    | assertFail w2 => rfl
    | undefined => rfl

/-- A TXBL interrupt in `WRITE_LEUART` with characters still to send: the next
character of `data` is stored to `TXDATA`, and `IEN` is restored. -/
theorem LEUART0_IRQHandler_txbl_more (w : LeuartWorld)
    (hstate : w.leuartSM.state = .WRITE_LEUART) (hien : w.IEN.TXBL = true)
    (hmore : w.leuartSM.bytesRequested ≠ w.leuartSM.bytesDone)
    (h32 : w.leuartSM.bytesDone + 1 < 2 ^ 32) :
    LEUART0_IRQHandler w true false =
      .ok { w with
        leuartSM := { w.leuartSM with bytesDone := w.leuartSM.bytesDone + 1 }
        txdata := w.txdata ++ [w.leuartSM.data w.leuartSM.bytesDone] } := by
  have hmod : (w.leuartSM.bytesDone + 1) % 2 ^ 32 = w.leuartSM.bytesDone + 1 :=
    Nat.mod_eq_of_lt h32
  have hI : ({ TXBL := true, TXC := w.IEN.TXC } : LEUART_IEN) = w.IEN := by
    cases hw : w.IEN
    rw [hw] at hien
    simp only at hien
    simp only [hien]
  unfold LEUART0_IRQHandler leuart_txbl
  simp only [hien, hstate, Bool.and_self, Bool.false_and, if_true, if_pos hmore, hmod,
    LeuartWorld.restoreIEN, Bool.false_or, Bool.false_eq_true, if_false, hI]

/-- The TXBL interrupt in `WRITE_LEUART` once every character has been sent:
nothing is stored to `TXDATA` and the TXC interrupt is enabled. -/
theorem LEUART0_IRQHandler_txbl_done (w : LeuartWorld)
    (hstate : w.leuartSM.state = .WRITE_LEUART) (hien : w.IEN.TXBL = true)
    (hdone : w.leuartSM.bytesRequested = w.leuartSM.bytesDone) :
    LEUART0_IRQHandler w true false =
      .ok { w with IEN := { TXBL := true, TXC := true } } := by
  unfold LEUART0_IRQHandler leuart_txbl
  simp only [hien, hstate, Bool.and_self, Bool.false_and, if_true, hdone, ne_eq,
    not_true_eq_false, if_false, LeuartWorld.restoreIEN, Bool.false_or, Bool.true_or,
    Bool.false_eq_true]

/-- The write phase of the LEUART: `k` TXBL interrupts with at least `k`
characters still to send store the next `k` characters of `data` to `TXDATA`
in order. -/
theorem leuart_write_phase (k : Nat) :
    ∀ w : LeuartWorld, w.leuartSM.state = .WRITE_LEUART → w.IEN.TXBL = true →
      w.leuartSM.bytesDone + k ≤ w.leuartSM.bytesRequested →
      w.leuartSM.bytesRequested < 2 ^ 32 →
      runLeuartIrqs w (List.replicate k .TXBL) =
        .ok { w with
          leuartSM := { w.leuartSM with bytesDone := w.leuartSM.bytesDone + k }
          txdata := w.txdata ++
            (List.range k).map (fun i => w.leuartSM.data (w.leuartSM.bytesDone + i)) } := by
  induction k with
  | zero =>
    intro w _ _ _ _
    simp [runLeuartIrqs]
  | succ k ih =>
    intro w hstate hien hle h32
    have hmore : w.leuartSM.bytesRequested ≠ w.leuartSM.bytesDone := by omega
    have hstep := LEUART0_IRQHandler_txbl_more w hstate hien hmore (by omega)
    simp only [List.replicate_succ, runLeuartIrqs, LEUART_IRQ.run, hstep]
    have hle1 : w.leuartSM.bytesDone + 1 + k ≤ w.leuartSM.bytesRequested := by omega
    refine Eq.trans (ih _ hstate hien hle1 h32) ?_
    have hcount : w.leuartSM.bytesDone + 1 + k = w.leuartSM.bytesDone + (k + 1) := by omega
    have hlist : (w.txdata ++ [w.leuartSM.data w.leuartSM.bytesDone]) ++
        (List.range k).map (fun i => w.leuartSM.data (w.leuartSM.bytesDone + 1 + i)) =
        w.txdata ++
          (List.range (k + 1)).map (fun i => w.leuartSM.data (w.leuartSM.bytesDone + i)) := by
      rw [List.range_succ_eq_map, List.map_cons, List.map_map, List.append_assoc]
      simp only [List.singleton_append, Nat.add_zero, List.append_cancel_left_eq,
        List.cons.injEq, true_and]
      apply List.map_congr_left
      intro i _
      simp only [Function.comp_apply]
      congr 1
      omega
    simp only [hcount, hlist]

/-- The world `leuart_start` leaves when it returns. -/
theorem leuart_start_eq_ok (w : LeuartWorld) (string : List Nat) (n : Nat)
    (hbusy : w.leuartSM.busy = false)
    (hlt : w.table ⟨LEUART_TX_EM, by decide⟩ + 1 < 5) :
    leuart_start w string n =
      some (.ok { w with
        table := Function.update w.table ⟨LEUART_TX_EM, by decide⟩
          (w.table ⟨LEUART_TX_EM, by decide⟩ + 1)
        leuartSM :=
          { busy := true
            bytesDone := 0
            bytesRequested := n % 2 ^ 32
            data := strcpy w.leuartSM.data string
            state := .WRITE_LEUART }
        IEN := { w.IEN with TXBL := true } }) := by
  have hblock := sleep_block_mode_eq_ok w.table ⟨LEUART_TX_EM, by decide⟩ hlt
  unfold leuart_start
  simp only [hbusy, Bool.false_eq_true, if_false]
  rw [hblock]

/-- The TXC interrupt in `WRITE_LEUART` with the EM2 block outstanding: the
machine is done and no longer busy, TXC and TXBL are disabled, the EM2 count is
lowered and `tx_done_evt` is posted. -/
theorem LEUART0_IRQHandler_txc (w : LeuartWorld)
    (hstate : w.leuartSM.state = .WRITE_LEUART) (hien : w.IEN.TXC = true)
    (hpos : 0 < w.table ⟨LEUART_TX_EM, by decide⟩) :
    LEUART0_IRQHandler w false true =
      .ok { w with
        leuartSM := { w.leuartSM with state := .DONE_LEUART, busy := false }
        IEN := { TXBL := false, TXC := false }
        table := Function.update w.table ⟨LEUART_TX_EM, by decide⟩
          (w.table ⟨LEUART_TX_EM, by decide⟩ - 1)
        sched := add_scheduled_event w.sched w.tx_done_evt } := by
  have hun := sleep_unblock_mode_eq_ok w.table ⟨LEUART_TX_EM, by decide⟩ hpos
  unfold LEUART0_IRQHandler leuart_txc
  simp only [hien, hstate, Bool.and_self, Bool.false_and, Bool.false_eq_true, if_false, if_true,
    hun, LeuartWorld.restoreIEN, Bool.or_self]

/-- The LEUART world after `leuart_start` and `n` TXBL interrupts, `n` not
exceeding the length of the string. -/
theorem leuart_run_txbl (w : LeuartWorld) (string : List Nat) (n : Nat)
    (hbusy : w.leuartSM.busy = false)
    (hlt : w.table ⟨LEUART_TX_EM, by decide⟩ + 1 < 5)
    (hn : n ≤ (cstring string).length) (h32 : n < 2 ^ 32) :
    leuart_transfer w string n (List.replicate n .TXBL) =
      some (.ok { w with
        table := Function.update w.table ⟨LEUART_TX_EM, by decide⟩
          (w.table ⟨LEUART_TX_EM, by decide⟩ + 1)
        leuartSM :=
          { busy := true
            bytesDone := n
            bytesRequested := n
            data := strcpy w.leuartSM.data string
            state := .WRITE_LEUART }
        IEN := { TXBL := true, TXC := w.IEN.TXC }
        txdata := w.txdata ++ (cstring string).take n }) := by
  have hstart := leuart_start_eq_ok w string n hbusy hlt
  have hmod : n % 2 ^ 32 = n := Nat.mod_eq_of_lt h32
  rw [hmod] at hstart
  have hphase := leuart_write_phase n
    { w with
      table := Function.update w.table ⟨LEUART_TX_EM, by decide⟩
        (w.table ⟨LEUART_TX_EM, by decide⟩ + 1)
      leuartSM :=
        { busy := true
          bytesDone := 0
          bytesRequested := n
          data := strcpy w.leuartSM.data string
          state := .WRITE_LEUART }
      IEN := { w.IEN with TXBL := true } }
    rfl rfl (by show 0 + n ≤ n; omega) h32
  have hchars : (List.range n).map (fun i => strcpy w.leuartSM.data string i) =
      (cstring string).take n := by
    rw [← map_getD_range_eq_take (cstring string) n hn]
    apply List.map_congr_left
    intro i hi
    have hin : i < (cstring string).length := by
      have := List.mem_range.mp hi
      omega
    simp [strcpy, hin]
  simp only [Nat.zero_add] at hphase
  rw [hchars] at hphase
  simp only [leuart_transfer, hstart, Option.map, Outcome.next]
  rw [hphase]

/-- The LEUART world after `leuart_start` and `n + 1` TXBL interrupts. -/
theorem leuart_run_txbl_done (w : LeuartWorld) (string : List Nat) (n : Nat)
    (hbusy : w.leuartSM.busy = false)
    (hlt : w.table ⟨LEUART_TX_EM, by decide⟩ + 1 < 5)
    (hn : n ≤ (cstring string).length) (h32 : n < 2 ^ 32) :
    leuart_transfer w string n (List.replicate n .TXBL ++ [.TXBL]) =
      some (.ok { w with
        table := Function.update w.table ⟨LEUART_TX_EM, by decide⟩
          (w.table ⟨LEUART_TX_EM, by decide⟩ + 1)
        leuartSM :=
          { busy := true
            bytesDone := n
            bytesRequested := n
            data := strcpy w.leuartSM.data string
            state := .WRITE_LEUART }
        IEN := { TXBL := true, TXC := true }
        txdata := w.txdata ++ (cstring string).take n }) := by
  have hrun := leuart_run_txbl w string n hbusy hlt hn h32
  have happ : leuart_transfer w string n (List.replicate n .TXBL ++ [.TXBL]) =
      (leuart_transfer w string n (List.replicate n .TXBL)).map
        (fun o => o.next (fun w1 => runLeuartIrqs w1 [.TXBL])) := by
    unfold leuart_transfer
    cases leuart_start w string n with
    | none => rfl
    | some o =>
      cases o with
      | ok w1 =>
        simp only [Option.map, Outcome.next]
        rw [runLeuartIrqs_append]
        rfl
      | assertFail w1 => rfl
      | undefined => rfl
  rw [happ, hrun]
  simp only [Option.map, Outcome.next, runLeuartIrqs, LEUART_IRQ.run]
  rw [LEUART0_IRQHandler_txbl_done _ rfl rfl rfl]

/-- The LEUART world after `leuart_start`, `n + 1` TXBL interrupts and the TXC
interrupt. -/
theorem leuart_run_txc (w : LeuartWorld) (string : List Nat) (n : Nat)
    (hbusy : w.leuartSM.busy = false)
    (hlo : 0 ≤ w.table ⟨LEUART_TX_EM, by decide⟩)
    (hlt : w.table ⟨LEUART_TX_EM, by decide⟩ + 1 < 5)
    (hn : n ≤ (cstring string).length) (h32 : n < 2 ^ 32) :
    leuart_transfer w string n (List.replicate n .TXBL ++ [.TXBL, .TXC]) =
      some (.ok { w with
        table := Function.update
          (Function.update w.table ⟨LEUART_TX_EM, by decide⟩
            (w.table ⟨LEUART_TX_EM, by decide⟩ + 1)) ⟨LEUART_TX_EM, by decide⟩
          (w.table ⟨LEUART_TX_EM, by decide⟩ + 1 - 1)
        leuartSM :=
          { busy := false
            bytesDone := n
            bytesRequested := n
            data := strcpy w.leuartSM.data string
            state := .DONE_LEUART }
        IEN := { TXBL := false, TXC := false }
        txdata := w.txdata ++ (cstring string).take n
        sched := add_scheduled_event w.sched w.tx_done_evt }) := by
  have hrun := leuart_run_txbl_done w string n hbusy hlt hn h32
  have hsplit : List.replicate n LEUART_IRQ.TXBL ++ [.TXBL, .TXC] =
      (List.replicate n LEUART_IRQ.TXBL ++ [.TXBL]) ++ [.TXC] := by
    simp
  have happ : leuart_transfer w string n ((List.replicate n .TXBL ++ [.TXBL]) ++ [.TXC]) =
      (leuart_transfer w string n (List.replicate n .TXBL ++ [.TXBL])).map
        (fun o => o.next (fun w1 => runLeuartIrqs w1 [.TXC])) := by
    unfold leuart_transfer
    cases leuart_start w string n with
    | none => rfl
    | some o =>
      cases o with
      | ok w1 =>
        simp only [Option.map, Outcome.next]
        rw [runLeuartIrqs_append]
        rfl
      | assertFail w1 => rfl
      | undefined => rfl
  rw [hsplit, happ, hrun]
  simp only [Option.map, Outcome.next, runLeuartIrqs, LEUART_IRQ.run]
  rw [LEUART0_IRQHandler_txc _ rfl rfl (by simp only [Function.update_same]; omega)]
  simp only [Function.update_same]

/-- C20. LEUART write: for every string and `string_len = n` not exceeding the
string's length, after `leuart_start` (machine not busy, EM2 count between 0
and 3) the first n TXBL interrupts write `data[0..n-1]`, the first n
characters of the string, to TXDATA in order with no address or register byte;
the next TXBL writes nothing and enables the TXC interrupt; and the TXC
interrupt in `WRITE_LEUART` sets `DONE_LEUART`, clears `busy`, lowers the EM2
count raised by `leuart_start` and posts `tx_done_evt`. -/
theorem leuart_flat_write (w : LeuartWorld) (string : List Nat) (n : Nat)
    (hbusy : w.leuartSM.busy = false)
    (hlo : 0 ≤ w.table ⟨LEUART_TX_EM, by decide⟩)
    (hhi : w.table ⟨LEUART_TX_EM, by decide⟩ < 4)
    (hn : n ≤ (cstring string).length) (h32 : n < 2 ^ 32) :
    (∃ w1, leuart_transfer w string n (List.replicate n .TXBL) = some (.ok w1) ∧
      w1.txdata = w.txdata ++ (cstring string).take n ∧
      (∀ i : Nat, i < n → w1.leuartSM.data i = (cstring string).getD i 0) ∧
      w1.leuartSM.bytesDone = n ∧
      w1.leuartSM.state = .WRITE_LEUART ∧
      w1.leuartSM.busy = true ∧
      w1.table ⟨LEUART_TX_EM, by decide⟩ = w.table ⟨LEUART_TX_EM, by decide⟩ + 1) ∧
    (∃ w2, leuart_transfer w string n (List.replicate n .TXBL ++ [.TXBL]) = some (.ok w2) ∧
      w2.txdata = w.txdata ++ (cstring string).take n ∧
      w2.IEN.TXC = true ∧
      w2.leuartSM.state = .WRITE_LEUART) ∧
    (∃ w3, leuart_transfer w string n (List.replicate n .TXBL ++ [.TXBL, .TXC]) = some (.ok w3) ∧
      w3.txdata = w.txdata ++ (cstring string).take n ∧
      w3.leuartSM.state = .DONE_LEUART ∧
      w3.leuartSM.busy = false ∧
      w3.table ⟨LEUART_TX_EM, by decide⟩ = w.table ⟨LEUART_TX_EM, by decide⟩ ∧
      w3.sched = add_scheduled_event w.sched w.tx_done_evt) := by
  have hlt : w.table ⟨LEUART_TX_EM, by decide⟩ + 1 < 5 := by omega
  refine ⟨⟨_, leuart_run_txbl w string n hbusy hlt hn h32, rfl, ?_, rfl, rfl, rfl, ?_⟩,
    ⟨_, leuart_run_txbl_done w string n hbusy hlt hn h32, rfl, rfl, rfl⟩,
    ⟨_, leuart_run_txc w string n hbusy hlo hlt hn h32, rfl, rfl, rfl, ?_, rfl⟩⟩
  · intro i hi
    have hin : i < (cstring string).length := by omega
    simp [strcpy, hin]
  · simp
  · simp

/-- Witness for C20: the string "Hi!" sent whole from the world after
start-up. -/
theorem leuart_flat_write_witness :
    ∃ w3, leuart_transfer (LeuartWorld.reset 1 2) [72, 105, 33] 3
        (List.replicate 3 .TXBL ++ [.TXBL, .TXC]) = some (.ok w3) ∧
      w3.txdata = (LeuartWorld.reset 1 2).txdata ++ (cstring [72, 105, 33]).take 3 ∧
      w3.leuartSM.state = .DONE_LEUART ∧
      w3.leuartSM.busy = false ∧
      w3.table ⟨LEUART_TX_EM, by decide⟩ =
        (LeuartWorld.reset 1 2).table ⟨LEUART_TX_EM, by decide⟩ ∧
      w3.sched = add_scheduled_event (LeuartWorld.reset 1 2).sched (LeuartWorld.reset 1 2).tx_done_evt :=
  (leuart_flat_write (LeuartWorld.reset 1 2) [72, 105, 33] 3
    (by decide) (by decide) (by decide) (by decide) (by decide)).2.2

/-! ## Properties of the bus reset, the sensor accessor and the start-up -/

/-- C23, at the failing input `i2c_open(I2C1, ...)`, a complete one-byte read
(`Si1133_read` of register `0x00`), then a second `i2c_start`: `i2c_open` runs
the reset sequence once, and neither `i2c_start` issues it. The stores to `CMD`
and `TXDATA` of the whole run are the reset of `i2c_open`, the first transfer
up to its `STOP`, and directly after it the `START` and address byte of the
second transfer; the stores of `i2c_start` alone are `START` and the address
byte. -/
theorem i2c_start_skips_bus_reset :
    ((((((i2c_open I2CWorld.reset .I2C1 true true).bind Outcome.result?).bind
        (fun w => i2c_transfer w .I2C1 true 1 0x55 0x00 4 R 8
          [.ACK, .ACK, .ACK, .RXDATAV 0x33, .MSTOP])).bind Outcome.result?).bind
        (fun w => i2c_start w .I2C1 true 1 0x55 0x00 4 R 8)).bind Outcome.result?).map
        (fun w => w.regWrites) =
      some [.CMD .I2C1 .ABORT, .CMD .I2C1 .CLEARTX, .CMD .I2C1 .START_STOP, .CMD .I2C1 .ABORT,
        .CMD .I2C1 .START, .TXDATA .I2C1 0xAA, .TXDATA .I2C1 0x00,
        .CMD .I2C1 .START, .TXDATA .I2C1 0xAB, .CMD .I2C1 .NACK, .CMD .I2C1 .STOP,
        .CMD .I2C1 .START, .TXDATA .I2C1 0xAA] ∧
    ((i2c_start I2CWorld.reset .I2C1 true 1 0x55 0x00 4 R 8).bind Outcome.result?).map
        (fun w => w.regWrites) =
      some [.CMD .I2C1 .START, .TXDATA .I2C1 0xAA] ∧
    (i2c_bus_reset I2CWorld.reset .I2C1 true).map (fun w => w.regWrites) =
      some [.CMD .I2C1 .ABORT, .CMD .I2C1 .CLEARTX, .CMD .I2C1 .START_STOP,
        .CMD .I2C1 .ABORT] := by
  refine ⟨by decide, by decide, by decide⟩

/-- C24. For every stored reading `v` (a `uint32_t`), `Si1133_read_result`
returns `v` and leaves the stored reading 0, so a second call with no transfer
in between returns 0; `si1133_pass_read` of the earlier project is the same
function. -/
theorem Si1133_read_result_hands_out_once (v : Si1133Vars)
    (hv : v.si1133_read_result < 2 ^ 32) :
    (Si1133_read_result v).1 = v.si1133_read_result ∧
    (Si1133_read_result v).2.si1133_read_result = 0 ∧
    (Si1133_read_result v).2.si1133_write_data = v.si1133_write_data ∧
    (Si1133_read_result (Si1133_read_result v).2).1 = 0 ∧
    si1133_pass_read v = Si1133_read_result v := by
  refine ⟨?_, rfl, rfl, rfl, rfl⟩
  show v.si1133_read_result % 2 ^ 32 = v.si1133_read_result
  exact Nat.mod_eq_of_lt hv

/-- Witness for C24: the part identifier `0x33` stored, handed out once. -/
theorem Si1133_read_result_hands_out_once_witness :
    (Si1133_read_result { si1133_read_result := 0x33, si1133_write_data := 0 }).1 = 0x33 ∧
    (Si1133_read_result { si1133_read_result := 0x33, si1133_write_data := 0 }).2.si1133_read_result
      = 0 ∧
    (Si1133_read_result
      (Si1133_read_result { si1133_read_result := 0x33, si1133_write_data := 0 }).2).1 = 0 :=
  have h := Si1133_read_result_hands_out_once
    { si1133_read_result := 0x33, si1133_write_data := 0 } (by decide)
  ⟨h.1, h.2.1, h.2.2.2.1⟩

/-- C26. `sleep_open` discards outstanding blocks: for every block table and
level `EM` whose block is accepted, after `sleep_block_mode(EM)` the count of
`EM` is one higher and after `sleep_open` it is 0. In `app_peripheral_setup` of
project `WS_2370_TS2_LEUART_Lab6` the only `sleep_block_mode(SYSTEM_BLOCK_EM)`
precedes `sleep_open`: whenever the setup gets past `sleep_open`, every count
is 0, the count of EM3 among them, and `enter_sleep` on that table enters EM3;
from the zero table of static storage the setup does get there. -/
theorem sleep_open_discards_blocks (t : BlockTable) (EM : Fin MAX_ENERGY_MODES)
    (h : t EM + 1 < 5) :
    (∃ t1, sleep_block_mode t EM.val = .ok t1 ∧ t1 EM = t EM + 1 ∧ sleep_open t1 EM = 0) ∧
    (∀ (t0 : BlockTable) (opens : List SleepCall) (t2 : BlockTable),
      LEUART_Lab6.app_peripheral_setup t0 opens = .ok t2 →
        t2 ⟨SYSTEM_BLOCK_EM, by decide⟩ = 0 ∧ (∀ i, t2 i = 0) ∧
        enter_sleep t2 = .EMU_EnterEM3 true) ∧
    (∃ t2, LEUART_Lab6.app_peripheral_setup (fun _ => 0) [] = .ok t2 ∧
      t2 ⟨SYSTEM_BLOCK_EM, by decide⟩ = 0 ∧ enter_sleep t2 = .EMU_EnterEM3 true) := by
  refine ⟨⟨_, sleep_block_mode_eq_ok t EM h, by simp, sleep_open_all_zero _ EM⟩, ?_, ?_⟩
  · intro t0 opens t2 hsetup
    have hz : ∀ i, t2 i = 0 := by
      cases hb : sleep_block_mode t0 SYSTEM_BLOCK_EM with
      | ok t1 =>
        cases hr : runCalls t1 opens with
        | ok t3 =>
          simp only [LEUART_Lab6.app_peripheral_setup, hb, hr, Outcome.ok.injEq] at hsetup
          rw [← hsetup]
          exact sleep_open_all_zero t3
        | assertFail t3 =>
          simp only [LEUART_Lab6.app_peripheral_setup, hb, hr] at hsetup
          exact absurd hsetup (by simp)
        | undefined =>
          simp only [LEUART_Lab6.app_peripheral_setup, hb, hr] at hsetup
          exact absurd hsetup (by simp)
      | assertFail t1 =>
        simp only [LEUART_Lab6.app_peripheral_setup, hb] at hsetup
        exact absurd hsetup (by simp)
      | undefined =>
        simp only [LEUART_Lab6.app_peripheral_setup, hb] at hsetup
        exact absurd hsetup (by simp)
    refine ⟨hz _, hz, ?_⟩
    simp [enter_sleep, hz]
  · refine ⟨sleep_open (Function.update (fun _ => 0) ⟨SYSTEM_BLOCK_EM, by decide⟩ 1), ?_, ?_, ?_⟩
    · rfl
    · exact sleep_open_all_zero _ _
    · simp [enter_sleep, sleep_open_all_zero]

/-- Witness for C26: a table with one block of EM3 outstanding; a second block
of EM3 raises the count to 2 and `sleep_open` leaves 0. -/
theorem sleep_open_discards_blocks_witness :
    ∃ t1, sleep_block_mode ![0, 0, 0, 1, 0] EM3 = .ok t1 ∧
      t1 ⟨EM3, by decide⟩ = (![0, 0, 0, 1, 0] : BlockTable) ⟨EM3, by decide⟩ + 1 ∧
      sleep_open t1 ⟨EM3, by decide⟩ = 0 :=
  (sleep_open_discards_blocks ![0, 0, 0, 1, 0] ⟨EM3, by decide⟩ (by decide)).1

/-! ## Invariants of an I2C transfer -/

/-- A property of the world that every interrupt of bus `b` keeps, whether the
interrupt is served or stops at an assertion, holds at the end of every run of
interrupts of the bus. -/
theorem runIrqs_invariant (b : I2C_TypeDef) (P : I2CWorld → Prop)
    (hstep : ∀ (w w1 : I2CWorld) (q : I2C_IRQ), P w →
      (q.run w b = .ok w1 ∨ q.run w b = .assertFail w1) → P w1) :
    ∀ (irqs : List I2C_IRQ) (w w1 : I2CWorld), P w →
      (runIrqs w b irqs = .ok w1 ∨ runIrqs w b irqs = .assertFail w1) → P w1 := by
  intro irqs
  induction irqs with
  | nil =>
    intro w w1 hP h
    simp only [runIrqs] at h
    rcases h with h | h
    · cases h
      exact hP
    · exact absurd h (by simp)
  | cons q qs ih =>
    intro w w1 hP h
    cases hrun : q.run w b with
    | ok w2 =>
      have hunf : runIrqs w b (q :: qs) = runIrqs w2 b qs := by
        simp only [runIrqs, hrun]
      rw [hunf] at h
      exact ih w2 w1 (hstep w w2 q hP (Or.inl hrun)) h
    | assertFail w2 =>
      have hunf : runIrqs w b (q :: qs) = .assertFail w2 := by
        simp only [runIrqs, hrun]
      rw [hunf] at h
      rcases h with h | h
      · exact absurd h (by simp)
      · have e : w2 = w1 := Outcome.assertFail.inj h
        rw [← e]
        exact hstep w w2 q hP (Or.inr hrun)
    | undefined =>
      have hunf : runIrqs w b (q :: qs) = .undefined := by
        simp only [runIrqs, hrun]
      rw [hunf] at h
      rcases h with h | h <;> exact absurd h (by simp)

/-- What one interrupt of bus `b` does to the machine of the bus, served or
stopped at an assertion: `RW` and `bytesRequested` stay; `bytesDone` stays or
grows by one; `SEND_STOP` is entered only with `bytesDone == bytesRequested`
(from `WRITE_DATA` before the increment, from `READ_DATA` after it);
`START_READ` is entered only with `RW == R`, `WRITE_DATA` only with `RW == W`,
`READ_DATA` only from `START_READ` with `RW != W`; and `WRITE_DATA` entered or
kept with a byte sent has `bytesDone >= 1` when it was not negative. -/
theorem I2C_IRQ.run_machine (w w1 : I2CWorld) (b : I2C_TypeDef) (q : I2C_IRQ)
    (h : q.run w b = .ok w1 ∨ q.run w b = .assertFail w1) :
    (w1.sm b).RW = (w.sm b).RW ∧
    (w1.sm b).bytesRequested = (w.sm b).bytesRequested ∧
    ((w1.sm b).bytesDone = (w.sm b).bytesDone ∨
      (w1.sm b).bytesDone = (w.sm b).bytesDone + 1) ∧
    ((w1.sm b).state = .SEND_STOP → (w.sm b).state = .SEND_STOP ∨
      ((w.sm b).state = .WRITE_DATA ∧ (w.sm b).bytesDone = (w.sm b).bytesRequested) ∨
      ((w.sm b).state = .READ_DATA ∧ (w.sm b).bytesDone + 1 = (w.sm b).bytesRequested)) ∧
    ((w1.sm b).state = .START_READ → (w.sm b).state = .START_READ ∨ (w.sm b).RW = (R : Int)) ∧
    ((w1.sm b).state = .READ_DATA → (w.sm b).state = .READ_DATA ∨
      ((w.sm b).state = .START_READ ∧ (w.sm b).RW ≠ (W : Int))) ∧
    ((w1.sm b).state = .WRITE_DATA → (w.sm b).state = .WRITE_DATA ∨ (w.sm b).RW = (W : Int)) ∧
    ((w1.sm b).state = .WRITE_DATA → ((w.sm b).state = .WRITE_DATA ∧ w1.sm b = w.sm b) ∨
      (w1.sm b).bytesDone = (w.sm b).bytesDone + 1) := by
  cases q with
  | ACK =>
    simp only [I2C_IRQ.run, i2c_ack, i2c_send_data] at h
    cases hs : (w.sm b).state <;> simp only [hs] at h <;> (try split_ifs at h) <;>
      rcases h with h | h <;>
      (cases h <;> simp_all)
  | RXDATAV rx =>
    simp only [I2C_IRQ.run, i2c_rxdata] at h
    cases hs : (w.sm b).state <;> simp only [hs] at h <;> (try split_ifs at h) <;>
      rcases h with h | h <;>
      (cases h <;> simp_all)
  | MSTOP =>
    simp only [I2C_IRQ.run, i2c_mstop] at h
    cases hs : (w.sm b).state <;> simp only [hs] at h <;>
      (try (cases hu : sleep_unblock_mode (w.setSm b
        { w.sm b with busy := false, state := .DONE_STATE }).table I2C_EM_BLOCK <;>
        simp only [hu] at h)) <;>
      rcases h with h | h <;>
      (cases h <;> cases b <;> simp_all [I2CWorld.sm, I2CWorld.setSm])

/-- A write that has passed its count: from `WRITE_DATA` with `bytesDone` above
`bytesRequested`, every acknowledge interrupt transmits the next word of the
memory after the buffer and raises `bytesDone`; the machine stays in
`WRITE_DATA`. -/
theorem i2c_write_runaway (b : I2C_TypeDef) (m : Nat) :
    ∀ w : I2CWorld, (w.sm b).state = .WRITE_DATA → (w.sm b).RW ≠ (R : Int) →
      (w.sm b).bytesRequested < (w.sm b).bytesDone →
      (w.sm b).bytesDone + m ≤ INT_MAX →
      ∃ w1, runIrqs w b (List.replicate m I2C_IRQ.ACK) = .ok w1 ∧
        w1.sm b = { w.sm b with
          data := (w.sm b).data + m, bytesDone := (w.sm b).bytesDone + m } ∧
        w1.mem = w.mem ∧
        w1.regWrites = w.regWrites ++
          (List.range m).map (fun i => I2C_WRITE.TXDATA (w.sm b).i2c (w.mem ((w.sm b).data + i))) ∧
        w1.table = w.table ∧ w1.sched = w.sched := by
  induction m with
  | zero =>
    intro w _ _ _ _
    exact ⟨w, rfl, by simp, rfl, by simp, rfl, rfl⟩
  | succ k ih =>
    intro w hstate hRW hreq hmax
    have hmore : (w.sm b).bytesDone ≠ (w.sm b).bytesRequested := by omega
    have hlt : (w.sm b).bytesDone < INT_MAX := by
      push_cast at hmax
      omega
    have hstep := i2c_ack_write_more w b hstate hRW hmore hlt
    obtain ⟨w1, hrun, hsm, hmem, hwr, htab, hsch⟩ :=
      ih ((w.setSm b
          { w.sm b with
            state := .WRITE_DATA, data := (w.sm b).data + 1,
            bytesDone := (w.sm b).bytesDone + 1 }).write
        (.TXDATA (w.sm b).i2c (w.mem (w.sm b).data)))
        (by simp) (by simpa using hRW)
        (by
          simp only [I2CWorld.sm_write, I2CWorld.sm_setSm]
          omega)
        (by
          simp only [I2CWorld.sm_write, I2CWorld.sm_setSm]
          push_cast at hmax
          omega)
    simp only [I2CWorld.sm_write, I2CWorld.sm_setSm, I2CWorld.regWrites_write,
      I2CWorld.regWrites_setSm, I2CWorld.mem_write, I2CWorld.mem_setSm, I2CWorld.table_write,
      I2CWorld.table_setSm, I2CWorld.sched_write, I2CWorld.sched_setSm]
      at hsm hmem hwr htab hsch
    refine ⟨w1, ?_, ?_, hmem, ?_, htab, hsch⟩
    · simp only [List.replicate_succ, runIrqs, I2C_IRQ.run, hstep]
      exact hrun
    · rw [hsm]
      have hst : (w.sm b).state = .WRITE_DATA := hstate
      cases hw : w.sm b
      rw [hw] at hst
      simp only at hst
      subst hst
      simp only [I2C_STATE_MACHINE.mk.injEq, true_and, and_true]
      constructor
      · push_cast
        ring
      · omega
    · rw [hwr, List.range_succ_eq_map, List.map_cons, List.map_map, List.append_assoc]
      simp only [List.singleton_append, Nat.add_zero, List.cons.injEq, true_and,
        List.append_cancel_left_eq]
      apply List.map_congr_left
      intro i _
      simp only [Function.comp_apply]
      congr 2
      omega

/-- A read that cannot meet its count: from `READ_DATA` with `bytesDone` at or
above `bytesRequested`, every data-received interrupt stores its byte at the
next position, answers with ACK and raises `bytesDone`; the machine stays in
`READ_DATA`. -/
theorem i2c_read_runaway (b : I2C_TypeDef) (bs : List Nat) :
    ∀ w : I2CWorld, (w.sm b).state = .READ_DATA → (w.sm b).RW ≠ (W : Int) →
      (w.sm b).bytesRequested ≤ (w.sm b).bytesDone →
      (w.sm b).bytesDone + bs.length ≤ INT_MAX →
      ∃ w1, runIrqs w b (bs.map I2C_IRQ.RXDATAV) = .ok w1 ∧
        w1.sm b = { w.sm b with
          data := (w.sm b).data + bs.length,
          bytesDone := (w.sm b).bytesDone + bs.length } ∧
        (∀ i : Nat, i < bs.length → w1.mem ((w.sm b).data + i) = bs.getD i 0 % 2 ^ 32) ∧
        (∀ a : Nat, a < (w.sm b).data → w1.mem a = w.mem a) ∧
        w1.regWrites = w.regWrites ++
          List.replicate bs.length (I2C_WRITE.CMD (w.sm b).i2c .ACK) ∧
        w1.table = w.table ∧ w1.sched = w.sched := by
  induction bs with
  | nil =>
    intro w _ _ _ _
    exact ⟨w, rfl, by simp, by simp, fun _ _ => rfl, by simp, rfl, rfl⟩
  | cons x xs ih =>
    intro w hstate hRW hreq hmax
    simp only [List.length_cons] at hmax
    push_cast at hmax
    have hmore : (w.sm b).bytesDone + 1 ≠ (w.sm b).bytesRequested := by omega
    have hlt : (w.sm b).bytesDone < INT_MAX := by omega
    have hstep := i2c_rxdata_more w b x hstate hRW hmore hlt
    obtain ⟨w1, hrun, hsm, hmem, hbelow, hwr, htab, hsch⟩ :=
      ih (((w.store (w.sm b).data x).setSm b
          { w.sm b with
            data := (w.sm b).data + 1, bytesDone := (w.sm b).bytesDone + 1 }).write
        (.CMD (w.sm b).i2c .ACK))
        (by simpa using hstate) (by simpa using hRW)
        (by
          simp only [I2CWorld.sm_write, I2CWorld.sm_setSm]
          omega)
        (by
          simp only [I2CWorld.sm_write, I2CWorld.sm_setSm]
          omega)
    simp only [I2CWorld.sm_write, I2CWorld.sm_setSm, I2CWorld.regWrites_write,
      I2CWorld.regWrites_setSm, I2CWorld.regWrites_store, I2CWorld.mem_write,
      I2CWorld.mem_setSm, I2CWorld.mem_store, I2CWorld.table_write, I2CWorld.table_setSm,
      I2CWorld.table_store, I2CWorld.sched_write, I2CWorld.sched_setSm,
      I2CWorld.sched_store] at hsm hmem hbelow hwr htab hsch
    refine ⟨w1, ?_, ?_, ?_, ?_, ?_, htab, hsch⟩
    · simp only [List.map_cons, runIrqs, I2C_IRQ.run, hstep]
      exact hrun
    · rw [hsm]
      simp only [List.length_cons]
      congr 1
      · omega
      · ring
    · intro i hi
      cases i with
      | zero =>
        have h0 := hbelow (w.sm b).data (by omega)
        simp only [Function.update_same] at h0
        simpa using h0
      | succ k =>
        have hk : k < xs.length := by
          simp only [List.length_cons] at hi
          omega
        have h1 := hmem k hk
        have hidx : (w.sm b).data + (k + 1) = (w.sm b).data + 1 + k := by omega
        rw [hidx, h1]
        simp
    · intro a ha
      have h1 := hbelow a (by omega)
      have hne : a ≠ (w.sm b).data := by omega
      rw [h1, Function.update_noteq hne]
    · rw [hwr]
      simp [List.replicate_succ]

/-- C27. An I2C transfer started with `bytesRequested <= 0` (machine not busy,
bus idle, room for the EM2 block) never reaches `SEND_STOP`, whatever
interrupts follow and whether the run is served or stops at an assertion:
`bytesRequested` stays, `bytesDone` is never negative and is at least 1 in
`WRITE_DATA`. A write keeps transmitting: after `k + 2` acknowledges it has
sent the words at `data`, `data + 1`, ..., `data + k` and stands in
`WRITE_DATA` with `bytesDone == k + 1`. A read keeps storing: after three
acknowledges and the bytes `bs` it has stored them at `data`, `data + 1`, ...
and stands in `READ_DATA` with `bytesDone` their number. (The counts are taken
below `INT_MAX`, where `bytesDone++` is defined.) -/
theorem i2c_nonpositive_count_never_stops (w : I2CWorld) (b : I2C_TypeDef) (n : Int)
    (address regAddress d : Nat) (cb : Int)
    (hbusy : (w.sm b).busy = false)
    (hlt : w.table ⟨I2C_EM_BLOCK, by decide⟩ + 1 < 5)
    (hn : n ≤ 0) :
    (∀ (RW : Int) (irqs : List I2C_IRQ) (w2 : I2CWorld),
      (i2c_transfer w b true n address regAddress d RW cb irqs = some (.ok w2) ∨
        i2c_transfer w b true n address regAddress d RW cb irqs = some (.assertFail w2)) →
      (w2.sm b).state ≠ .SEND_STOP ∧ (w2.sm b).bytesRequested = n ∧
        0 ≤ (w2.sm b).bytesDone ∧ ((w2.sm b).state = .WRITE_DATA → 1 ≤ (w2.sm b).bytesDone)) ∧
    (∀ k : Nat, (k : Int) + 1 ≤ INT_MAX →
      ∃ w2, i2c_transfer w b true n address regAddress d W cb
          (List.replicate (k + 2) .ACK) = some (.ok w2) ∧
        (w2.sm b).state = .WRITE_DATA ∧ (w2.sm b).bytesDone = k + 1 ∧
        (w2.sm b).data = d + (k + 1) ∧
        w2.regWrites = w.regWrites ++
          [.CMD b .START, .TXDATA b (((address % 2 ^ 32) <<< 1) % 2 ^ 32 ||| W),
            .TXDATA b (regAddress % 2 ^ 32)] ++
          (List.range (k + 1)).map (fun i => I2C_WRITE.TXDATA b (w.mem (d + i)))) ∧
    (∀ bs : List Nat, (bs.length : Int) ≤ INT_MAX →
      ∃ w2, i2c_transfer w b true n address regAddress d R cb
          ([.ACK, .ACK, .ACK] ++ bs.map I2C_IRQ.RXDATAV) = some (.ok w2) ∧
        (w2.sm b).state = .READ_DATA ∧ (w2.sm b).bytesDone = bs.length ∧
        (w2.sm b).data = d + bs.length ∧
        (∀ i : Nat, i < bs.length → w2.mem (d + i) = bs.getD i 0 % 2 ^ 32) ∧
        w2.regWrites = w.regWrites ++
          [.CMD b .START, .TXDATA b (((address % 2 ^ 32) <<< 1) % 2 ^ 32 ||| W),
            .TXDATA b (regAddress % 2 ^ 32), .CMD b .START,
            .TXDATA b (((address % 2 ^ 32) <<< 1) % 2 ^ 32 ||| R)] ++
          List.replicate bs.length (I2C_WRITE.CMD b .ACK)) := by
  refine ⟨?_, ?_, ?_⟩
  · intro RW irqs w2 hrun
    have hstart := i2c_start_eq_ok w b n address regAddress d RW cb hbusy hlt
    simp only [i2c_transfer, hstart, Option.map, Outcome.next, Option.some.injEq] at hrun
    refine runIrqs_invariant b
      (fun x => (x.sm b).state ≠ .SEND_STOP ∧ (x.sm b).bytesRequested = n ∧
        0 ≤ (x.sm b).bytesDone ∧ ((x.sm b).state = .WRITE_DATA → 1 ≤ (x.sm b).bytesDone))
      ?_ irqs _ w2 ?_ hrun
    · intro x x1 q hP hq
      obtain ⟨hstop, hreq, hdone, hwd⟩ := hP
      obtain ⟨_, hreq1, hd1, hs1, _, _, _, hw1⟩ := I2C_IRQ.run_machine x x1 b q hq
      refine ⟨?_, by rw [hreq1, hreq], by omega, ?_⟩
      · intro hst
        rcases hs1 hst with h | ⟨h1, h2⟩ | ⟨_, h2⟩
        · exact hstop h
        · have := hwd h1
          omega
        · omega
      · intro hst
        rcases hw1 hst with ⟨h1, h2⟩ | h
        · rw [h2]
          exact hwd h1
        · omega
    · cases b <;> simp [I2CWorld.sm, I2CWorld.setSm, I2CWorld.write]
  · intro k hk
    obtain ⟨w2, hrun, hsm, hmem, hwr⟩ :=
      i2c_write_setup w b n address regAddress d cb hbusy hlt
    obtain ⟨w3, hrun3, hsm3, hmem3, hwr3, _, _⟩ :=
      i2c_write_runaway b k w2 (by rw [hsm]) (by rw [hsm]; show ((W : Nat) : Int) ≠ ((R : Nat) : Int); decide)
        (by
          rw [hsm]
          show n < 1
          omega)
        (by
          rw [hsm]
          show (1 : Int) + k ≤ INT_MAX
          omega)
    have hlist : List.replicate (k + 2) I2C_IRQ.ACK = [.ACK, .ACK] ++ List.replicate k .ACK := by
      simp [List.replicate_succ]
    refine ⟨w3, ?_, ?_, ?_, ?_, ?_⟩
    · rw [hlist, i2c_transfer_append, hrun]
      simp only [Option.map, Outcome.next]
      rw [hrun3]
    · rw [hsm3, hsm]
    · rw [hsm3, hsm]
      show (1 : Int) + k = k + 1
      ring
    · rw [hsm3, hsm]
      show d + 1 + k = d + (k + 1)
      omega
    · rw [hwr3, hwr, hsm, hmem]
      simp only [List.append_assoc, List.cons_append, List.nil_append, List.append_cancel_left_eq,
        List.cons.injEq, true_and]
      rw [List.range_succ_eq_map, List.map_cons, List.map_map]
      simp only [Nat.add_zero, List.cons.injEq, true_and]
      apply List.map_congr_left
      intro i _
      simp only [Function.comp_apply]
      congr 2
      omega
  · intro bs hbs
    obtain ⟨w2, hrun, hsm, hmem, hwr, _, _⟩ :=
      i2c_read_setup w b n address regAddress d cb hbusy hlt
    obtain ⟨w3, hrun3, hsm3, hmem3, _, hwr3, _, _⟩ :=
      i2c_read_runaway b bs w2 (by rw [hsm]) (by rw [hsm]; show ((R : Nat) : Int) ≠ ((W : Nat) : Int); decide)
        (by
          rw [hsm]
          show n ≤ 0
          exact hn)
        (by
          rw [hsm]
          show (0 : Int) + bs.length ≤ INT_MAX
          omega)
    refine ⟨w3, ?_, ?_, ?_, ?_, ?_, ?_⟩
    · rw [i2c_transfer_append, hrun]
      simp only [Option.map, Outcome.next]
      rw [hrun3]
    · rw [hsm3, hsm]
    · rw [hsm3, hsm]
      show (0 : Int) + bs.length = bs.length
      ring
    · rw [hsm3, hsm]
    · intro i hi
      have := hmem3 i hi
      rw [hsm] at this
      exact this
    · rw [hwr3, hwr, hsm]

/-- Witness for C27: from the world after start-up, a write on bus `I2C1`
started with `bytesRequested == 0`; after four acknowledges three words have
been transmitted and the machine is still in `WRITE_DATA`. -/
theorem i2c_nonpositive_count_never_stops_witness :
    ∃ w2, i2c_transfer I2CWorld.reset .I2C1 true 0 0x55 0x10 4 W 8
        (List.replicate (2 + 2) .ACK) = some (.ok w2) ∧
      (w2.sm .I2C1).state = .WRITE_DATA ∧ (w2.sm .I2C1).bytesDone = (2 : Nat) + 1 ∧
      (w2.sm .I2C1).data = 4 + (2 + 1) ∧
      w2.regWrites = I2CWorld.reset.regWrites ++
        [.CMD .I2C1 .START, .TXDATA .I2C1 (((0x55 % 2 ^ 32) <<< 1) % 2 ^ 32 ||| W),
          .TXDATA .I2C1 (0x10 % 2 ^ 32)] ++
        (List.range (2 + 1)).map (fun i => I2C_WRITE.TXDATA .I2C1 (I2CWorld.reset.mem (4 + i))) :=
  (i2c_nonpositive_count_never_stops I2CWorld.reset .I2C1 0 0x55 0x10 4 8
    (by decide) (by decide) (by decide)).2.1 2 (by decide)

/-- C28. For every transfer started by `i2c_start` (machine not busy, bus idle,
room for the EM2 block), with `RW` equal to `R`, to `W` or to any other value,
and every sequence of interrupts after it, served or stopped at an assertion:
`RW` stays as given,
the machine is in `START_READ` or `READ_DATA` only with `RW == R` and in
`WRITE_DATA` only with `RW == W`, so none of the three direction assertions
(acknowledge in `START_READ` with `RW == W`, acknowledge in `WRITE_DATA` with
`RW == R`, data-received in `READ_DATA` with `RW == W`) finds its condition
true. -/
theorem i2c_direction_asserts_unreachable (w : I2CWorld) (b : I2C_TypeDef) (n : Int)
    (address regAddress d : Nat) (RW cb : Int)
    (hbusy : (w.sm b).busy = false)
    (hlt : w.table ⟨I2C_EM_BLOCK, by decide⟩ + 1 < 5)
    (irqs : List I2C_IRQ) (w2 : I2CWorld)
    (hrun : i2c_transfer w b true n address regAddress d RW cb irqs = some (.ok w2) ∨
      i2c_transfer w b true n address regAddress d RW cb irqs = some (.assertFail w2)) :
    (w2.sm b).RW = RW ∧
    ((w2.sm b).state = .START_READ → (w2.sm b).RW = (R : Int)) ∧
    ((w2.sm b).state = .READ_DATA → (w2.sm b).RW = (R : Int)) ∧
    ((w2.sm b).state = .WRITE_DATA → (w2.sm b).RW = (W : Int)) ∧
    ¬ ((w2.sm b).state = .START_READ ∧ (w2.sm b).RW = (W : Int)) ∧
    ¬ ((w2.sm b).state = .WRITE_DATA ∧ (w2.sm b).RW = (R : Int)) ∧
    ¬ ((w2.sm b).state = .READ_DATA ∧ (w2.sm b).RW = (W : Int)) := by
  have hne : (R : Int) ≠ (W : Int) := by decide
  have hstart := i2c_start_eq_ok w b n address regAddress d RW cb hbusy hlt
  simp only [i2c_transfer, hstart, Option.map, Outcome.next, Option.some.injEq] at hrun
  have hinv := runIrqs_invariant b
    (fun x => (x.sm b).RW = RW ∧
      ((x.sm b).state = .START_READ → (x.sm b).RW = (R : Int)) ∧
      ((x.sm b).state = .READ_DATA → (x.sm b).RW = (R : Int)) ∧
      ((x.sm b).state = .WRITE_DATA → (x.sm b).RW = (W : Int)))
    (by
      intro x x1 q hP hq
      obtain ⟨h0, h1, h2, h3⟩ := hP
      obtain ⟨hrw, _, _, _, hsr, hrd, hwd, _⟩ := I2C_IRQ.run_machine x x1 b q hq
      refine ⟨by rw [hrw, h0], ?_, ?_, ?_⟩
      · intro hst
        rw [hrw]
        rcases hsr hst with h | h
        · exact h1 h
        · exact h
      · intro hst
        rw [hrw]
        rcases hrd hst with h | ⟨h, _⟩
        · exact h2 h
        · exact h1 h
      · intro hst
        rw [hrw]
        rcases hwd hst with h | h
        · exact h3 h
        · exact h)
    irqs _ w2 (by cases b <;> simp [I2CWorld.sm, I2CWorld.setSm, I2CWorld.write]) hrun
  obtain ⟨h0, h1, h2, h3⟩ := hinv
  refine ⟨h0, h1, h2, h3, ?_, ?_, ?_⟩
  · rintro ⟨hs, hw⟩
    exact hne ((h1 hs).symm.trans hw)
  · rintro ⟨hs, hr⟩
    exact hne (hr.symm.trans (h3 hs))
  · rintro ⟨hs, hw⟩
    exact hne ((h2 hs).symm.trans hw)

/-- Witness for C28: a read on bus `I2C1` from the world after start-up; after
three acknowledges the machine is in `READ_DATA` with `RW == R`. -/
theorem i2c_direction_asserts_unreachable_witness :
    ∃ w2, i2c_transfer I2CWorld.reset .I2C1 true 1 0x55 0x00 4 R 8 [.ACK, .ACK, .ACK] =
        some (.ok w2) ∧
      (w2.sm .I2C1).state = .READ_DATA ∧ (w2.sm .I2C1).RW = (R : Int) ∧
      ¬ ((w2.sm .I2C1).state = .READ_DATA ∧ (w2.sm .I2C1).RW = (W : Int)) := by
  obtain ⟨w2, hrun, hsm, _⟩ :=
    i2c_read_setup I2CWorld.reset .I2C1 1 0x55 0x00 4 8 (by decide) (by decide)
  have h := i2c_direction_asserts_unreachable I2CWorld.reset .I2C1 1 0x55 0x00 4 R 8
    (by decide) (by decide) [.ACK, .ACK, .ACK] w2 (Or.inl hrun)
  exact ⟨w2, hrun, by rw [hsm], h.2.2.1 (by rw [hsm]), h.2.2.2.2.2.2⟩

/-- What an interrupt of bus `b` that is served does besides moving the machine
of the bus: the machine was not in `DONE_STATE`; the other machine is as it
was; and either the table and `busy` are as they were and the machine is not in
`DONE_STATE`, or the interrupt was the stop of a transfer: the machine was in
`SEND_STOP`, is now in `DONE_STATE` and not busy, and the EM2 count, which was
positive, is one lower. -/
theorem I2C_IRQ.run_ok_world (w w1 : I2CWorld) (b : I2C_TypeDef) (q : I2C_IRQ)
    (h : q.run w b = .ok w1) :
    (w.sm b).state ≠ .DONE_STATE ∧
    (b = .I2C0 → w1.state_machine1 = w.state_machine1) ∧
    (b = .I2C1 → w1.state_machine0 = w.state_machine0) ∧
    ((w1.table = w.table ∧ (w1.sm b).busy = (w.sm b).busy ∧ (w1.sm b).state ≠ .DONE_STATE) ∨
      ((w.sm b).state = .SEND_STOP ∧ (w1.sm b).state = .DONE_STATE ∧ (w1.sm b).busy = false ∧
        0 < w.table ⟨I2C_EM_BLOCK, by decide⟩ ∧
        w1.table ⟨I2C_EM_BLOCK, by decide⟩ = w.table ⟨I2C_EM_BLOCK, by decide⟩ - 1)) := by
  cases q with
  | ACK =>
    simp only [I2C_IRQ.run, i2c_ack, i2c_send_data] at h
    cases hs : (w.sm b).state <;> simp only [hs] at h <;> (try split_ifs at h) <;>
      (cases h <;> cases b <;> simp_all [I2CWorld.sm, I2CWorld.setSm, I2CWorld.write])
  | RXDATAV rx =>
    simp only [I2C_IRQ.run, i2c_rxdata] at h
    cases hs : (w.sm b).state <;> simp only [hs] at h <;> (try split_ifs at h) <;>
      (cases h <;> cases b <;>
        simp_all [I2CWorld.sm, I2CWorld.setSm, I2CWorld.write, I2CWorld.store])
  | MSTOP =>
    simp only [I2C_IRQ.run, i2c_mstop] at h
    cases hs : (w.sm b).state <;> simp only [hs] at h
    case SEND_STOP =>
      simp only [I2CWorld.table_setSm] at h
      unfold sleep_unblock_mode at h
      rw [dif_pos (by decide : I2C_EM_BLOCK < MAX_ENERGY_MODES)] at h
      dsimp only at h
      split_ifs at h with h1 h2
      · simp only [Function.update_same] at h2
        cases h
        refine ⟨by simp, ?_, ?_, Or.inr ⟨rfl, ?_, ?_, by omega, ?_⟩⟩
        · cases b <;> simp [I2CWorld.setSm]
        · cases b <;> simp [I2CWorld.setSm]
        · cases b <;> simp [I2CWorld.sm, I2CWorld.setSm]
        · cases b <;> simp [I2CWorld.sm, I2CWorld.setSm]
        · simp
    all_goals exact absurd h (by simp)

/-- What a call of `i2c_start` that returns has done: the machine of the bus
was not busy and is now busy, the other machine is as it was, and the EM2 count
is one higher. -/
theorem i2c_start_ok_world {w w1 : I2CWorld} {b : I2C_TypeDef} {busIdle : Bool} {n : Int}
    {address regAddress d : Nat} {RW cb : Int}
    (h : i2c_start w b busIdle n address regAddress d RW cb = some (.ok w1)) :
    (w.sm b).busy = false ∧ (w1.sm b).busy = true ∧
    (b = .I2C0 → w1.state_machine1 = w.state_machine1) ∧
    (b = .I2C1 → w1.state_machine0 = w.state_machine0) ∧
    w1.table ⟨I2C_EM_BLOCK, by decide⟩ = w.table ⟨I2C_EM_BLOCK, by decide⟩ + 1 := by
  unfold i2c_start i2c_start_tail at h
  unfold sleep_block_mode at h
  cases b <;> simp only [dif_pos (by decide : I2C_EM_BLOCK < MAX_ENERGY_MODES)] at h <;>
    split_ifs at h <;>
    first
      | (simp only [Option.some.injEq, Outcome.ok.injEq] at h
         subst h
         refine ⟨by simp_all [I2CWorld.sm], by simp [I2CWorld.sm, I2CWorld.write],
           by simp [I2CWorld.write], by simp [I2CWorld.write], by simp [I2CWorld.write]⟩)
      | (exact absurd h (by simp))

/-- An interrupt that is served keeps the machine of its bus at rest when it
is not busy, and keeps the difference between the EM2 count and the busy flag
of the machine: only the stop of a transfer changes either, and it lowers
both. -/
theorem I2C_IRQ.run_ok_rest (w w1 : I2CWorld) (b : I2C_TypeDef) (q : I2C_IRQ)
    (h : q.run w b = .ok w1) (hrest : (w.sm b).atRest) :
    (w1.sm b).atRest ∧
    w1.table ⟨I2C_EM_BLOCK, by decide⟩ - (if (w1.sm b).busy then 1 else 0) =
      w.table ⟨I2C_EM_BLOCK, by decide⟩ - (if (w.sm b).busy then 1 else 0) := by
  obtain ⟨hnd, _, _, hcase⟩ := I2C_IRQ.run_ok_world w w1 b q h
  obtain ⟨hrw, hreq, hdone, hstop, hsr, hrd, hwd, hwd1⟩ :=
    I2C_IRQ.run_machine w w1 b q (Or.inl h)
  rcases hcase with ⟨htab, hbusy, hnd1⟩ | ⟨hs, hs1, hb1, hpos, htab⟩
  · refine ⟨?_, by rw [htab, hbusy]⟩
    intro hb
    rw [hbusy] at hb
    rcases hrest hb with hd | ⟨h1, h2, h3, h4⟩
    · exact absurd hd hnd
    · right
      have hRW : (w.sm b).RW ≠ (R : Int) := by
        rw [h1]
        decide
      refine ⟨by rw [hrw, h1], by rw [hreq, h2], by omega, ?_⟩
      cases hst : (w1.sm b).state with
      | START_WRITE => exact Or.inl rfl
      | SEND_REG => exact Or.inr (Or.inl rfl)
      | START_READ =>
        rcases hsr hst with h5 | h5
        · rcases h4 with h6 | h6 | ⟨h6, _⟩ <;> rw [h6] at h5 <;> exact absurd h5 (by simp)
        · exact absurd h5 hRW
      | READ_DATA =>
        rcases hrd hst with h5 | ⟨h5, _⟩ <;>
          rcases h4 with h6 | h6 | ⟨h6, _⟩ <;> rw [h6] at h5 <;> exact absurd h5 (by simp)
      | DONE_STATE => exact absurd hst hnd1
      | WRITE_DATA =>
        refine Or.inr (Or.inr ⟨rfl, ?_⟩)
        rcases hwd1 hst with ⟨h5, h6⟩ | h5
        · rw [h6]
          rcases h4 with h7 | h7 | ⟨_, h7⟩
          · rw [h7] at h5
            exact absurd h5 (by simp)
          · rw [h7] at h5
            exact absurd h5 (by simp)
          · exact h7
        · omega
      | SEND_STOP =>
        rcases hstop hst with h5 | ⟨h5, h6⟩ | ⟨h5, _⟩
        · rcases h4 with h6 | h6 | ⟨h6, _⟩ <;> rw [h6] at h5 <;> exact absurd h5 (by simp)
        · rcases h4 with h7 | h7 | ⟨_, h7⟩
          · rw [h7] at h5
            exact absurd h5 (by simp)
          · rw [h7] at h5
            exact absurd h5 (by simp)
          · omega
        · rcases h4 with h6 | h6 | ⟨h6, _⟩ <;> rw [h6] at h5 <;> exact absurd h5 (by simp)
  · have hbusy : (w.sm b).busy = true := by
      cases hb : (w.sm b).busy with
      | true => rfl
      | false =>
        rcases hrest hb with hd | ⟨_, _, _, h4⟩
        · rw [hs] at hd
          exact absurd hd (by simp)
        · rcases h4 with h6 | h6 | ⟨h6, _⟩ <;> rw [hs] at h6 <;> exact absurd h6 (by simp)
    refine ⟨fun _ => Or.inl hs1, ?_⟩
    rw [htab, hb1, hbusy]
    simp

/-- Every interrupt that is served keeps the EM2 count equal to the number of
busy machines, and the idle machines at rest. -/
theorem I2C_IRQ.run_ok_blocksWhileBusy (w w1 : I2CWorld) (b : I2C_TypeDef) (q : I2C_IRQ)
    (h : q.run w b = .ok w1) (hinv : w.blocksWhileBusy) : w1.blocksWhileBusy := by
  obtain ⟨hcount, hr0, hr1⟩ := hinv
  obtain ⟨_, h01, h10, _⟩ := I2C_IRQ.run_ok_world w w1 b q h
  cases b with
  | I2C0 =>
    obtain ⟨hrest, hdiff⟩ := I2C_IRQ.run_ok_rest w w1 .I2C0 q h hr0
    have h1 := h01 rfl
    refine ⟨?_, hrest, by rw [h1]; exact hr1⟩
    simp only [I2CWorld.busyCount, I2CWorld.sm] at hcount hdiff ⊢
    rw [h1]
    omega
  | I2C1 =>
    obtain ⟨hrest, hdiff⟩ := I2C_IRQ.run_ok_rest w w1 .I2C1 q h hr1
    have h0 := h10 rfl
    refine ⟨?_, by rw [h0]; exact hr0, hrest⟩
    simp only [I2CWorld.busyCount, I2CWorld.sm] at hcount hdiff ⊢
    rw [h0]
    omega

/-- Every call of `i2c_start` that returns keeps the EM2 count equal to the
number of busy machines, and the idle machines at rest. -/
theorem i2c_start_ok_blocksWhileBusy {w w1 : I2CWorld} {b : I2C_TypeDef} {busIdle : Bool}
    {n : Int} {address regAddress d : Nat} {RW cb : Int}
    (h : i2c_start w b busIdle n address regAddress d RW cb = some (.ok w1))
    (hinv : w.blocksWhileBusy) : w1.blocksWhileBusy := by
  obtain ⟨hcount, hr0, hr1⟩ := hinv
  obtain ⟨hb, hb1, h01, h10, htab⟩ := i2c_start_ok_world h
  cases b with
  | I2C0 =>
    have h1 := h01 rfl
    simp only [I2CWorld.sm] at hb hb1
    refine ⟨?_, ?_, by rw [h1]; exact hr1⟩
    · simp only [I2CWorld.busyCount] at hcount ⊢
      rw [h1, htab, hcount, hb, hb1]
      simp
      ring
    · intro hf
      rw [hb1] at hf
      exact absurd hf (by simp)
  | I2C1 =>
    have h0 := h10 rfl
    simp only [I2CWorld.sm] at hb hb1
    refine ⟨?_, by rw [h0]; exact hr0, ?_⟩
    · simp only [I2CWorld.busyCount] at hcount ⊢
      rw [h0, htab, hcount, hb, hb1]
      simp
    · intro hf
      rw [hb1] at hf
      exact absurd hf (by simp)

/-- Every run of driver steps that returns keeps the EM2 count equal to the
number of busy machines, and the idle machines at rest. -/
theorem runI2CSteps_ok_blocksWhileBusy (steps : List I2C_STEP) :
    ∀ (w w1 : I2CWorld), w.blocksWhileBusy → runI2CSteps w steps = some (.ok w1) →
      w1.blocksWhileBusy := by
  induction steps with
  | nil =>
    intro w w1 hinv h
    simp only [runI2CSteps, Option.some.injEq, Outcome.ok.injEq] at h
    rw [← h]
    exact hinv
  | cons s ss ih =>
    intro w w1 hinv h
    cases hs : s.run w with
    | none =>
      simp only [runI2CSteps, hs] at h
      exact absurd h (by simp)
    | some o =>
      cases o with
      | ok w2 =>
        simp only [runI2CSteps, hs] at h
        refine ih w2 w1 ?_ h
        cases s with
        | start i2c busIdle n address regAddress d RW cb =>
          exact i2c_start_ok_blocksWhileBusy hs hinv
        | irq b q =>
          simp only [I2C_STEP.run, Option.some.injEq] at hs
          exact I2C_IRQ.run_ok_blocksWhileBusy w w2 b q hs hinv
      | assertFail w2 =>
        simp only [runI2CSteps, hs] at h
        exact absurd h (by simp)
      | undefined =>
        simp only [runI2CSteps, hs] at h
        exact absurd h (by simp)

/-- C25. In every state reached from `sleep_open` and two idle I2C machines by
calls of `i2c_start` and interrupts of either bus, all of them served without a
failed assertion, the EM2 count is the number of busy machines; so while a
machine is busy the count is at least 1 and `enter_sleep` selects EM1 or
stays in EM0. -/
theorem i2c_busy_blocks_EM2 (w0 : I2CWorld) (t0 : BlockTable)
    (h0 : w0.state_machine0 = I2C_STATE_MACHINE.zero .I2C0)
    (h1 : w0.state_machine1 = I2C_STATE_MACHINE.zero .I2C1)
    (ht : w0.table = sleep_open t0)
    (steps : List I2C_STEP) (w : I2CWorld)
    (hrun : runI2CSteps w0 steps = some (.ok w))
    (b : I2C_TypeDef) (hb : (w.sm b).busy = true) :
    1 ≤ w.table ⟨EM2, by decide⟩ ∧
    w.table ⟨EM2, by decide⟩ = w.busyCount ∧
    (enter_sleep w.table).mode ≤ EM1 := by
  have hinv0 : w0.blocksWhileBusy := by
    refine ⟨?_, ?_, ?_⟩
    · rw [ht, sleep_open_all_zero]
      simp [I2CWorld.busyCount, h0, h1, I2C_STATE_MACHINE.zero]
    · rw [h0]
      intro _
      right
      simp [I2C_STATE_MACHINE.zero]
    · rw [h1]
      intro _
      right
      simp [I2C_STATE_MACHINE.zero]
  obtain ⟨hcount, _, _⟩ := runI2CSteps_ok_blocksWhileBusy steps w0 w hinv0 hrun
  have hge : 1 ≤ w.table ⟨EM2, by decide⟩ := by
    have hc : w.table ⟨EM2, by decide⟩ = w.busyCount := hcount
    rw [hc]
    cases b with
    | I2C0 =>
      have hb0 : w.state_machine0.busy = true := hb
      simp only [I2CWorld.busyCount, hb0, if_true]
      split_ifs <;> omega
    | I2C1 =>
      have hb1 : w.state_machine1.busy = true := hb
      simp only [I2CWorld.busyCount, hb1, if_true]
      split_ifs <;> omega
  refine ⟨hge, hcount, ?_⟩
  have hpos : w.table ⟨EM2, by decide⟩ > 0 := by omega
  unfold enter_sleep
  split_ifs <;> simp [SleepEntry.mode]

/-- Witness for C25: from the world after start-up, a read is started on bus
`I2C1` and its first acknowledge is served; the machine is busy, the EM2 count
is 1 and `enter_sleep` selects EM1. -/
theorem i2c_busy_blocks_EM2_witness :
    ∃ w, runI2CSteps I2CWorld.reset
        [.start .I2C1 true 1 0x55 0x00 4 R 8, .irq .I2C1 .ACK] = some (.ok w) ∧
      (w.sm .I2C1).busy = true ∧
      1 ≤ w.table ⟨EM2, by decide⟩ ∧
      w.table ⟨EM2, by decide⟩ = w.busyCount ∧
      (enter_sleep w.table).mode ≤ EM1 :=
  ⟨((runI2CSteps I2CWorld.reset
      [.start .I2C1 true 1 0x55 0x00 4 R 8, .irq .I2C1 .ACK]).bind Outcome.result?).getD
      I2CWorld.reset, rfl, rfl,
    i2c_busy_blocks_EM2 I2CWorld.reset (fun _ => 0) rfl rfl rfl
      [.start .I2C1 true 1 0x55 0x00 4 R 8, .irq .I2C1 .ACK] _ rfl .I2C1 rfl⟩

/-! ## Invariants of an SPI transfer -/

/-- One more store to `TXDATA`. -/
theorem txdataCount_append_TXDATA (ws : List USART_WRITE) (v : Nat) :
    txdataCount (ws ++ [.TXDATA v]) = txdataCount ws + 1 := by
  simp [txdataCount, List.countP_append]

/-- A store to `CMD` is not a store to `TXDATA`. -/
theorem txdataCount_append_CLEARRX (ws : List USART_WRITE) :
    txdataCount (ws ++ [.CMD_CLEARRX]) = txdataCount ws := by
  simp [txdataCount, List.countP_append]

/-- A store into the array `rdata` that is defined touches the array only. -/
theorem SpiWorld.storeRdata_some {w w1 : SpiWorld} {p v : Nat}
    (h : w.storeRdata p v = some w1) :
    w1.sm3 = w.sm3 ∧ w1.regWrites = w.regWrites ∧ w1.table = w.table ∧ w1.sched = w.sched ∧
      w1.IEN = w.IEN := by
  unfold SpiWorld.storeRdata at h
  repeat' split at h
  all_goals first
    | (simp only [Option.some.injEq] at h
       subst h
       simp)
    | (exact absurd h (by simp))

/-- The moves of the counters `usart_txbl` makes, served or stopped at its
assertion. -/
theorem usart_txbl_counters (w w1 : SpiWorld)
    (h : usart_txbl w = .ok w1 ∨ usart_txbl w = .assertFail w1) :
    spiCounterStep false w.sm3 (txdataCount w.regWrites) w.table
      w1.sm3 (txdataCount w1.regWrites) w1.table := by
  have key : ∀ o, usart_txbl w = o → (o = .ok w1 ∨ o = .assertFail w1) →
      spiCounterStep false w.sm3 (txdataCount w.regWrites) w.table
        w1.sm3 (txdataCount w1.regWrites) w1.table := by
    intro o ho hor
    unfold usart_txbl at ho
    dsimp only at ho
    repeat' split at ho
    all_goals
      subst ho
      rcases hor with h | h <;>
        (cases h <;> simp_all [spiCounterStep, txdataCount_append_TXDATA])
  exact key _ rfl h

/-- The moves of the counters `usart_txc` makes, served or stopped at an
assertion. -/
theorem usart_txc_counters (w w1 : SpiWorld)
    (h : usart_txc w = .ok w1 ∨ usart_txc w = .assertFail w1) :
    spiCounterStep false w.sm3 (txdataCount w.regWrites) w.table
      w1.sm3 (txdataCount w1.regWrites) w1.table := by
  have key : ∀ o, usart_txc w = o → (o = .ok w1 ∨ o = .assertFail w1) →
      spiCounterStep false w.sm3 (txdataCount w.regWrites) w.table
        w1.sm3 (txdataCount w1.regWrites) w1.table := by
    intro o ho hor
    unfold usart_txc at ho
    dsimp only at ho
    repeat' split at ho
    all_goals
      subst ho
      rcases hor with h | h <;>
        (cases h <;> simp_all [spiCounterStep, txdataCount_append_CLEARRX])
  exact key _ rfl h

/-- The moves of the counters `usart_rxdatav` makes, served or stopped at an
assertion. -/
theorem usart_rxdatav_counters (w w1 : SpiWorld) (rx : Nat)
    (h : usart_rxdatav w rx = .ok w1 ∨ usart_rxdatav w rx = .assertFail w1) :
    spiCounterStep true w.sm3 (txdataCount w.regWrites) w.table
      w1.sm3 (txdataCount w1.regWrites) w1.table := by
  have key : ∀ o, usart_rxdatav w rx = o → (o = .ok w1 ∨ o = .assertFail w1) →
      spiCounterStep true w.sm3 (txdataCount w.regWrites) w.table
        w1.sm3 (txdataCount w1.regWrites) w1.table := by
    intro o ho hor
    unfold usart_rxdatav at ho
    dsimp only at ho
    cases hst : w.storeRdata w.sm3.rdata rx with
    | none =>
      simp only [hst] at ho
      repeat' split at ho
      all_goals
        subst ho
        rcases hor with h | h <;> (cases h <;> simp_all [spiCounterStep])
    | some w2 =>
      obtain ⟨f1, f2, f3, f4, f5⟩ := SpiWorld.storeRdata_some hst
      simp only [hst] at ho
      repeat' split at ho
      all_goals
        subst ho
        rcases hor with h | h <;> (cases h <;> simp_all [spiCounterStep])
  exact key _ rfl h

/-- An interrupt that changes nothing is a move of the counters. -/
theorem spiCounterStep_refl (isRx : Bool) (sm : USART_STATE_MACHINE) (tx : Nat)
    (t : BlockTable) : spiCounterStep isRx sm tx t sm tx t := by
  refine ⟨rfl, Or.inl ⟨rfl, rfl, fun h => h⟩, Or.inl rfl, fun h => ⟨rfl, h⟩⟩

/-- The moves of the counters one interrupt of `USART3` makes, served or
stopped at an assertion. -/
theorem USART_IRQ.run_counters (w w1 : SpiWorld) (q : USART_IRQ)
    (h : q.run w = .ok w1 ∨ q.run w = .assertFail w1) :
    spiCounterStep q.isRx w.sm3 (txdataCount w.regWrites) w.table
      w1.sm3 (txdataCount w1.regWrites) w1.table := by
  cases q with
  | TXBL =>
    simp only [USART_IRQ.run, USART3_TX_IRQHandler, Bool.true_and, Bool.false_and,
      Bool.false_eq_true, if_false] at h
    by_cases hT : w.IEN.TXBL = true
    · simp only [hT, if_true] at h
      cases hx : usart_txbl
          { w with IEN := { TXC := false, TXBL := false, RXDATAV := false } } with
      | ok w2 =>
        have g := usart_txbl_counters _ w2 (Or.inl hx)
        simp only [hx] at h
        split_ifs at h <;> (rcases h with h | h <;> (cases h <;> exact g))
      | assertFail w2 =>
        have g := usart_txbl_counters _ w2 (Or.inr hx)
        simp only [hx] at h
        rcases h with h | h <;> (cases h <;> exact g)
      | undefined =>
        simp only [hx] at h
        rcases h with h | h <;> exact absurd h (by simp)
    · simp only [hT] at h
      rcases h with h | h <;> (cases h <;> exact spiCounterStep_refl _ _ _ _)
  | TXC =>
    simp only [USART_IRQ.run, USART3_TX_IRQHandler, Bool.true_and, Bool.false_and,
      Bool.false_eq_true, if_false] at h
    by_cases hT : w.IEN.TXC = true
    · simp only [hT, if_true] at h
      cases hx : usart_txc
          { w with IEN := { TXC := false, TXBL := false, RXDATAV := false } } with
      | ok w2 =>
        have g := usart_txc_counters _ w2 (Or.inl hx)
        simp only [hx] at h
        rcases h with h | h <;> (cases h <;> exact g)
      | assertFail w2 =>
        have g := usart_txc_counters _ w2 (Or.inr hx)
        simp only [hx] at h
        rcases h with h | h <;> (cases h <;> exact g)
      | undefined =>
        simp only [hx] at h
        rcases h with h | h <;> exact absurd h (by simp)
    · simp only [hT] at h
      rcases h with h | h <;> (cases h <;> exact spiCounterStep_refl _ _ _ _)
  | RXDATAV rx =>
    simp only [USART_IRQ.run, USART3_RX_IRQHandler, Bool.true_and] at h
    by_cases hT : w.IEN.RXDATAV = true
    · simp only [hT, if_true] at h
      cases hx : usart_rxdatav
          { w with IEN := { TXC := false, TXBL := false, RXDATAV := false } } rx with
      | ok w2 =>
        have g := usart_rxdatav_counters _ w2 rx (Or.inl hx)
        simp only [hx] at h
        split_ifs at h <;> (rcases h with h | h <;> (cases h <;> exact g))
      | assertFail w2 =>
        have g := usart_rxdatav_counters _ w2 rx (Or.inr hx)
        simp only [hx] at h
        rcases h with h | h <;> (cases h <;> exact g)
      | undefined =>
        simp only [hx] at h
        rcases h with h | h <;> exact absurd h (by simp)
    · simp only [hT] at h
      rcases h with h | h <;> (cases h <;> exact spiCounterStep_refl _ _ _ _)

/-- A move of the counters keeps them in line with the traffic. -/
theorem SpiWorld.counters_step {base handled : Nat} {w w1 : SpiWorld} {isRx : Bool}
    (hc : w.counters base handled)
    (hs : spiCounterStep isRx w.sm3 (txdataCount w.regWrites) w.table
      w1.sm3 (txdataCount w1.regWrites) w1.table) :
    w1.counters base (if isRx then handled + 1 else handled) := by
  obtain ⟨c1, c2, c3, c4, c5, c6⟩ := hc
  obtain ⟨s1, s2, s3, s4⟩ := hs
  have hrecv : w1.sm3.bytesReceived ≤ ((if isRx then handled + 1 else handled : Nat) : Int) := by
    rcases s3 with h | ⟨h1, h2⟩
    · rw [h]
      split_ifs
      · push_cast
        omega
      · exact c5
    · rw [h2, h1]
      simp only [if_true]
      push_cast
      omega
  have htab : (w1.sm3.state = .SEND_REG_SPI ∨ w1.sm3.state = .READ_DATA_SPI) →
      0 < w1.table ⟨USART_EM_BLOCK, by decide⟩ := by
    intro h
    obtain ⟨ht, hst⟩ := s4 h
    rw [ht]
    exact c6 hst
  rcases s2 with ⟨h1, h2, h3⟩ | ⟨h1, h2, h3, h4⟩
  · refine ⟨by omega, by omega, ?_, by omega, hrecv, htab⟩
    intro hst
    have := c3 (h3 hst)
    omega
  · have hlt : w.sm3.bytesSent < w.sm3.bytesRequested := by
      rcases h3 with h | h
      · exact c3 h
      · omega
    refine ⟨by omega, by omega, fun hst => absurd hst h4, ?_, hrecv, htab⟩
    rw [h2, h1]
    push_cast
    omega

/-- A property of the SPI world that every interrupt keeps, whether the
interrupt is served or stops at an assertion, holds at the end of every run of
interrupts. -/
theorem runUsartIrqs_invariant (P : SpiWorld → Prop)
    (hstep : ∀ (w w1 : SpiWorld) (q : USART_IRQ), P w →
      (q.run w = .ok w1 ∨ q.run w = .assertFail w1) → P w1) :
    ∀ (irqs : List USART_IRQ) (w w1 : SpiWorld), P w →
      (runUsartIrqs w irqs = .ok w1 ∨ runUsartIrqs w irqs = .assertFail w1) → P w1 := by
  intro irqs
  induction irqs with
  | nil =>
    intro w w1 hP h
    simp only [runUsartIrqs] at h
    rcases h with h | h
    · cases h
      exact hP
    · exact absurd h (by simp)
  | cons q qs ih =>
    intro w w1 hP h
    cases hrun : q.run w with
    | ok w2 =>
      have hunf : runUsartIrqs w (q :: qs) = runUsartIrqs w2 qs := by
        simp only [runUsartIrqs, hrun]
      rw [hunf] at h
      exact ih w2 w1 (hstep w w2 q hP (Or.inl hrun)) h
    | assertFail w2 =>
      have hunf : runUsartIrqs w (q :: qs) = .assertFail w2 := by
        simp only [runUsartIrqs, hrun]
      rw [hunf] at h
      rcases h with h | h
      · exact absurd h (by simp)
      · have e : w2 = w1 := Outcome.assertFail.inj h
        rw [← e]
        exact hstep w w2 q hP (Or.inr hrun)
    | undefined =>
      have hunf : runUsartIrqs w (q :: qs) = .undefined := by
        simp only [runUsartIrqs, hrun]
      rw [hunf] at h
      rcases h with h | h <;> exact absurd h (by simp)

/-- Full-duplex traffic up to a receive interrupt: at the receive interrupt the
counters are in line with the traffic and the receive interrupts handled, this
one included, do not exceed the bytes written to `TXDATA`. -/
theorem fullDuplex_before_rx (base rx : Nat) (p : List USART_IRQ) :
    ∀ (handled : Nat) (w wp : SpiWorld), w.counters base handled →
      fullDuplex base handled w (p ++ [.RXDATAV rx]) = true →
      runUsartIrqs w p = .ok wp →
      ∃ handled1, wp.counters base handled1 ∧
        handled1 + 1 ≤ txdataCount wp.regWrites - base := by
  induction p with
  | nil =>
    intro handled w wp hc hfd hrun
    simp only [runUsartIrqs, Outcome.ok.injEq] at hrun
    subst hrun
    simp only [List.nil_append, fullDuplex, USART_IRQ.isRx, if_true, Bool.and_eq_true,
      decide_eq_true_eq] at hfd
    exact ⟨handled, hc, hfd.1⟩
  | cons q qs ih =>
    intro handled w wp hc hfd hrun
    cases hq : q.run w with
    | ok w2 =>
      simp only [runUsartIrqs, hq] at hrun
      simp only [List.cons_append, fullDuplex, hq, Bool.and_eq_true, decide_eq_true_eq] at hfd
      exact ih _ w2 wp (SpiWorld.counters_step hc (USART_IRQ.run_counters w w2 q (Or.inl hq)))
        hfd.2 hrun
    | assertFail w2 =>
      simp only [runUsartIrqs, hq] at hrun
      exact absurd hrun (by simp)
    | undefined =>
      simp only [runUsartIrqs, hq] at hrun
      exact absurd hrun (by simp)

/-- A receive interrupt taken in `READ_DATA_SPI` with the counters in line with
the traffic, no more receive interrupts than bytes written once it is counted:
no assertion fails. When it is the completing receive, `bytesSent` equals
`bytesRequested`, and the EM2 block of the transfer is there to release. -/
theorem USART_IRQ.run_rx_no_assert (base handled rx : Nat) (w : SpiWorld)
    (hc : w.counters base handled)
    (hfd : handled + 1 ≤ txdataCount w.regWrites - base)
    (hstate : w.sm3.state = .READ_DATA_SPI) :
    (USART_IRQ.run w (.RXDATAV rx)).isAssertFail = false := by
  obtain ⟨c1, c2, c3, c4, c5, c6⟩ := hc
  have hpos := c6 (Or.inr hstate)
  have hsent : w.sm3.bytesReceived + 1 = w.sm3.bytesRequested →
      w.sm3.bytesSent = w.sm3.bytesRequested := by
    intro h
    omega
  have hun := sleep_unblock_mode_eq_ok w.table ⟨USART_EM_BLOCK, by decide⟩ hpos
  simp only [USART_IRQ.run, USART3_RX_IRQHandler, Bool.true_and]
  by_cases hT : w.IEN.RXDATAV = true
  · simp only [hT, if_true]
    have hx : (usart_rxdatav
        { w with IEN := { TXC := false, TXBL := false, RXDATAV := false } } rx).isAssertFail
        = false := by
      unfold usart_rxdatav
      simp only [hstate]
      cases hst : SpiWorld.storeRdata
          { w with IEN := { TXC := false, TXBL := false, RXDATAV := false } } w.sm3.rdata rx with
      | none =>
        simp only []
        split_ifs <;> rfl
      | some w2 =>
        obtain ⟨f1, f2, f3, f4, f5⟩ := SpiWorld.storeRdata_some hst
        have f3a : w2.table = w.table := f3
        have huna : sleep_unblock_mode w.table USART_EM_BLOCK =
            .ok (Function.update w.table ⟨USART_EM_BLOCK, by decide⟩
              (w.table ⟨USART_EM_BLOCK, by decide⟩ - 1)) := hun
        simp only [f3a, huna]
        split_ifs with h1 h2 h3 h4 <;>
          first
            | rfl
            | exact absurd (hsent h3) h4
    cases hr : usart_rxdatav
        { w with IEN := { TXC := false, TXBL := false, RXDATAV := false } } rx with
    | ok w2 =>
      simp only []
      split_ifs <;> rfl
    | assertFail w2 =>
      rw [hr] at hx
      exact absurd hx (by simp [Outcome.isAssertFail])
    | undefined => rfl
  · simp only [hT]
    rfl

/-- A call of `usart_start` on a machine that is not busy, with a byte count
that is not negative and room for the EM2 block, returns, and leaves the
counters in line with the traffic: nothing sent, nothing received, the machine
in `SEND_REG_SPI` with `bytesRequested` one above the byte count, the EM2 block
taken. -/
theorem usart_start_ok_counters (w : SpiWorld) (RW regAddress data : Nat) (cb n : Int)
    (hbusy : w.sm3.busy = false) (hn0 : 0 ≤ n) (hn : n < INT_MAX)
    (hlo : 0 ≤ w.table ⟨USART_EM_BLOCK, by decide⟩)
    (hhi : w.table ⟨USART_EM_BLOCK, by decide⟩ + 1 < 5) :
    ∃ w1, usart_start w RW regAddress data cb n = some (.ok w1) ∧
      w1.counters (txdataCount w1.regWrites) 0 ∧
      w1.sm3.state = .SEND_REG_SPI ∧ w1.sm3.bytesRequested = n + 1 ∧ w1.frame = none := by
  have hblock := sleep_block_mode_eq_ok w.table ⟨USART_EM_BLOCK, by decide⟩ hhi
  have hblocka : sleep_block_mode w.table USART_EM_BLOCK =
      .ok (Function.update w.table ⟨USART_EM_BLOCK, by decide⟩
        (w.table ⟨USART_EM_BLOCK, by decide⟩ + 1)) := hblock
  have h1 : ¬ (n < 0) := by omega
  have h2 : ¬ (INT_MAX ≤ n) := by omega
  unfold usart_start
  simp only [if_neg h1, hbusy, Bool.false_eq_true, if_false, if_neg h2]
  unfold usart_start_tail
  simp only [hblocka]
  refine ⟨_, rfl, ?_, rfl, rfl, rfl⟩
  refine ⟨by simp, by simp; omega, by simp; omega, by simp, by simp, ?_⟩
  intro _
  simp only [Function.update_same]
  omega

/-- C29. In every SPI run from `usart_start` (machine not busy, byte count not
negative, EM2 count between 0 and 3), whatever the arrays of the call are taken
to hold afterwards (`frame`: dead as the call leaves them, or alive), served or
stopped at an assertion, `bytesSent` never exceeds `bytesRequested`; and when
the traffic up to a receive interrupt is full duplex (at every interrupt the
receive interrupts handled, that one included, are at most the bytes written
to `TXDATA` since the transfer began), a receive interrupt taken in
`READ_DATA_SPI` fails no assertion: the assertion
`bytesSent == bytesRequested` at read completion holds when it is reached. -/
theorem spi_sent_bounded_and_read_completes (w : SpiWorld) (RW regAddress data : Nat)
    (cb n : Int)
    (hbusy : w.sm3.busy = false) (hn0 : 0 ≤ n) (hn : n < INT_MAX)
    (hlo : 0 ≤ w.table ⟨USART_EM_BLOCK, by decide⟩)
    (hhi : w.table ⟨USART_EM_BLOCK, by decide⟩ + 1 < 5) :
    ∃ w1, usart_start w RW regAddress data cb n = some (.ok w1) ∧
      ∀ frame : Option UsartFrame,
        (∀ (irqs : List USART_IRQ) (w2 : SpiWorld),
          (runUsartIrqs { w1 with frame := frame } irqs = .ok w2 ∨
            runUsartIrqs { w1 with frame := frame } irqs = .assertFail w2) →
          0 ≤ w2.sm3.bytesSent ∧ w2.sm3.bytesSent ≤ w2.sm3.bytesRequested ∧
            w2.sm3.bytesRequested = n + 1) ∧
        (∀ (p : List USART_IRQ) (rx : Nat) (wp : SpiWorld),
          fullDuplex (txdataCount w1.regWrites) 0 { w1 with frame := frame }
            (p ++ [.RXDATAV rx]) = true →
          runUsartIrqs { w1 with frame := frame } p = .ok wp →
          wp.sm3.state = .READ_DATA_SPI →
          (USART_IRQ.run wp (.RXDATAV rx)).isAssertFail = false ∧
            (wp.sm3.bytesReceived + 1 = wp.sm3.bytesRequested →
              wp.sm3.bytesSent = wp.sm3.bytesRequested)) := by
  obtain ⟨w1, hstart, hc, _, hreq, _⟩ :=
    usart_start_ok_counters w RW regAddress data cb n hbusy hn0 hn hlo hhi
  refine ⟨w1, hstart, fun frame => ⟨?_, ?_⟩⟩
  · intro irqs w2 hrun
    have hc0 : (∃ handled, SpiWorld.counters (txdataCount w1.regWrites) handled
        { w1 with frame := frame }) ∧
        ({ w1 with frame := frame } : SpiWorld).sm3.bytesRequested = n + 1 :=
      ⟨⟨0, hc⟩, hreq⟩
    obtain ⟨⟨handled, c1, c2, _⟩, hr⟩ := runUsartIrqs_invariant
      (fun x => (∃ handled, x.counters (txdataCount w1.regWrites) handled) ∧
        x.sm3.bytesRequested = n + 1)
      (by
        intro x x1 q hP hq
        obtain ⟨⟨handled, hx⟩, hxr⟩ := hP
        have hs := USART_IRQ.run_counters x x1 q hq
        exact ⟨⟨_, SpiWorld.counters_step hx hs⟩, by rw [hs.1, hxr]⟩)
      irqs _ w2 hc0 hrun
    exact ⟨c1, c2, hr⟩
  · intro p rx wp hfd hrun hstate
    obtain ⟨handled1, hcp, hle⟩ :=
      fullDuplex_before_rx (txdataCount w1.regWrites) rx p 0 { w1 with frame := frame } wp
        hc hfd hrun
    refine ⟨USART_IRQ.run_rx_no_assert _ handled1 rx wp hcp hle hstate, ?_⟩
    obtain ⟨c1, c2, c3, c4, c5, c6⟩ := hcp
    intro h
    omega

/-- Witness for C29: from the world after start-up, a one-byte read
(`bytesRequested` becomes 2). With the arrays of the call taken to be alive,
the register byte and the dummy byte are sent, the two bytes come back, and the
second receive interrupt, the completing one, is served: the machine ends in
`DONE_STATE_SPI`. -/
theorem spi_sent_bounded_and_read_completes_witness :
    (∃ w1, usart_start SpiWorld.reset 0x80 0x06 0 4 1 = some (.ok w1) ∧
      ∀ frame : Option UsartFrame,
        (∀ (irqs : List USART_IRQ) (w2 : SpiWorld),
          (runUsartIrqs { w1 with frame := frame } irqs = .ok w2 ∨
            runUsartIrqs { w1 with frame := frame } irqs = .assertFail w2) →
          0 ≤ w2.sm3.bytesSent ∧ w2.sm3.bytesSent ≤ w2.sm3.bytesRequested ∧
            w2.sm3.bytesRequested = 1 + 1) ∧
        (∀ (p : List USART_IRQ) (rx : Nat) (wp : SpiWorld),
          fullDuplex (txdataCount w1.regWrites) 0 { w1 with frame := frame }
            (p ++ [.RXDATAV rx]) = true →
          runUsartIrqs { w1 with frame := frame } p = .ok wp →
          wp.sm3.state = .READ_DATA_SPI →
          (USART_IRQ.run wp (.RXDATAV rx)).isAssertFail = false ∧
            (wp.sm3.bytesReceived + 1 = wp.sm3.bytesRequested →
              wp.sm3.bytesSent = wp.sm3.bytesRequested))) ∧
    ((usart_start SpiWorld.reset 0x80 0x06 0 4 1).bind Outcome.result?).map
        (fun w1 =>
          (fullDuplex (txdataCount w1.regWrites) 0
              { w1 with frame := some { tdata := [0], rdata := [0] } }
              [.TXBL, .TXBL, .RXDATAV 0x29, .RXDATAV 0x31],
            (runUsartIrqs { w1 with frame := some { tdata := [0], rdata := [0] } }
              [.TXBL, .TXBL, .RXDATAV 0x29, .RXDATAV 0x31]).result?.map
              (fun w2 => (w2.sm3.state, w2.sm3.bytesSent, w2.sm3.bytesReceived, w2.sm3.busy)))) =
      some (true, some (.DONE_STATE_SPI, 2, 2, false)) :=
  ⟨spi_sent_bounded_and_read_completes SpiWorld.reset 0x80 0x06 0 4 1
    (by decide) (by decide) (by decide) (by decide) (by decide), by decide⟩

/-! ## Properties of the dispatch loop -/

/-- Bit `i` of what `get_scheduled_events` returns. -/
theorem testBit_get_scheduled_events (s : Scheduler) (i : Nat) :
    (get_scheduled_events s).testBit i = (decide (i < 32) && s.event_scheduled.testBit i) := by
  simp only [get_scheduled_events, Nat.testBit_mod_two_pow]

/-- Bit `i` of what `get_scheduled_events` returns after one
`remove_scheduled_event`. -/
theorem testBit_get_remove_scheduled_event (s : Scheduler) (e i : Nat) :
    (get_scheduled_events (remove_scheduled_event s e)).testBit i =
      ((get_scheduled_events s).testBit i && !e.testBit i) := by
  simp only [testBit_get_scheduled_events, testBit_remove_scheduled_event]
  cases decide (i < 32) <;> simp

/-- Bit `i` of what `get_scheduled_events` returns after a list of posts. -/
theorem testBit_get_post_all (s : Scheduler) (masks : List Nat) (i : Nat) :
    (get_scheduled_events (post_all s masks)).testBit i =
      ((get_scheduled_events s).testBit i ||
        (decide (i < 32) && masks.any (fun m => m.testBit i))) := by
  unfold post_all
  rw [testBit_get_after_posts, testBit_get_scheduled_events]
  cases decide (i < 32) <;> simp

/-- Two words have no bit in common exactly when no position is set in both. -/
theorem and_eq_zero_iff_testBit (a b : Nat) :
    a &&& b = 0 ↔ ∀ i, (a.testBit i && b.testBit i) = false := by
  constructor
  · intro h i
    rw [← Nat.testBit_and, h, Nat.zero_testBit]
  · intro h
    apply Nat.eq_of_testBit_eq
    intro i
    rw [Nat.testBit_and, h i, Nat.zero_testBit]

/-- After `remove_scheduled_event(X)` the pending set has no bit of `X`. -/
theorem get_remove_and_event (s : Scheduler) (e : Nat) :
    get_scheduled_events (remove_scheduled_event s e) &&& (e % 2 ^ 32) = 0 := by
  rw [and_eq_zero_iff_testBit]
  intro i
  rw [testBit_get_remove_scheduled_event, Nat.testBit_mod_two_pow]
  cases (get_scheduled_events s).testBit i <;> cases e.testBit i <;> simp

/-- Removing an event sets no bit: what was clear of `k` stays clear of `k`. -/
theorem get_remove_and_of_zero (s : Scheduler) (e k : Nat)
    (h : get_scheduled_events s &&& k = 0) :
    get_scheduled_events (remove_scheduled_event s e) &&& k = 0 := by
  rw [and_eq_zero_iff_testBit] at h ⊢
  intro i
  have hi := h i
  rw [testBit_get_remove_scheduled_event]
  cases hg : (get_scheduled_events s).testBit i <;> simp_all

/-- Removing an event leaves the bits of a disjoint mask as they were. -/
theorem get_remove_and_of_disjoint (s : Scheduler) (e k : Nat)
    (h : (e % 2 ^ 32) &&& (k % 2 ^ 32) = 0) :
    get_scheduled_events (remove_scheduled_event s e) &&& (k % 2 ^ 32) =
      get_scheduled_events s &&& (k % 2 ^ 32) := by
  rw [and_eq_zero_iff_testBit] at h
  apply Nat.eq_of_testBit_eq
  intro i
  have hi := h i
  rw [Nat.testBit_and, Nat.testBit_and, testBit_get_remove_scheduled_event,
    testBit_get_scheduled_events]
  simp only [Nat.testBit_mod_two_pow] at hi ⊢
  by_cases hlt : i < 32
  · simp only [hlt, decide_True, Bool.true_and] at hi ⊢
    cases he : e.testBit i <;> cases hk : k.testBit i <;> simp_all
  · simp [hlt]

/-- A pass of the loop is the eight `if` statements in the order of
`dispatch_order`, after the idle check. -/
theorem main_pass_eq_foldl (ev : APP_EVENTS) (env : PassPosts) (w : MainWorld) :
    main_pass ev env w =
      dispatch_order.foldl (dispatch_next ev env) (some (.ok (main_idle env w))) :=
  rfl

/-- Once an assertion has failed nothing more is dispatched. -/
theorem foldl_dispatch_assertFail (ev : APP_EVENTS) (env : PassPosts) (x : MainWorld)
    (L : List APP_HANDLER) :
    L.foldl (dispatch_next ev env) (some (.assertFail x)) = some (.assertFail x) := by
  induction L with
  | nil => rfl
  | cons h t ih => exact ih

/-- Nothing is dispatched after undefined behaviour. -/
theorem foldl_dispatch_undefined (ev : APP_EVENTS) (env : PassPosts) (L : List APP_HANDLER) :
    L.foldl (dispatch_next ev env) (some .undefined) = some .undefined := by
  induction L with
  | nil => rfl
  | cons h t ih => exact ih

/-- Nothing is dispatched after a handler that never returns. -/
theorem foldl_dispatch_never (ev : APP_EVENTS) (env : PassPosts) (L : List APP_HANDLER) :
    L.foldl (dispatch_next ev env) none = none := by
  induction L with
  | nil => rfl
  | cons h t ih => exact ih

/-- Posting one list and then another is posting the two in a row. -/
theorem post_all_append (s : Scheduler) (a b : List Nat) :
    post_all (post_all s a) b = post_all s (a ++ b) := by
  simp [post_all, List.foldl_append]

/-- A run of driver calls that comes back to the handler, or stops at an
assertion, has posted its masks and touched nothing else. -/
theorem run_callees_frame (r : CalleeRun) (w w1 : MainWorld)
    (hrun : run_callees r w = some (.ok w1) ∨ run_callees r w = some (.assertFail w1)) :
    w1 = { w with sched := post_all w.sched r.posted } := by
  unfold run_callees at hrun
  cases he : r.ends <;> rw [he] at hrun <;> simp only at hrun <;>
    rcases hrun with hrun | hrun <;> simp_all

/-- The assertion a handler starts with leaves the world as it is. -/
theorem own_bit_assert_frame (X_CB : Nat) (w w1 : MainWorld)
    (hrun : own_bit_assert X_CB w = .ok w1 ∨ own_bit_assert X_CB w = .assertFail w1) :
    w1 = w := by
  unfold own_bit_assert at hrun
  split_ifs at hrun <;> rcases hrun with hrun | hrun <;> simp_all

/-- With its own bit clear the assertion a handler starts with holds. -/
theorem own_bit_assert_of_clear (X_CB : Nat) (w : MainWorld)
    (hclear : get_scheduled_events w.sched &&& (X_CB % 2 ^ 32) = 0) :
    own_bit_assert X_CB w = .ok w := by
  unfold own_bit_assert
  rw [if_neg (not_not.mpr hclear)]

/-- The assertion on the own event, followed by a run of driver calls: what is
left when the handler returns or stops at an assertion. -/
theorem own_bit_then_callees_frame (X_CB : Nat) (r : CalleeRun) (w w1 : MainWorld)
    (hrun : seqRun (some (own_bit_assert X_CB w)) (run_callees r) = some (.ok w1) ∨
      seqRun (some (own_bit_assert X_CB w)) (run_callees r) = some (.assertFail w1)) :
    w1.entered = w.entered ∧ w1.invoked = w.invoked ∧
      ∃ L, w1.sched = post_all w.sched L := by
  cases ha : own_bit_assert X_CB w with
  | ok w2 =>
    have e := own_bit_assert_frame X_CB w w2 (Or.inl ha)
    subst e
    rw [ha] at hrun
    simp only [seqRun] at hrun
    have e1 := run_callees_frame r w2 w1 hrun
    rw [e1]
    exact ⟨rfl, rfl, r.posted, rfl⟩
  | assertFail w2 =>
    have e := own_bit_assert_frame X_CB w w2 (Or.inr ha)
    subst e
    rw [ha] at hrun
    simp only [seqRun] at hrun
    rcases hrun with hrun | hrun
    · exact absurd hrun (by simp)
    · have e1 : w2 = w1 := by simpa using hrun
      rw [← e1]
      exact ⟨rfl, rfl, [], rfl⟩
  | undefined =>
    rw [ha] at hrun
    simp only [seqRun] at hrun
    rcases hrun with hrun | hrun <;> exact absurd hrun (by simp)

/-- A handler that returns, or stops at an assertion, has changed the pending
set by posts only, and has touched neither the sleep log nor the log of
handlers. -/
theorem APP_HANDLER.call_frame (ev : APP_EVENTS) (env : PassPosts) (h : APP_HANDLER)
    (w w1 : MainWorld)
    (hrun : h.call ev env w = some (.ok w1) ∨ h.call ev env w = some (.assertFail w1)) :
    w1.entered = w.entered ∧ w1.invoked = w.invoked ∧
      ∃ L, w1.sched = post_all w.sched L := by
  cases h
  case scheduled_letimer0_uf_cb => exact own_bit_then_callees_frame _ _ w w1 hrun
  case scheduled_letimer0_comp1_cb => exact own_bit_then_callees_frame _ _ w w1 hrun
  case scheduled_Si1133_light_read_cb => exact own_bit_then_callees_frame _ _ w w1 hrun
  case scheduled_icm1_read_cb => exact own_bit_then_callees_frame _ _ w w1 hrun
  case scheduled_icm_done_read_cb => exact own_bit_then_callees_frame _ _ w w1 hrun
  case scheduled_letimer0_comp0_cb =>
    simp only [APP_HANDLER.call, ECEN2370.scheduled_letimer0_comp0_cb] at hrun
    rcases hrun with hrun | hrun
    · exact absurd hrun (by simp)
    · have e1 : w = w1 := by simpa using hrun
      rw [← e1]
      exact ⟨rfl, rfl, [], rfl⟩
  case scheduled_ble_tx_done_cb =>
    simp only [APP_HANDLER.call, ECEN2370.scheduled_ble_tx_done_cb, Option.some.injEq] at hrun
    have e := own_bit_assert_frame _ w w1 hrun
    rw [e]
    exact ⟨rfl, rfl, [], rfl⟩
  case scheduled_boot_up_cb =>
    simp only [APP_HANDLER.call, ECEN2370.scheduled_boot_up_cb] at hrun
    cases ha : own_bit_assert ev.BOOT_UP_CB w with
    | ok w2 =>
      have e := own_bit_assert_frame _ w w2 (Or.inl ha)
      subst e
      rw [ha] at hrun
      simp only [seqRun] at hrun
      cases hc : run_callees env.ICM_TDD_CONFIG w2 with
      | none =>
        rw [hc] at hrun
        rcases hrun with hrun | hrun <;> exact absurd hrun (by simp)
      | some o =>
        cases o with
        | ok w3 =>
          have e3 := run_callees_frame _ w2 w3 (Or.inl hc)
          rw [hc] at hrun
          simp only at hrun
          cases hs : env.icm_success with
          | true =>
            rw [hs] at hrun
            simp only [if_true] at hrun
            have e4 := run_callees_frame _ w3 w1 hrun
            rw [e4, e3]
            refine ⟨rfl, rfl, env.ICM_TDD_CONFIG.posted ++
              (env.body .scheduled_boot_up_cb).posted, ?_⟩
            exact post_all_append _ _ _
          | false =>
            rw [hs] at hrun
            simp only [Bool.false_eq_true, if_false] at hrun
            rcases hrun with hrun | hrun
            · exact absurd hrun (by simp)
            · have e1 : w3 = w1 := by simpa using hrun
              rw [← e1, e3]
              exact ⟨rfl, rfl, _, rfl⟩
        | assertFail w3 =>
          have e3 := run_callees_frame _ w2 w3 (Or.inr hc)
          rw [hc] at hrun
          simp only at hrun
          rcases hrun with hrun | hrun
          · exact absurd hrun (by simp)
          · have e1 : w3 = w1 := by simpa using hrun
            rw [← e1, e3]
            exact ⟨rfl, rfl, _, rfl⟩
        | undefined =>
          rw [hc] at hrun
          rcases hrun with hrun | hrun <;> exact absurd hrun (by simp)
    | assertFail w2 =>
      have e := own_bit_assert_frame _ w w2 (Or.inr ha)
      subst e
      rw [ha] at hrun
      simp only [seqRun] at hrun
      rcases hrun with hrun | hrun
      · exact absurd hrun (by simp)
      · have e1 : w2 = w1 := by simpa using hrun
        rw [← e1]
        exact ⟨rfl, rfl, [], rfl⟩
    | undefined =>
      rw [ha] at hrun
      simp only [seqRun] at hrun
      rcases hrun with hrun | hrun <;> exact absurd hrun (by simp)

/-- The `if` statement of a handler whose event is pending: the event is
removed and the handler is called. -/
theorem dispatch_of_pending (ev : APP_EVENTS) (env : PassPosts) (h : APP_HANDLER)
    (w : MainWorld)
    (hp : get_scheduled_events (post_all w.sched (env.beforeTest h)) &&&
      (h.event ev % 2 ^ 32) ≠ 0) :
    dispatch ev env h w =
      h.call ev env
        { w with
          sched := post_all (remove_scheduled_event (post_all w.sched (env.beforeTest h))
            (h.event ev)) (env.beforeHandler h)
          invoked := w.invoked ++ [(h, get_scheduled_events
            (post_all (remove_scheduled_event (post_all w.sched (env.beforeTest h))
              (h.event ev)) (env.beforeHandler h)))] } := by
  unfold dispatch
  dsimp only
  rw [if_pos hp]

/-- The `if` statement of a handler whose event is not pending: nothing is
called. -/
theorem dispatch_of_not_pending (ev : APP_EVENTS) (env : PassPosts) (h : APP_HANDLER)
    (w : MainWorld)
    (hp : get_scheduled_events (post_all w.sched (env.beforeTest h)) &&&
      (h.event ev % 2 ^ 32) = 0) :
    dispatch ev env h w =
      some (.ok { w with sched := post_all w.sched (env.beforeTest h) }) := by
  unfold dispatch
  dsimp only
  rw [if_neg (not_not.mpr hp)]

/-- One `if` statement of the loop when nothing is posted between
`remove_scheduled_event` and the handler: either the event is not pending and
nothing is called, or the handler is called and finds its own bit clear. The
sleep log is not touched. -/
theorem dispatch_invoked (ev : APP_EVENTS) (env : PassPosts) (h : APP_HANDLER)
    (w w1 : MainWorld) (hquiet : env.beforeHandler h = [])
    (hrun : dispatch ev env h w = some (.ok w1) ∨ dispatch ev env h w = some (.assertFail w1)) :
    w1.entered = w.entered ∧
    (w1.invoked = w.invoked ∨
      ∃ p, w1.invoked = w.invoked ++ [(h, p)] ∧ p &&& (h.event ev % 2 ^ 32) = 0) := by
  by_cases hp : get_scheduled_events (post_all w.sched (env.beforeTest h)) &&&
      (h.event ev % 2 ^ 32) = 0
  · rw [dispatch_of_not_pending ev env h w hp] at hrun
    rcases hrun with hrun | hrun
    · simp only [Option.some.injEq, Outcome.ok.injEq] at hrun
      rw [← hrun]
      exact ⟨rfl, Or.inl rfl⟩
    · exact absurd hrun (by simp)
  · rw [dispatch_of_pending ev env h w hp] at hrun
    have hclear : get_scheduled_events
        (post_all (remove_scheduled_event (post_all w.sched (env.beforeTest h))
          (h.event ev)) (env.beforeHandler h)) &&& (h.event ev % 2 ^ 32) = 0 := by
      rw [hquiet]
      exact get_remove_and_event _ _
    obtain ⟨hent, hinv, _⟩ := APP_HANDLER.call_frame ev env h _ w1 hrun
    exact ⟨hent, Or.inr ⟨_, hinv, hclear⟩⟩

/-- The handlers called while a list of `if` statements is run, when nothing is
posted between `remove_scheduled_event` and a handler: each finds its own bit
clear. -/
theorem foldl_dispatch_invoked (ev : APP_EVENTS) (env : PassPosts)
    (hquiet : ∀ h, env.beforeHandler h = []) (L : List APP_HANDLER) :
    ∀ (w w1 : MainWorld),
      (L.foldl (dispatch_next ev env) (some (.ok w)) = some (.ok w1) ∨
        L.foldl (dispatch_next ev env) (some (.ok w)) = some (.assertFail w1)) →
      ∃ new, w1.invoked = w.invoked ++ new ∧
        (∀ e ∈ new, e.2 &&& (e.1.event ev % 2 ^ 32) = 0) := by
  induction L with
  | nil =>
    intro w w1 hrun
    simp only [List.foldl_nil] at hrun
    rcases hrun with hrun | hrun
    · have e1 : w = w1 := by simpa using hrun
      rw [← e1]
      exact ⟨[], by simp, by simp⟩
    · exact absurd hrun (by simp)
  | cons h t ih =>
    intro w w1 hrun
    simp only [List.foldl_cons, dispatch_next, seqRun] at hrun
    cases hd : dispatch ev env h w with
    | none =>
      rw [hd] at hrun
      rw [foldl_dispatch_never] at hrun
      rcases hrun with hrun | hrun <;> exact absurd hrun (by simp)
    | some o =>
      cases o with
      | ok w2 =>
        rw [hd] at hrun
        obtain ⟨_, hcase⟩ := dispatch_invoked ev env h w w2 (hquiet h) (Or.inl hd)
        obtain ⟨new, hnew, hgood⟩ := ih w2 w1 hrun
        rcases hcase with hinv | ⟨p, hinv, hp⟩
        · exact ⟨new, by rw [hnew, hinv], hgood⟩
        · refine ⟨(h, p) :: new, by rw [hnew, hinv]; simp, ?_⟩
          intro e he
          rcases List.mem_cons.mp he with he | he
          · rw [he]
            exact hp
          · exact hgood e he
      | assertFail w2 =>
        rw [hd] at hrun
        rw [foldl_dispatch_assertFail] at hrun
        rcases hrun with hrun | hrun
        · exact absurd hrun (by simp)
        · have e : w2 = w1 := by simpa using hrun
          subst e
          obtain ⟨_, hcase⟩ := dispatch_invoked ev env h w w2 (hquiet h) (Or.inr hd)
          rcases hcase with hinv | ⟨p, hinv, hp⟩
          · exact ⟨[], by rw [hinv]; simp, by simp⟩
          · refine ⟨[(h, p)], hinv, ?_⟩
            intro e he
            rw [List.mem_singleton.mp he]
            exact hp
      | undefined =>
        rw [hd] at hrun
        rw [foldl_dispatch_undefined] at hrun
        rcases hrun with hrun | hrun <;> exact absurd hrun (by simp)

/-- C21. In every pass of the loop of `main`, whatever is posted before the
tests and while the handlers run and however the driver calls of the handlers
end, when no interrupt posts between `remove_scheduled_event` and the first
statement of a handler: every handler called in a pass that completes or stops
at an assertion was entered with its own bit clear in the pending set, so the
assertion `EFM_ASSERT(!(get_scheduled_events() & X_CB))` at its top holds
there; and every `if` statement of the loop whose event is pending calls its
handler in the world `remove_scheduled_event` has left, in which that
assertion holds (this covers the passes that never end as well). -/
theorem handlers_enter_with_own_bit_clear (ev : APP_EVENTS) (env : PassPosts)
    (w w1 : MainWorld)
    (hquiet : ∀ h, env.beforeHandler h = [])
    (hrun : main_pass ev env w = some (.ok w1) ∨ main_pass ev env w = some (.assertFail w1)) :
    (∃ new, w1.invoked = w.invoked ++ new ∧
      (∀ e ∈ new, e.2 &&& (e.1.event ev % 2 ^ 32) = 0) ∧
      (∀ e ∈ new, ∀ x : MainWorld, get_scheduled_events x.sched = e.2 →
        own_bit_assert (e.1.event ev) x = .ok x)) ∧
    (∀ (h : APP_HANDLER) (x : MainWorld),
      get_scheduled_events (post_all x.sched (env.beforeTest h)) &&& (h.event ev % 2 ^ 32) ≠ 0 →
      ∃ entry : MainWorld, dispatch ev env h x = h.call ev env entry ∧
        entry.sched =
          remove_scheduled_event (post_all x.sched (env.beforeTest h)) (h.event ev) ∧
        entry.invoked = x.invoked ++ [(h, get_scheduled_events entry.sched)] ∧
        own_bit_assert (h.event ev) entry = .ok entry) := by
  constructor
  · rw [main_pass_eq_foldl] at hrun
    obtain ⟨new, hnew, hgood⟩ :=
      foldl_dispatch_invoked ev env hquiet dispatch_order (main_idle env w) w1 hrun
    have hidle : (main_idle env w).invoked = w.invoked := by
      unfold main_idle
      dsimp only
      split <;> rfl
    rw [hidle] at hnew
    refine ⟨new, hnew, hgood, ?_⟩
    intro e he x hx
    apply own_bit_assert_of_clear
    rw [hx]
    exact hgood e he
  · intro h x hp
    refine ⟨_, dispatch_of_pending ev env h x hp, ?_, ?_, ?_⟩
    · show post_all _ (env.beforeHandler h) = _
      rw [hquiet h]
      rfl
    · rfl
    · apply own_bit_assert_of_clear
      show get_scheduled_events (post_all _ (env.beforeHandler h)) &&& _ = 0
      rw [hquiet h]
      exact get_remove_and_event _ _

/-- Witness for C21: a pass with the underflow and the boot-up events pending,
the underflow handler posting the light-read event while it runs: the three
handlers called find their own bit clear. -/
theorem handlers_enter_with_own_bit_clear_witness :
    ∃ w1, main_pass APP_EVENTS.oneBitEach
        { PassPosts.quiet (fun _ => 0) with
          body := fun h => if h = .scheduled_letimer0_uf_cb then ⟨[0x08], .returns⟩
            else ⟨[], .returns⟩ }
        { sched := ⟨0x14⟩, entered := [], invoked := [] } = some (.ok w1) ∧
      w1.invoked = [(.scheduled_letimer0_uf_cb, 0x10), (.scheduled_Si1133_light_read_cb, 0x10),
        (.scheduled_boot_up_cb, 0)] ∧
      ∃ new, w1.invoked = [] ++ new ∧
        (∀ e ∈ new, e.2 &&& (e.1.event APP_EVENTS.oneBitEach % 2 ^ 32) = 0) ∧
        (∀ e ∈ new, ∀ x : MainWorld, get_scheduled_events x.sched = e.2 →
          own_bit_assert (e.1.event APP_EVENTS.oneBitEach) x = .ok x) :=
  ⟨(((main_pass APP_EVENTS.oneBitEach
      { PassPosts.quiet (fun _ => 0) with
        body := fun h => if h = .scheduled_letimer0_uf_cb then ⟨[0x08], .returns⟩
          else ⟨[], .returns⟩ }
      { sched := ⟨0x14⟩, entered := [], invoked := [] }).bind Outcome.result?).getD
      { sched := ⟨0⟩, entered := [], invoked := [] }), rfl, rfl,
    (handlers_enter_with_own_bit_clear APP_EVENTS.oneBitEach
      { PassPosts.quiet (fun _ => 0) with
        body := fun h => if h = .scheduled_letimer0_uf_cb then ⟨[0x08], .returns⟩
          else ⟨[], .returns⟩ }
      { sched := ⟨0x14⟩, entered := [], invoked := [] }
      (((main_pass APP_EVENTS.oneBitEach
        { PassPosts.quiet (fun _ => 0) with
          body := fun h => if h = .scheduled_letimer0_uf_cb then ⟨[0x08], .returns⟩
            else ⟨[], .returns⟩ }
        { sched := ⟨0x14⟩, entered := [], invoked := [] }).bind Outcome.result?).getD
        { sched := ⟨0⟩, entered := [], invoked := [] })
      (fun _ => rfl) (Or.inl rfl)).1⟩

/-- Posting nothing leaves the scheduler as it was. -/
theorem post_all_nil (s : Scheduler) : post_all s [] = s :=
  rfl

/-- The idle check of a pass in which nothing is posted does not touch the
pending set or the log of handlers. -/
theorem main_idle_silent (t : BlockTable) (ends : APP_HANDLER → CALL_END) (config : CALL_END)
    (icm_success : Bool) (w : MainWorld) :
    (main_idle (PassPosts.silent t ends config icm_success) w).sched = w.sched ∧
      (main_idle (PassPosts.silent t ends config icm_success) w).invoked = w.invoked := by
  unfold main_idle
  dsimp only
  split <;> exact ⟨rfl, rfl⟩

/-- A handler other than `scheduled_letimer0_comp0_cb`, called with its own bit
clear in a pass in which nothing is posted, returns and leaves the world as it
found it when its driver calls return, `ICM_TDD_CONFIG` with `true`. -/
theorem APP_HANDLER.call_silent_returns (ev : APP_EVENTS) (t : BlockTable)
    (ends : APP_HANDLER → CALL_END) (config : CALL_END) (icm_success : Bool)
    (h : APP_HANDLER) (w : MainWorld)
    (hclear : get_scheduled_events w.sched &&& (h.event ev % 2 ^ 32) = 0)
    (hne : h ≠ .scheduled_letimer0_comp0_cb)
    (hends : ends h = .returns)
    (hicm : h = .scheduled_boot_up_cb → config = .returns ∧ icm_success = true) :
    h.call ev (PassPosts.silent t ends config icm_success) w = some (.ok w) := by
  cases h
  case scheduled_letimer0_comp0_cb => exact absurd rfl hne
  case scheduled_boot_up_cb =>
    obtain ⟨hc, hs⟩ := hicm rfl
    have ha := own_bit_assert_of_clear _ w hclear
    simp only [APP_HANDLER.event] at ha
    simp only [APP_HANDLER.call, ECEN2370.scheduled_boot_up_cb, ha, seqRun, run_callees,
      PassPosts.silent, hc, hs, hends, if_true]
    rfl
  all_goals
    have ha := own_bit_assert_of_clear _ w hclear
    simp only [APP_HANDLER.event] at ha
    simp only [APP_HANDLER.call, ECEN2370.scheduled_letimer0_uf_cb,
      ECEN2370.scheduled_letimer0_comp1_cb, ECEN2370.scheduled_Si1133_light_read_cb,
      ECEN2370.scheduled_ble_tx_done_cb, ECEN2370.scheduled_icm1_read_cb,
      ECEN2370.scheduled_icm_done_read_cb, ha, seqRun, run_callees, PassPosts.silent, hends]
    first | rfl | skip

/-- A list of `if` statements run while nothing is posted, over handlers whose
masks are pairwise disjoint, when every handler of the list whose event is
pending is one that returns (it is not `scheduled_letimer0_comp0_cb`, its
driver calls return, `ICM_TDD_CONFIG` with `true`): the run completes; the
handlers called are those of the list whose event was pending at the start, in
the order of the list; no event of the list is pending at the end; no bit is
set by the run, and the bits of a mask disjoint from the masks of the list are
as they were. -/
theorem foldl_dispatch_silent (ev : APP_EVENTS) (t : BlockTable)
    (ends : APP_HANDLER → CALL_END) (config : CALL_END) (icm_success : Bool)
    (L : List APP_HANDLER) :
    ∀ w : MainWorld,
      L.Pairwise (fun a b => (a.event ev % 2 ^ 32) &&& (b.event ev % 2 ^ 32) = 0) →
      (∀ h ∈ L, get_scheduled_events w.sched &&& (h.event ev % 2 ^ 32) ≠ 0 →
        h ≠ .scheduled_letimer0_comp0_cb ∧ ends h = .returns ∧
          (h = .scheduled_boot_up_cb → config = .returns ∧ icm_success = true)) →
      ∃ w1, L.foldl (dispatch_next ev (PassPosts.silent t ends config icm_success))
          (some (.ok w)) = some (.ok w1) ∧
        w1.invoked.map Prod.fst = w.invoked.map Prod.fst ++
          L.filter (fun h => get_scheduled_events w.sched &&& (h.event ev % 2 ^ 32) ≠ 0) ∧
        (∀ h ∈ L, get_scheduled_events w1.sched &&& (h.event ev % 2 ^ 32) = 0) ∧
        (∀ k, get_scheduled_events w.sched &&& k = 0 →
          get_scheduled_events w1.sched &&& k = 0) ∧
        (∀ k, (∀ h ∈ L, (h.event ev % 2 ^ 32) &&& (k % 2 ^ 32) = 0) →
          get_scheduled_events w1.sched &&& (k % 2 ^ 32) =
            get_scheduled_events w.sched &&& (k % 2 ^ 32)) ∧
        w1.entered = w.entered := by
  induction L with
  | nil =>
    intro w _ _
    exact ⟨w, rfl, by simp, by simp, fun _ h => h, fun _ _ => rfl, rfl⟩
  | cons h tl ih =>
    intro w hpair hok
    obtain ⟨hhead, htail⟩ := List.pairwise_cons.mp hpair
    by_cases hp : get_scheduled_events w.sched &&& (h.event ev % 2 ^ 32) = 0
    · have hd : dispatch ev (PassPosts.silent t ends config icm_success) h w = some (.ok w) := by
        rw [dispatch_of_not_pending ev (PassPosts.silent t ends config icm_success) h w hp]
        rfl
      obtain ⟨w1, hrun, hinv, hclear, hmono, hdisj, hent⟩ :=
        ih w htail (fun h1 hm => hok h1 (List.mem_cons_of_mem _ hm))
      refine ⟨w1, ?_, ?_, ?_, hmono, ?_, hent⟩
      · simp only [List.foldl_cons, dispatch_next, seqRun, hd]
        exact hrun
      · rw [hinv, List.filter_cons_of_neg (by simpa using hp)]
      · intro h1 hm
        rcases List.mem_cons.mp hm with he | hm1
        · rw [he]
          exact hmono _ hp
        · exact hclear h1 hm1
      · intro k hk
        exact hdisj k (fun h1 hm => hk h1 (List.mem_cons_of_mem _ hm))
    · obtain ⟨hne, hends, hicm⟩ := hok h (List.mem_cons_self _ _) hp
      have hclear0 := get_remove_and_event w.sched (h.event ev)
      have hd : dispatch ev (PassPosts.silent t ends config icm_success) h w =
          some (.ok { w with
            sched := remove_scheduled_event w.sched (h.event ev)
            invoked := w.invoked ++
              [(h, get_scheduled_events (remove_scheduled_event w.sched (h.event ev)))] }) := by
        rw [dispatch_of_pending ev (PassPosts.silent t ends config icm_success) h w hp]
        exact APP_HANDLER.call_silent_returns ev t ends config icm_success h
          { w with
            sched := remove_scheduled_event w.sched (h.event ev)
            invoked := w.invoked ++
              [(h, get_scheduled_events (remove_scheduled_event w.sched (h.event ev)))] }
          hclear0 hne hends hicm
      obtain ⟨w1, hrun, hinv, hclear, hmono, hdisj, hent⟩ :=
        ih { w with
            sched := remove_scheduled_event w.sched (h.event ev)
            invoked := w.invoked ++
              [(h, get_scheduled_events (remove_scheduled_event w.sched (h.event ev)))] }
          htail
          (fun h1 hm hp1 => hok h1 (List.mem_cons_of_mem _ hm)
            (fun hz => hp1 (get_remove_and_of_zero _ _ _ hz)))
      refine ⟨w1, ?_, ?_, ?_, ?_, ?_, hent⟩
      · simp only [List.foldl_cons, dispatch_next, seqRun, hd]
        exact hrun
      · rw [hinv, List.filter_cons_of_pos (by simpa using hp)]
        simp only [List.map_append, List.map_cons, List.map_nil, List.append_assoc,
          List.singleton_append, List.append_cancel_left_eq, List.cons.injEq, true_and]
        apply List.filter_congr
        intro h1 hm
        rw [get_remove_and_of_disjoint _ _ _ (hhead h1 hm)]
      · intro h1 hm
        rcases List.mem_cons.mp hm with he | hm1
        · rw [he]
          exact hmono _ hclear0
        · exact hclear h1 hm1
      · intro k hk
        exact hmono k (get_remove_and_of_zero _ _ _ hk)
      · intro k hk
        rw [hdisj k (fun h1 hm => hk h1 (List.mem_cons_of_mem _ hm))]
        exact get_remove_and_of_disjoint _ _ _ (hk h (List.mem_cons_self _ _))

/-- Every handler is in the list `main` goes through. -/
theorem mem_dispatch_order (h : APP_HANDLER) : h ∈ dispatch_order := by
  cases h <;> decide

/-- C22, as stated, fails at two inputs, nothing being posted during the pass.
With `LETIMER0_COMP0_CB | BOOT_UP_CB` pending the handler
`scheduled_letimer0_comp0_cb` is called and stops at its `EFM_ASSERT(false)`;
the handler of the boot-up event, which was pending, is never called, and the
boot-up event is still pending. With `BOOT_UP_CB | ICM_RX_DONE` pending and
`ICM_TDD_CONFIG` returning `false`, `scheduled_boot_up_cb` is called and stops
at `EFM_ASSERT(icm_success)`; the handler of `ICM_RX_DONE`, which was pending,
is never called, and `ICM_RX_DONE` is still pending. -/
theorem pending_handler_stops_the_pass :
    (pending_handlers APP_EVENTS.oneBitEach ⟨0x11⟩ =
        [.scheduled_letimer0_comp0_cb, .scheduled_boot_up_cb] ∧
      (main_pass APP_EVENTS.oneBitEach (PassPosts.quiet (fun _ => 0))
        { sched := ⟨0x11⟩, entered := [], invoked := [] }).map Outcome.isAssertFail
          = some true ∧
      (match main_pass APP_EVENTS.oneBitEach (PassPosts.quiet (fun _ => 0))
          { sched := ⟨0x11⟩, entered := [], invoked := [] } with
        | some (.assertFail w1) =>
          (w1.invoked.map Prod.fst,
            get_scheduled_events w1.sched &&& APP_EVENTS.oneBitEach.BOOT_UP_CB)
        | _ => ([], 0)) = ([.scheduled_letimer0_comp0_cb], 0x10)) ∧
    (pending_handlers APP_EVENTS.oneBitEach ⟨0x90⟩ =
        [.scheduled_boot_up_cb, .scheduled_icm_done_read_cb] ∧
      (main_pass APP_EVENTS.oneBitEach
        (PassPosts.silent (fun _ => 0) (fun _ => .returns) .returns false)
        { sched := ⟨0x90⟩, entered := [], invoked := [] }).map Outcome.isAssertFail
          = some true ∧
      (match main_pass APP_EVENTS.oneBitEach
          (PassPosts.silent (fun _ => 0) (fun _ => .returns) .returns false)
          { sched := ⟨0x90⟩, entered := [], invoked := [] } with
        | some (.assertFail w1) =>
          (w1.invoked.map Prod.fst,
            get_scheduled_events w1.sched &&& APP_EVENTS.oneBitEach.ICM_RX_DONE)
        | _ => ([], 0)) = ([.scheduled_boot_up_cb], 0x80)) := by
  refine ⟨⟨by decide, by decide, by decide⟩, ⟨by decide, by decide, by decide⟩⟩

/-- C22, amended. For every pending set at the start of one pass of the loop in
which the event of `scheduled_letimer0_comp0_cb` is not pending, with masks
that are pairwise disjoint, handlers and interrupts that post nothing during
the pass, and the driver calls of every handler whose event is pending
returning, `ICM_TDD_CONFIG` with `true`: the pass completes, the handlers
called are exactly those whose event was pending, each once, in the order
LETIMER0_UF, LETIMER0_COMP0, LETIMER0_COMP1, Si1133_LIGHT_READ, BOOT_UP,
BLE_TX_DONE, ICM_RX_1, ICM_RX_DONE, and none of the eight events is pending
after the pass. -/
theorem pass_dispatches_pending_in_order (ev : APP_EVENTS) (t : BlockTable)
    (ends : APP_HANDLER → CALL_END) (config : CALL_END) (icm_success : Bool) (w : MainWorld)
    (hdisj : dispatch_order.Pairwise
      (fun a b => (a.event ev % 2 ^ 32) &&& (b.event ev % 2 ^ 32) = 0))
    (hcomp0 : get_scheduled_events w.sched &&& (ev.LETIMER0_COMP0_CB % 2 ^ 32) = 0)
    (hends : ∀ h : APP_HANDLER,
      get_scheduled_events w.sched &&& (h.event ev % 2 ^ 32) ≠ 0 → ends h = .returns)
    (hicm : get_scheduled_events w.sched &&& (ev.BOOT_UP_CB % 2 ^ 32) ≠ 0 →
      config = .returns ∧ icm_success = true) :
    ∃ w1, main_pass ev (PassPosts.silent t ends config icm_success) w = some (.ok w1) ∧
      w1.invoked.map Prod.fst = w.invoked.map Prod.fst ++ pending_handlers ev w.sched ∧
      (pending_handlers ev w.sched).Nodup ∧
      (pending_handlers ev w.sched).Sublist dispatch_order ∧
      (∀ h : APP_HANDLER, h ∈ pending_handlers ev w.sched ↔
        get_scheduled_events w.sched &&& (h.event ev % 2 ^ 32) ≠ 0) ∧
      (∀ h : APP_HANDLER, get_scheduled_events w1.sched &&& (h.event ev % 2 ^ 32) = 0) := by
  obtain ⟨hs, hi⟩ := main_idle_silent t ends config icm_success w
  obtain ⟨w1, hrun, hinv, hclear, _, _, _⟩ :=
    foldl_dispatch_silent ev t ends config icm_success dispatch_order
      (main_idle (PassPosts.silent t ends config icm_success) w) hdisj
      (by
        intro h _ hp
        rw [hs] at hp
        refine ⟨?_, hends h hp, ?_⟩
        · intro he
          rw [he] at hp
          exact hp hcomp0
        · intro he
          rw [he] at hp
          exact hicm hp)
  rw [hs, hi] at hinv
  refine ⟨w1, ?_, hinv, ?_, List.filter_sublist _, ?_, fun h => hclear h (mem_dispatch_order h)⟩
  · rw [main_pass_eq_foldl]
    exact hrun
  · exact List.Nodup.filter _ (by decide)
  · intro h
    simp [pending_handlers, mem_dispatch_order]

/-- Witness for C22: the masks one bit each, the underflow, boot-up and second
ICM events pending, every driver call returning. -/
theorem pass_dispatches_pending_in_order_witness :
    ∃ w1, main_pass APP_EVENTS.oneBitEach
        (PassPosts.silent (fun _ => 0) (fun _ => .returns) .returns true)
        { sched := ⟨0x94⟩, entered := [], invoked := [] } = some (.ok w1) ∧
      w1.invoked.map Prod.fst =
        [.scheduled_letimer0_uf_cb, .scheduled_boot_up_cb, .scheduled_icm_done_read_cb] ∧
      (∀ h : APP_HANDLER,
        get_scheduled_events w1.sched &&& (h.event APP_EVENTS.oneBitEach % 2 ^ 32) = 0) := by
  obtain ⟨w1, hrun, hinv, _, _, _, hclear⟩ :=
    pass_dispatches_pending_in_order APP_EVENTS.oneBitEach (fun _ => 0) (fun _ => .returns)
      .returns true { sched := ⟨0x94⟩, entered := [], invoked := [] } (by decide) (by decide)
      (fun _ _ => rfl) (fun _ => ⟨rfl, rfl⟩)
  exact ⟨w1, hrun, hinv, hclear⟩

/-- A bit that no post can clear and that the mask of the handler does not
hold stays set through the `if` statement of the handler, and the statement
does not touch the sleep log. -/
theorem dispatch_keeps_bit (ev : APP_EVENTS) (env : PassPosts) (h : APP_HANDLER)
    (w w1 : MainWorld) (i : Nat)
    (hout : (h.event ev).testBit i = false)
    (hset : (get_scheduled_events w.sched).testBit i = true)
    (hrun : dispatch ev env h w = some (.ok w1) ∨
      dispatch ev env h w = some (.assertFail w1)) :
    (get_scheduled_events w1.sched).testBit i = true ∧ w1.entered = w.entered := by
  have h1 : (get_scheduled_events (post_all w.sched (env.beforeTest h))).testBit i = true := by
    rw [testBit_get_post_all, hset]
    rfl
  by_cases hp : get_scheduled_events (post_all w.sched (env.beforeTest h)) &&&
      (h.event ev % 2 ^ 32) = 0
  · rw [dispatch_of_not_pending ev env h w hp] at hrun
    rcases hrun with hrun | hrun
    · simp only [Option.some.injEq, Outcome.ok.injEq] at hrun
      rw [← hrun]
      exact ⟨h1, rfl⟩
    · exact absurd hrun (by simp)
  · rw [dispatch_of_pending ev env h w hp] at hrun
    have h2 : (get_scheduled_events (post_all
        (remove_scheduled_event (post_all w.sched (env.beforeTest h)) (h.event ev))
        (env.beforeHandler h))).testBit i = true := by
      rw [testBit_get_post_all, testBit_get_remove_scheduled_event, h1, hout]
      rfl
    obtain ⟨hent, _, L, hs⟩ := APP_HANDLER.call_frame ev env h _ w1 hrun
    refine ⟨?_, hent⟩
    rw [hs, testBit_get_post_all, h2]
    rfl

/-- One `if` statement of the loop never touches the sleep log. -/
theorem dispatch_entered (ev : APP_EVENTS) (env : PassPosts) (h : APP_HANDLER)
    (w w1 : MainWorld)
    (hrun : dispatch ev env h w = some (.ok w1) ∨
      dispatch ev env h w = some (.assertFail w1)) :
    w1.entered = w.entered := by
  by_cases hp : get_scheduled_events (post_all w.sched (env.beforeTest h)) &&&
      (h.event ev % 2 ^ 32) = 0
  · rw [dispatch_of_not_pending ev env h w hp] at hrun
    rcases hrun with hrun | hrun
    · simp only [Option.some.injEq, Outcome.ok.injEq] at hrun
      rw [← hrun]
    · exact absurd hrun (by simp)
  · rw [dispatch_of_pending ev env h w hp] at hrun
    exact (APP_HANDLER.call_frame ev env h _ w1 hrun).1

/-- A property of the world that every `if` statement of the loop keeps,
whether its handler returns or stops at an assertion, holds after a list of
them. -/
theorem foldl_dispatch_invariant (ev : APP_EVENTS) (env : PassPosts)
    (P : MainWorld → Prop)
    (hstep : ∀ (h : APP_HANDLER) (w w1 : MainWorld), P w →
      (dispatch ev env h w = some (.ok w1) ∨ dispatch ev env h w = some (.assertFail w1)) →
      P w1)
    (L : List APP_HANDLER) :
    ∀ (w w1 : MainWorld), P w →
      (L.foldl (dispatch_next ev env) (some (.ok w)) = some (.ok w1) ∨
        L.foldl (dispatch_next ev env) (some (.ok w)) = some (.assertFail w1)) →
      P w1 := by
  induction L with
  | nil =>
    intro w w1 hP hrun
    simp only [List.foldl_nil] at hrun
    rcases hrun with hrun | hrun
    · simp only [Option.some.injEq, Outcome.ok.injEq] at hrun
      rw [← hrun]
      exact hP
    · exact absurd hrun (by simp)
  | cons h tl ih =>
    intro w w1 hP hrun
    simp only [List.foldl_cons, dispatch_next, seqRun] at hrun
    cases hd : dispatch ev env h w with
    | none =>
      rw [hd] at hrun
      rw [foldl_dispatch_never] at hrun
      rcases hrun with hrun | hrun <;> exact absurd hrun (by simp)
    | some o =>
      cases o with
      | ok w2 =>
        rw [hd] at hrun
        exact ih w2 w1 (hstep h w w2 hP (Or.inl hd)) hrun
      | assertFail w2 =>
        rw [hd] at hrun
        rw [foldl_dispatch_assertFail] at hrun
        rcases hrun with hrun | hrun
        · exact absurd hrun (by simp)
        · simp only [Option.some.injEq, Outcome.assertFail.injEq] at hrun
          rw [← hrun]
          exact hstep h w w2 hP (Or.inr hd)
      | undefined =>
        rw [hd] at hrun
        rw [foldl_dispatch_undefined] at hrun
        rcases hrun with hrun | hrun <;> exact absurd hrun (by simp)

/-- A word with a bit set is not zero. -/
theorem ne_zero_of_testBit {n i : Nat} (h : n.testBit i = true) : n ≠ 0 := by
  intro hz
  rw [hz, Nat.zero_testBit] at h
  exact absurd h (by simp)

/-- Posting events to a pending set with a bit set leaves it not zero. -/
theorem post_all_ne_zero {s : Scheduler} {i : Nat}
    (h : (get_scheduled_events s).testBit i = true) (posted : List Nat) :
    get_scheduled_events (post_all s posted) ≠ 0 := by
  apply ne_zero_of_testBit (i := i)
  rw [testBit_get_post_all, h]
  rfl

/-- A pass with a bit outside the eight masks pending: the bit is still pending
at the end, and `enter_sleep` has not been called. -/
theorem main_pass_keeps_bit (ev : APP_EVENTS) (env : PassPosts) (i : Nat)
    (hout : ∀ h : APP_HANDLER, (h.event ev).testBit i = false) (w w1 : MainWorld)
    (hset : (get_scheduled_events w.sched).testBit i = true)
    (hrun : main_pass ev env w = some (.ok w1) ∨ main_pass ev env w = some (.assertFail w1)) :
    (get_scheduled_events w1.sched).testBit i = true ∧ w1.entered = w.entered := by
  rw [main_pass_eq_foldl] at hrun
  have h0 : (get_scheduled_events (post_all w.sched env.atCheck)).testBit i = true := by
    rw [testBit_get_post_all, hset]
    rfl
  have hidle : main_idle env w = { w with sched := post_all w.sched env.atCheck } := by
    unfold main_idle idle_check
    simp only [if_neg (ne_zero_of_testBit h0)]
  rw [hidle] at hrun
  exact foldl_dispatch_invariant ev env
    (fun x => (get_scheduled_events x.sched).testBit i = true ∧ x.entered = w.entered)
    (fun h x x1 hx hd =>
      ⟨(dispatch_keeps_bit ev env h x x1 i (hout h) hx.1 hd).1,
        (dispatch_entered ev env h x x1 hd).trans hx.2⟩)
    dispatch_order { w with sched := post_all w.sched env.atCheck } w1 ⟨h0, rfl⟩ hrun

/-- C30. If a bit outside the eight event masks the loop dispatches is set in
the pending set, then after any number of passes, whatever is posted in them,
however the driver calls of the handlers end, and whether the last pass
completes or stops at an assertion, the bit is still set,
`get_scheduled_events` is not zero at the next idle check whatever is
posted before it, and `enter_sleep` has not been called again. In every pass
the loop calls `enter_sleep` if and only if the pending set is zero at the idle
check: the sleep log grows by the instruction `enter_sleep` issues when it is
zero, and is untouched when it is not. -/
theorem stray_bit_blocks_sleep (ev : APP_EVENTS) (i : Nat)
    (hout : ∀ h : APP_HANDLER, (h.event ev).testBit i = false) :
    (∀ (envs : List PassPosts) (w w1 : MainWorld),
      (get_scheduled_events w.sched).testBit i = true →
      (main_loop ev w envs = some (.ok w1) ∨ main_loop ev w envs = some (.assertFail w1)) →
      (get_scheduled_events w1.sched).testBit i = true ∧
        (∀ posted, get_scheduled_events (post_all w1.sched posted) ≠ 0) ∧
        w1.entered = w.entered) ∧
    (∀ (env : PassPosts) (w w1 : MainWorld),
      (main_pass ev env w = some (.ok w1) ∨ main_pass ev env w = some (.assertFail w1)) →
      (get_scheduled_events (post_all w.sched env.atCheck) = 0 ∧
          w1.entered = w.entered ++ [enter_sleep env.table]) ∨
        (get_scheduled_events (post_all w.sched env.atCheck) ≠ 0 ∧
          w1.entered = w.entered)) := by
  constructor
  · intro envs
    induction envs with
    | nil =>
      intro w w1 hset hrun
      simp only [main_loop] at hrun
      rcases hrun with hrun | hrun
      · simp only [Option.some.injEq, Outcome.ok.injEq] at hrun
        rw [← hrun]
        exact ⟨hset, fun posted => post_all_ne_zero hset posted, rfl⟩
      · exact absurd hrun (by simp)
    | cons env tl ih =>
      intro w w1 hset hrun
      simp only [main_loop, seqRun] at hrun
      cases hp : main_pass ev env w with
      | none =>
        rw [hp] at hrun
        rcases hrun with hrun | hrun <;> exact absurd hrun (by simp)
      | some o =>
        cases o with
        | ok w2 =>
          rw [hp] at hrun
          obtain ⟨hb, he⟩ := main_pass_keeps_bit ev env i hout w w2 hset (Or.inl hp)
          obtain ⟨hb1, hn1, he1⟩ := ih w2 w1 hb hrun
          exact ⟨hb1, hn1, he1.trans he⟩
        | assertFail w2 =>
          rw [hp] at hrun
          rcases hrun with hrun | hrun
          · exact absurd hrun (by simp)
          · simp only [Option.some.injEq, Outcome.assertFail.injEq] at hrun
            rw [← hrun]
            obtain ⟨hb, he⟩ := main_pass_keeps_bit ev env i hout w w2 hset (Or.inr hp)
            exact ⟨hb, fun posted => post_all_ne_zero hb posted, he⟩
        | undefined =>
          rw [hp] at hrun
          rcases hrun with hrun | hrun <;> exact absurd hrun (by simp)
  · intro env w w1 hrun
    rw [main_pass_eq_foldl] at hrun
    have hent := foldl_dispatch_invariant ev env
      (fun x => x.entered = (main_idle env w).entered)
      (fun h x x1 hx hd => (dispatch_entered ev env h x x1 hd).trans hx)
      dispatch_order (main_idle env w) w1 rfl hrun
    by_cases hz : get_scheduled_events (post_all w.sched env.atCheck) = 0
    · left
      refine ⟨hz, ?_⟩
      rw [hent]
      unfold main_idle idle_check
      simp only [if_pos hz]
    · right
      refine ⟨hz, ?_⟩
      rw [hent]
      unfold main_idle idle_check
      simp only [if_neg hz]

/-- Witness for C30: the masks one bit each and bit 8 pending together with the
boot-up event; after two passes, the second with the underflow event posted
before the idle check, bit 8 is still pending and `enter_sleep` has not been
called. -/
theorem stray_bit_blocks_sleep_witness :
    ∃ w1, main_loop APP_EVENTS.oneBitEach { sched := ⟨0x110⟩, entered := [], invoked := [] }
        [PassPosts.quiet (fun _ => 0),
          { PassPosts.quiet (fun _ => 0) with atCheck := [0x04] }] = some (.ok w1) ∧
      w1.invoked.map Prod.fst = [.scheduled_boot_up_cb, .scheduled_letimer0_uf_cb] ∧
      (get_scheduled_events w1.sched).testBit 8 = true ∧
      (∀ posted, get_scheduled_events (post_all w1.sched posted) ≠ 0) ∧ w1.entered = [] :=
  ⟨((main_loop APP_EVENTS.oneBitEach { sched := ⟨0x110⟩, entered := [], invoked := [] }
      [PassPosts.quiet (fun _ => 0),
        { PassPosts.quiet (fun _ => 0) with atCheck := [0x04] }]).bind Outcome.result?).getD
      { sched := ⟨0⟩, entered := [], invoked := [] }, rfl, rfl,
    (stray_bit_blocks_sleep APP_EVENTS.oneBitEach 8 (by intro h; cases h <;> rfl)).1
      [PassPosts.quiet (fun _ => 0), { PassPosts.quiet (fun _ => 0) with atCheck := [0x04] }]
      { sched := ⟨0x110⟩, entered := [], invoked := [] } _ rfl (Or.inl rfl)⟩

end ECEN2370
